import Mathlib

/-!
# pcli: plugin-driven wizard engine

A shallow embedding of the Go sources of `pcli` (packages `postplugin`,
`langenv`, `goproject`, `global`, `projecttype` and `ui`) together with the properties
established about them.

Conventions of the embedding:

* Go strings are Lean `String`s (valid UTF-8 text); the helpers of package
  `strings` are defined on the character list of the string.
* A Go `error` is an `Option String`: `none` is `nil`, `some e` is an error
  whose `Error()` text is `e`.
* A `float64` is the rational number it denotes; the sum of two of them is the exact sum
  rounded to the nearest number of 53 significant bits, ties to even (`float64.add`), and
  a decimal constant is rounded in the same way (`float64.round`).
* Everything the code observes outside the repository (files, the search path,
  the home directory, the results of external commands, the behaviour of the
  terminal widgets) is read from a record `Env`, passed explicitly.
* Package-level variables (the plugin registry) are passed explicitly.
* The file system the post-create wizard writes to is a record `global.FileSys` of the
  calls on an explicit state, and the calls made are returned with the result.
* The goroutines of `runInstallWithOutput` are a step function over the choices of the
  scheduler, on unbuffered channels.
-/

/-! ## Definitions -/

namespace unicode

/-- Go `unicode.IsSpace`: the code points with the Unicode White_Space property. -/
def IsSpace (c : Char) : Bool :=
  let n := c.toNat
  n == 0x09 || n == 0x0A || n == 0x0B || n == 0x0C || n == 0x0D || n == 0x20 ||
  n == 0x85 || n == 0xA0 || n == 0x1680 || (0x2000 ≤ n && n ≤ 0x200A) ||
  n == 0x2028 || n == 0x2029 || n == 0x202F || n == 0x205F || n == 0x3000

end unicode

namespace strings

/-- Removes from both ends of `l` the characters satisfying `p`. -/
def trimChars (p : Char → Bool) (l : List Char) : List Char :=
  ((l.dropWhile p).reverse.dropWhile p).reverse

/-- Go `strings.TrimSpace`: `s` without leading and trailing white space. -/
def TrimSpace (s : String) : String :=
  ⟨trimChars unicode.IsSpace s.data⟩

/-- Go `strings.Trim`: `s` without the leading and trailing characters that occur in `cutset`. -/
def Trim (s cutset : String) : String :=
  ⟨trimChars (fun c => cutset.data.contains c) s.data⟩

/-- Go `strings.HasPrefix`. -/
def HasPrefix (s pre : String) : Bool :=
  pre.data.isPrefixOf s.data

/-- Go `strings.TrimPrefix`: `s` without the leading `pre`, or `s` itself when it does not
start with `pre`. -/
def TrimPrefix (s pre : String) : String :=
  if HasPrefix s pre then ⟨s.data.drop pre.data.length⟩ else s

/-- Pieces of `l` between the occurrences of the separator character `sep`. -/
def splitChars (sep : Char) : List Char → List (List Char)
  | [] => [[]]
  | c :: cs =>
    if c = sep then [] :: splitChars sep cs
    else
      match splitChars sep cs with
      | [] => [[c]]
      | p :: ps => (c :: p) :: ps

/-- Go `strings.Split(s, sep)` for a separator of one character (the program only splits
on "/" and on the newline): all the substrings of `s` separated by `sep`, one more
than the number of occurrences of `sep`. -/
def Split (s : String) (sep : Char) : List String :=
  (splitChars sep s.data).map String.mk

end strings

namespace postplugin

/-- The interface `postplugin.Plugin`, as the record of what its methods return;
`W` is the type of the wizards (`tea.Model`) the plugins build. -/
structure Plugin (W : Type) where
  ID : String
  DisplayName : String
  NewWizard : (projectPath projectType : String) → W

/-- `postplugin.Register` on the package variable `plugins`, passed explicitly:
the plugin is appended. -/
def Register {W : Type} (p : Plugin W) (plugins : List (Plugin W)) : List (Plugin W) :=
  plugins ++ [p]

/-- `postplugin.All`: a fresh slice `out` of length `len(plugins)` with `out[i] = plugins[i]`. -/
def All {W : Type} (plugins : List (Plugin W)) : List (Plugin W) :=
  List.ofFn (fun i : Fin plugins.length => plugins.get i)

/-- The registry after the calls `Register(p1)`, ..., `Register(pn)`, in that order. -/
def RegisterEach {W : Type} (ps : List (Plugin W)) (plugins : List (Plugin W)) :
    List (Plugin W) :=
  ps.foldl (fun reg p => Register p reg) plugins

end postplugin

namespace bufio

/-- Go `bufio.MaxScanTokenSize`: the size of the buffer of a `Scanner`. -/
def MaxScanTokenSize : Nat := 64 * 1024

/-- A line that does not fit in the scanner's buffer (the scan stops there with `ErrTooLong`). -/
def tooLong (l : List Char) : Bool :=
  decide (MaxScanTokenSize ≤ (String.mk l).utf8ByteSize)

/-- Go `dropCR`: the line without its final carriage return, if it has one. -/
def dropCR (l : List Char) : List Char :=
  if l.getLast? = some '\r' then l.dropLast else l

/-- The tokens of a `Scanner` with the default `ScanLines` split function, from the
pieces of the input between newlines: every piece but the last is a terminated line;
the last piece is a line only when it is not empty. -/
def scanPieces : List (List Char) → List String
  | [] => []
  | [last] => if last.isEmpty || tooLong last then [] else [String.mk (dropCR last)]
  | p :: q :: rest => if tooLong p then [] else String.mk (dropCR p) :: scanPieces (q :: rest)

/-- The successive values of `scanner.Text()` over the content `s`. -/
def ScanLines (s : String) : List String :=
  scanPieces (strings.splitChars '\n' s.data)

end bufio

namespace exec

/-- The part of `exec.Cmd` the program sets: the argument vector and the working directory. -/
structure Cmd where
  Args : List String
  Dir : String
deriving DecidableEq

/-- Go `exec.Command(name, arg...)`. -/
def Command (name : String) (arg : List String) : Cmd :=
  ⟨name :: arg, ""⟩

end exec

namespace tea

/-- A channel `chan tea.Msg`, by identity. -/
abbrev Chan := Nat

/-- The messages (`tea.Msg`) a wizard receives: a key press with its `String()` form, the
three messages of the install runner, or a message of any other type. -/
inductive Msg where
  | KeyMsg (key : String)
  | installProgressMsg
  | installLogMsg (Line : String)
  | installFinishedMsg (Err : Option String)
  | other (tag : Nat)
deriving DecidableEq

/-- The commands (`tea.Cmd`) the wizards return: `tea.Quit`, the closure built by
`waitInstallEvent(ch)`, or a command produced by a widget of the `bubbles` library. -/
inductive Cmd where
  | Quit
  | waitInstallEvent (ch : Chan)
  | widget (tag : Nat)
deriving DecidableEq

end tea

namespace textinput

/-- The observable part of `textinput.Model`. -/
structure Model where
  Placeholder : String
  value : String
  focus : Bool
deriving DecidableEq

/-- Go `textinput.Model.Value`. -/
def Model.Value (m : Model) : String := m.value

end textinput

namespace progress

/-- The observable part of `progress.Model`. -/
structure Model where
  Width : Int
  targetPercent : ℚ
  tag : Nat
deriving DecidableEq

end progress

/-- The world outside the repository at the time of a call: the operating system
(files, search path, external commands), the Go runtime and standard library, and
the widgets of the `bubbles` library. -/
structure Env where
  /-- Go `os.ReadFile`: the content of the file, `none` on error. -/
  ReadFile : String → Option String
  /-- Go `os.UserHomeDir`: `none` on error. -/
  UserHomeDir : Option String
  /-- Go `os.ExpandEnv`. -/
  ExpandEnv : String → String
  /-- Go `filepath.Join` of two elements. -/
  Join : String → String → String
  /-- Go `exec.LookPath`: whether the executable is found. -/
  LookPath : String → Bool
  /-- Go `runtime.GOOS`. -/
  GOOS : String
  /-- Go `os.MkdirAll(path, 0o755)`: the error, if any. -/
  MkdirAll : String → Option String
  /-- Go `(*exec.Cmd).CombinedOutput`: the output and the error, if any. -/
  CombinedOutput : exec.Cmd → String × Option String
  /-- The channel returned by `make(chan tea.Msg)`. -/
  makeChan : tea.Chan
  /-- Go `textinput.New()`. -/
  textinputNew : textinput.Model
  /-- Go `(*textinput.Model).SetValue`. -/
  textinputSetValue : textinput.Model → String → textinput.Model
  /-- Go `textinput.Model.Update`. -/
  textinputUpdate : textinput.Model → tea.Msg → textinput.Model × Option tea.Cmd
  /-- Go `progress.New(progress.WithDefaultGradient())`. -/
  progressNew : progress.Model
  /-- Go `progress.Model.Update`. -/
  progressUpdate : progress.Model → tea.Msg → progress.Model × Option tea.Cmd
  /-- Go `(*progress.Model).SetPercent`; the command it returns is dropped by the callers. -/
  progressSetPercent : progress.Model → ℚ → progress.Model

namespace langenv

/-- The type `langenv.Language`. -/
abbrev Language := String

/-- The constant `langenv.LanguageGo`. -/
def LanguageGo : Language := "go"

/-- `langenv.existsInPath`. -/
def existsInPath (env : Env) (bin : String) : Bool :=
  env.LookPath bin

/-- `langenv.IsInstalled`. -/
def IsInstalled (env : Env) (lang : Language) : Bool :=
  if lang = LanguageGo then env.LookPath "go" else false

/-- The loop of `langenv.parseOsReleaseID` over the scanned lines. -/
def parseOsReleaseLines : List String → String
  | [] => ""
  | line :: rest =>
    if strings.HasPrefix line "ID=" then
      let val := strings.TrimPrefix line "ID="
      let val := strings.Trim val "\""
      let val := strings.TrimSpace val
      val
    else parseOsReleaseLines rest

/-- `langenv.parseOsReleaseID`. -/
def parseOsReleaseID (content : String) : String :=
  parseOsReleaseLines (bufio.ScanLines content)

/-- The fallback of `langenv.detectLinuxPackageManager`: probe the common binaries. -/
def detectByBinaries (env : Env) : String :=
  if existsInPath env "apt-get" then "apt"
  else if existsInPath env "dnf" then "dnf"
  else if existsInPath env "pacman" then "pacman"
  else ""

/-- `langenv.detectLinuxPackageManager`. -/
def detectLinuxPackageManager (env : Env) : String :=
  match env.ReadFile "/etc/os-release" with
  | some data =>
    let id := parseOsReleaseID data
    if id = "ubuntu" ∨ id = "debian" ∨ id = "linuxmint" ∨ id = "pop" then "apt"
    else if id = "fedora" ∨ id = "rhel" ∨ id = "centos" ∨ id = "rocky" ∨ id = "almalinux" then "dnf"
    else if id = "arch" ∨ id = "manjaro" ∨ id = "endeavouros" then "pacman"
    else detectByBinaries env
  | none => detectByBinaries env

/-- `langenv.installGoCommand`: the command, or the error. -/
def installGoCommand (env : Env) : Except String exec.Cmd :=
  if env.GOOS ≠ "linux" then
    .error "automatic Go installation is only supported on Linux; please install Go manually"
  else
    let pm := detectLinuxPackageManager env
    if pm = "apt" then
      .ok (exec.Command "sh" ["-c", "sudo apt-get update && sudo apt-get install -y golang-go"])
    else if pm = "dnf" then
      .ok (exec.Command "sh" ["-c", "sudo dnf install -y golang"])
    else if pm = "pacman" then
      .ok (exec.Command "sh" ["-c", "sudo pacman -Sy --noconfirm go"])
    else
      .error "unsupported Linux distro for automatic Go install; please install Go manually"

/-- `langenv.InstallCommand`. -/
def InstallCommand (env : Env) (lang : Language) : Except String exec.Cmd :=
  if lang = LanguageGo then installGoCommand env
  else .error ("no installer defined for language: " ++ lang)

/-- `langenv.ExpandPathEnv`. -/
def ExpandPathEnv (env : Env) (s : String) : String :=
  let s := env.ExpandEnv s
  if strings.HasPrefix s "~/" then
    match env.UserHomeDir with
    | some home => if home ≠ "" then env.Join home (strings.TrimPrefix s "~/") else s
    | none => s
  else s

end langenv

namespace float64

/-- The integer nearest to `x`, the even one of the two when `x` lies halfway between two
integers. -/
def roundHalfEven (x : ℚ) : ℤ :=
  let f := ⌊x⌋
  let r := x - f
  if r < 1 / 2 then f
  else if 1 / 2 < r then f + 1
  else if f % 2 = 0 then f
  else f + 1

/-- The `float64` nearest to the rational `q`: `q` rounded to 53 significant bits, ties to
even. The range of the exponent is not bounded here (no overflow to an infinity, no
subnormal numbers); the progress estimate stays between 0 and 1. -/
def round (q : ℚ) : ℚ :=
  if q = 0 then 0
  else
    let e : ℤ := Int.log 2 |q| - 52
    (roundHalfEven (q / 2 ^ e) : ℚ) * 2 ^ e

/-- Go `a + b` on two `float64`: the exact sum, rounded. -/
def add (a b : ℚ) : ℚ :=
  round (a + b)

end float64

namespace goproject

/-- The steps of the Go wizard (`goWizardStep`). -/
inductive goWizardStep where
  | goStepModulePath
  | goStepSummary
  | goStepInstallPrompt
  | goStepInstalling
  | goStepDone
deriving DecidableEq

open goWizardStep

/-- The state of the Go wizard; `progressValue` is a Go `float64`, here the rational number
it denotes. -/
structure GoWizardModel where
  step : goWizardStep
  modulePath : String
  projectDir : String
  errMsg : String
  modulePathInput : textinput.Model
  progress : progress.Model
  progressValue : ℚ
  installEvents : Option tea.Chan
  logLines : List String

/-- What a call changes outside the wizard state, in the order of the calls. -/
inductive Effect where
  /-- A call `os.MkdirAll(path, 0o755)`. -/
  | MkdirAll (path : String)
  /-- A command run to completion with `CombinedOutput`. -/
  | Run (cmd : exec.Cmd)
  /-- The statement `go runInstallWithOutput(cmd, ch)`. -/
  | goRunInstallWithOutput (cmd : exec.Cmd) (ch : tea.Chan)
deriving DecidableEq

/-- The `tea.Model` returned by `Update`: the Go wizard itself, or the wizard built by a
post-create plugin. -/
inductive Model (W : Type) where
  | self (m : GoWizardModel)
  | handoff (w : W)

/-- The result of `Update`: the returned model, the returned command (the members of the
batch; `nil` is the empty list, `tea.Quit` the list of `Quit` alone) and the effects. -/
structure Outcome (W : Type) where
  model : Model W
  cmd : List tea.Cmd
  effects : List Effect

/-- The loop shared by `loadDefaultModulePath` and `loadDefaultProjectBasePath`: the trimmed
value of the first line that starts with `key` and has a non-blank value. -/
def firstValue (key : String) : List String → Option String
  | [] => none
  | line :: rest =>
    if strings.HasPrefix line key then
      let val := strings.TrimPrefix line key
      let val := strings.TrimSpace val
      if val ≠ "" then some val else firstValue key rest
    else firstValue key rest

/-- `goproject.loadDefaultModulePath`. -/
def loadDefaultModulePath (env : Env) : String :=
  match env.ReadFile ".env" with
  | none => "github.com/you/your-service"
  | some data =>
    let lines := strings.Split data '\n'
    match firstValue "DEFAULT_GO_PROJECT_MODULE_PATH=" lines with
    | some val => langenv.ExpandPathEnv env val
    | none => "github.com/you/your-service"

/-- The end of `loadDefaultProjectBasePath`: the `Documents` directory of the home directory. -/
def homeDocuments (env : Env) : String :=
  match env.UserHomeDir with
  | some home => if home ≠ "" then env.Join home "Documents" else "."
  | none => "."

/-- `goproject.loadDefaultProjectBasePath`. -/
def loadDefaultProjectBasePath (env : Env) : String :=
  match env.ReadFile ".env" with
  | some data =>
    let lines := strings.Split data '\n'
    match firstValue "DEFAULT_GO_PROJECT_PATH=" lines with
    | some val => langenv.ExpandPathEnv env val
    | none => homeDocuments env
  | none => homeDocuments env

/-- `goproject.deriveProjectNameFromModule`. -/
def deriveProjectNameFromModule (modulePath : String) : String :=
  let modulePath := strings.TrimSpace modulePath
  if modulePath = "" then "go-project"
  else
    let parts := strings.Split modulePath '/'
    parts.getD (parts.length - 1) ""

/-- `goproject.previewProjectDir`. -/
def previewProjectDir (env : Env) (modulePath : String) : String :=
  let base := loadDefaultProjectBasePath env
  let name := deriveProjectNameFromModule modulePath
  env.Join base name

/-- The result of `createGoProject`: the directory, the error, and the effects. -/
structure Created where
  dir : String
  err : Option String
  effects : List Effect

/-- `goproject.createGoProject`. -/
def createGoProject (env : Env) (modulePath : String) : Created :=
  let modulePath := strings.TrimSpace modulePath
  if modulePath = "" then ⟨"", some "module path cannot be empty", []⟩
  else
    let base := loadDefaultProjectBasePath env
    let name := deriveProjectNameFromModule modulePath
    let projectDir := env.Join base name
    match env.MkdirAll projectDir with
    | some e =>
      ⟨projectDir, some ("failed to create project directory: " ++ e), [.MkdirAll projectDir]⟩
    | none =>
      let modInit : exec.Cmd := { exec.Command "go" ["mod", "init", modulePath] with Dir := projectDir }
      match env.CombinedOutput modInit with
      | (out, some e) =>
        ⟨projectDir, some ("go mod init failed: " ++ e ++ "\n" ++ out),
          [.MkdirAll projectDir, .Run modInit]⟩
      | (_, none) =>
        let modTidy : exec.Cmd := { exec.Command "go" ["mod", "tidy"] with Dir := projectDir }
        match env.CombinedOutput modTidy with
        | (out, some e) =>
          ⟨projectDir, some ("go mod tidy failed: " ++ e ++ "\n" ++ out),
            [.MkdirAll projectDir, .Run modInit, .Run modTidy]⟩
        | (_, none) =>
          ⟨projectDir, none, [.MkdirAll projectDir, .Run modInit, .Run modTidy]⟩

/-- `goproject.NewGoWizardModel`. -/
def NewGoWizardModel (env : Env) : GoWizardModel :=
  let defaultModule := loadDefaultModulePath env
  let ti := env.textinputNew
  let ti := { ti with Placeholder := defaultModule }
  let ti := env.textinputSetValue ti defaultModule
  let ti := { ti with focus := true }
  let prog := env.progressNew
  let prog := { prog with Width := 40 }
  { step := goStepModulePath
    modulePath := ""
    projectDir := ""
    errMsg := ""
    modulePathInput := ti
    progress := prog
    progressValue := 0
    installEvents := none
    logLines := [] }

/-- The constant `maxLines` of `appendLogLine`. -/
def maxLines : Nat := 50

/-- `(*GoWizardModel).appendLogLine`. -/
def appendLogLine (m : GoWizardModel) (line : String) : GoWizardModel :=
  if line = "" then m
  else
    let logLines := m.logLines ++ [line]
    if logLines.length > maxLines then
      { m with logLines := logLines.drop (logLines.length - maxLines) }
    else
      { m with logLines := logLines }

/-- The end of `Update`, reached when no branch has returned: the text input is updated
in the module path step, and the batch of the collected commands is returned. -/
def updateTail {W : Type} (env : Env) (m : GoWizardModel) (cmds : List tea.Cmd) (msg : tea.Msg) :
    Outcome W :=
  if m.step = goStepModulePath then
    let r := env.textinputUpdate m.modulePathInput msg
    ⟨.self { m with modulePathInput := r.1 }, cmds ++ r.2.toList, []⟩
  else
    ⟨.self m, cmds, []⟩

/-- `GoWizardModel.Update`, with the package variable `postplugin.plugins` passed as `plugins`. -/
def Update {W : Type} (env : Env) (plugins : List (postplugin.Plugin W)) (m : GoWizardModel)
    (msg : tea.Msg) : Outcome W :=
  -- Always update progress bar
  let p := env.progressUpdate m.progress msg
  let m := { m with progress := p.1 }
  let cmds : List tea.Cmd := p.2.toList
  match msg with
  | .KeyMsg key =>
    match m.step with
    | goStepModulePath =>
      if key = "enter" then
        let m := { m with modulePath := strings.TrimSpace m.modulePathInput.Value }
        if m.modulePath = "" then
          ⟨.self { m with errMsg := "module path cannot be empty" }, cmds, []⟩
        else
          ⟨.self { m with
            projectDir := previewProjectDir env m.modulePath
            errMsg := ""
            step := goStepSummary }, cmds, []⟩
      else if key = "ctrl+c" then ⟨.self m, [tea.Cmd.Quit], []⟩
      else updateTail env m cmds msg
    | goStepSummary =>
      if key = "enter" then
        if !langenv.IsInstalled env langenv.LanguageGo then
          ⟨.self { m with step := goStepInstallPrompt, errMsg := "" }, cmds, []⟩
        else
          let c := createGoProject env m.modulePath
          match c.err with
          | some e => ⟨.self { m with errMsg := e, projectDir := c.dir }, cmds, c.effects⟩
          | none =>
            let m := { m with projectDir := c.dir, errMsg := "" }
            -- After project creation, hand off to the first post-create plugin
            match postplugin.All plugins with
            | first :: _ => ⟨.handoff (first.NewWizard m.projectDir "go"), [], c.effects⟩
            | [] => ⟨.self { m with step := goStepDone }, cmds, c.effects⟩
      else if key = "esc" then
        ⟨.self { m with step := goStepModulePath, errMsg := "" }, cmds, []⟩
      else if key = "ctrl+c" then ⟨.self m, [tea.Cmd.Quit], []⟩
      else updateTail env m cmds msg
    | goStepInstallPrompt =>
      if key = "y" ∨ key = "Y" ∨ key = "enter" then
        match langenv.InstallCommand env langenv.LanguageGo with
        | .error e => ⟨.self { m with errMsg := e, step := goStepSummary }, cmds, []⟩
        | .ok cmd =>
          let ch := env.makeChan
          let m := { m with
            step := goStepInstalling
            errMsg := ""
            progressValue := 0.0
            progress := env.progressSetPercent m.progress 0.0
            logLines := []
            installEvents := some ch }
          ⟨.self m, cmds ++ [tea.Cmd.waitInstallEvent ch], [.goRunInstallWithOutput cmd ch]⟩
      else if key = "n" ∨ key = "N" ∨ key = "esc" then
        ⟨.self { m with
          errMsg := "Go is required to create a Go project. Please install it and retry."
          step := goStepSummary }, cmds, []⟩
      else if key = "ctrl+c" then ⟨.self m, [tea.Cmd.Quit], []⟩
      else updateTail env m cmds msg
    | goStepInstalling =>
      if key = "ctrl+c" then ⟨.self m, [tea.Cmd.Quit], []⟩
      else updateTail env m cmds msg
    | goStepDone =>
      -- any key exits
      ⟨.self m, [tea.Cmd.Quit], []⟩
  | .installLogMsg line =>
    if m.step = goStepInstalling then
      let m := appendLogLine m line
      -- bump progress a bit per line
      let v := float64.add m.progressValue (float64.round 0.02)
      let v := if v > float64.round 0.95 then float64.round 0.95 else v
      let m := { m with progressValue := v, progress := env.progressSetPercent m.progress v }
      let cmds :=
        match m.installEvents with
        | some ch => cmds ++ [tea.Cmd.waitInstallEvent ch]
        | none => cmds
      updateTail env m cmds msg
    else updateTail env m cmds msg
  | .installFinishedMsg err =>
    if m.step = goStepInstalling then
      let m :=
        match err with
        | some e => { m with errMsg := "Go installation failed: " ++ e }
        | none =>
          { m with
            errMsg := "Go installation succeeded."
            progressValue := 1.0
            progress := env.progressSetPercent m.progress 1.0 }
      let m := { m with step := goStepSummary, installEvents := none }
      updateTail env m cmds msg
    else updateTail env m cmds msg
  | _ => updateTail env m cmds msg

/-- The statements of the `installLogMsg` case of `Update` on the progress estimate:
`m.progressValue += 0.02`, then the clamp at 0.95; the constants are `float64`. -/
def bumpProgress (v : ℚ) : ℚ :=
  let v := float64.add v (float64.round 0.02)
  if v > float64.round 0.95 then float64.round 0.95 else v

/-- The wizard after `Update` has handled the messages of `msgs` one after the other, as
long as it returns the Go wizard itself; `none` once it has handed off to another wizard. -/
def UpdateAll {W : Type} (env : Env) (plugins : List (postplugin.Plugin W)) :
    GoWizardModel → List tea.Msg → Option GoWizardModel
  | m, [] => some m
  | m, msg :: rest =>
    match (Update env plugins m msg).model with
    | .self m1 => UpdateAll env plugins m1 rest
    | .handoff _ => none

/-- The states the Go wizard can be in: those of `NewGoWizardModel`, and those returned by
`Update` from such a state, for any message, world and registry. -/
inductive Reachable (W : Type) : GoWizardModel → Prop where
  | init (env : Env) : Reachable W (NewGoWizardModel env)
  | update (env : Env) (plugins : List (postplugin.Plugin W)) (m m1 : GoWizardModel)
      (msg : tea.Msg) (h : Reachable W m) (e : (Update env plugins m msg).model = .self m1) :
      Reachable W m1

end goproject

namespace sample

/-- A post-create plugin with the identity of the global one; its wizards are the pair of
the arguments of `NewWizard`. -/
def plugin : postplugin.Plugin (String × String) :=
  ⟨"global", "Global post-create populater", fun projectPath projectType => (projectPath, projectType)⟩

/-- A Linux machine without a configuration file and without Go, where `apt-get` is found. -/
def env : Env where
  ReadFile := fun _ => none
  UserHomeDir := some "/home/dev"
  ExpandEnv := fun s => s
  Join := fun a b => a ++ "/" ++ b
  LookPath := fun bin => bin == "apt-get"
  GOOS := "linux"
  MkdirAll := fun _ => none
  CombinedOutput := fun _ => ("", none)
  makeChan := 1
  textinputNew := ⟨"", "", false⟩
  textinputSetValue := fun t v => { t with value := v }
  textinputUpdate := fun t _ => (t, none)
  progressNew := ⟨0, 0, 0⟩
  progressUpdate := fun p _ => (p, none)
  progressSetPercent := fun p v => { p with targetPercent := v }

/-- The same machine with Go installed. -/
def envGo : Env :=
  { env with LookPath := fun _ => true }

/-- A wizard in the module path step with the given text in its input. -/
def atModulePath (text : String) : goproject.GoWizardModel :=
  { goproject.NewGoWizardModel env with modulePathInput := ⟨"", text, true⟩ }

/-- A wizard in the summary step for the module `github.com/acme/widget`. -/
def atSummary : goproject.GoWizardModel :=
  { goproject.NewGoWizardModel env with
    step := .goStepSummary
    modulePath := "github.com/acme/widget"
    projectDir := "/home/dev/Documents/widget" }

/-- A wizard that has just entered the installing step: the module path is confirmed, the
creation is asked for on a machine without Go, and the installation is accepted. -/
def atInstalling : goproject.GoWizardModel :=
  (goproject.UpdateAll env [plugin] (goproject.NewGoWizardModel env)
    [.KeyMsg "enter", .KeyMsg "enter", .KeyMsg "y"]).getD (goproject.NewGoWizardModel env)

/-- Sixty lines of one character each: the sixty code points from that of "A" on. -/
def lines60 : List String :=
  (List.range 60).map (fun i => String.singleton (Char.ofNat (65 + i)))

end sample

namespace goproject

open goWizardStep

/-- The rendering functions of the widgets of the `bubbles` library. -/
structure Widgets where
  /-- Go `textinput.Model.View`. -/
  textinputView : textinput.Model → String
  /-- Go `progress.Model.View`. -/
  progressView : progress.Model → String

/-- `GoWizardModel.View`; the world is a parameter because the summary branch calls
`previewProjectDir`. -/
def View (wd : Widgets) (env : Env) (m : GoWizardModel) : String :=
  match m.step with
  | goStepModulePath =>
    let errLine := if m.errMsg ≠ "" then "\n\nError: " ++ m.errMsg else ""
    "Go project – module path\n\n" ++
      wd.textinputView m.modulePathInput ++ "\n\n" ++
      "[enter] Continue   [ctrl+c] Quit" ++
      errLine ++ "\n"
  | goStepSummary =>
    let b := "Summary – Go project\n\n"
    let b := b ++ ("Module path:  " ++ m.modulePath ++ "\n")
    let b := b ++ ("Project path: " ++ previewProjectDir env m.modulePath ++ "\n\n")
    let b := if m.errMsg ≠ "" then b ++ ("Info: " ++ m.errMsg ++ "\n\n") else b
    b ++ "[enter] Create   [esc] Back   [ctrl+c] Quit\n"
  | goStepInstallPrompt =>
    "Go is not installed on this system.\n\n" ++
      "Do you want to install Go now?\n\n" ++
      "[y] Yes   [n] No   [ctrl+c] Quit\n"
  | goStepInstalling =>
    let b := "Installing Go...\n\n"
    let b := b ++ wd.progressView m.progress
    let b := b ++ "\n\nLogs (latest):\n"
    let b := m.logLines.foldl (fun b line => b ++ line ++ "\n") b
    b ++ "\n[ctrl+c] Cancel\n"
  | goStepDone =>
    "Go project created.\n\nModule path:  " ++ m.modulePath ++ "\nProject path: " ++
      m.projectDir ++ "\n\n[any key] Exit\n"

/-- In the words of the specification: a line that begins with `key` and has a non-blank
value after it. -/
def hasValue (key line : String) : Bool :=
  strings.HasPrefix line key && decide (strings.TrimSpace (strings.TrimPrefix line key) ≠ "")

/-- In the words of the specification: the trimmed value of the first line of the
configuration file that begins with `key` and has a non-blank value, if there is one. -/
def configured (key data : String) : Option String :=
  ((strings.Split data '\n').find? (hasValue key)).map
    (fun line => strings.TrimSpace (strings.TrimPrefix line key))

/-- In the words of the specification: the default module path is the built-in default when
the file cannot be read or configures no value, and the expansion of the configured value
otherwise. -/
def specDefaultModulePath (env : Env) : String :=
  match (env.ReadFile ".env").bind (configured "DEFAULT_GO_PROJECT_MODULE_PATH=") with
  | some val => langenv.ExpandPathEnv env val
  | none => "github.com/you/your-service"

/-- In the words of the specification: the base directory is the expansion of the configured
value, else the `Documents` directory of the home directory, else "." when the home directory
cannot be determined (no home directory, or an empty one). -/
def specDefaultProjectBasePath (env : Env) : String :=
  match (env.ReadFile ".env").bind (configured "DEFAULT_GO_PROJECT_PATH=") with
  | some val => langenv.ExpandPathEnv env val
  | none =>
    match env.UserHomeDir with
    | some home => if home = "" then "." else env.Join home "Documents"
    | none => "."

/-- In the words of the specification: the transition table of the Go wizard, as the steps
allowed after each step. -/
def allowedNext : goWizardStep → List goWizardStep
  | goStepModulePath => [goStepModulePath, goStepSummary]
  | goStepSummary => [goStepSummary, goStepModulePath, goStepInstallPrompt, goStepDone]
  | goStepInstallPrompt => [goStepInstallPrompt, goStepInstalling, goStepSummary]
  | goStepInstalling => [goStepInstalling, goStepSummary]
  | goStepDone => [goStepDone]

/-- In the words of the specification: what `Update` may return from the step `s`, a Go
wizard in a step allowed after `s`, or a hand-off, from the summary step only. -/
def allowedAfter {W : Type} (s : goWizardStep) : Model W → Bool
  | .self m1 => (allowedNext s).contains m1.step
  | .handoff _ => s == goStepSummary

/-- A log-line message of the runner. -/
def isInstallLogMsg : tea.Msg → Bool
  | .installLogMsg _ => true
  | _ => false

/-- The terminal message of the runner. -/
def isInstallFinishedMsg : tea.Msg → Bool
  | .installFinishedMsg _ => true
  | _ => false

end goproject

namespace sample

/-- The sample machine with a configuration file that sets both defaults, among other lines. -/
def envConfigured : Env :=
  { env with
    ReadFile := fun name =>
      if name = ".env" then
        some "# defaults\nDEFAULT_GO_PROJECT_PATH=\nDEFAULT_GO_PROJECT_PATH= /srv/projects \nDEFAULT_GO_PROJECT_MODULE_PATH=example.org/team/tool\nOTHER=1\n"
      else none }

/-- A machine that is not a Linux machine. -/
def envDarwin : Env :=
  { env with GOOS := "darwin" }

/-- A Linux machine of an unknown distribution without any of the known package managers. -/
def envUnknownDistro : Env :=
  { env with
    ReadFile := fun name => if name = "/etc/os-release" then some "NAME=Custom\nID=custom\n" else none
    LookPath := fun _ => false }

/-- Widgets that render a text input as its value and a progress bar as the empty text. -/
def widgets : goproject.Widgets :=
  ⟨fun t => t.value, fun _ => ""⟩

/-- A wizard at the install prompt: the module path is confirmed and the creation is asked
for on a machine without Go. -/
def atInstallPrompt : goproject.GoWizardModel :=
  (goproject.UpdateAll env [plugin] (goproject.NewGoWizardModel env)
    [.KeyMsg "enter", .KeyMsg "enter"]).getD (goproject.NewGoWizardModel env)

end sample

namespace global

/-- The steps of the post-create wizard (`step`). -/
inductive step where
  | stepGlobal
  | stepTypeSpecific
  | stepDone
deriving DecidableEq

open step

/-- An item of a checklist. -/
structure item where
  ID : String
  Label : String
  Selected : Bool
deriving DecidableEq

/-- The state of the post-create wizard; `cursor` is a Go `int`. -/
structure Model where
  step : step
  projectPath : String
  projectType : String
  cursor : Int
  globalItems : List item
  typeItems : List item
  errMsg : String
  applySummary : List String
deriving DecidableEq

/-- `global.NewModel`. -/
def NewModel (projectPath projectType : String) : Model :=
  let globalItems : List item := [
    { ID := "global_env", Label := "Create .env file", Selected := false },
    { ID := "global_notes", Label := "Create notes/ folder", Selected := false },
    { ID := "global_readme", Label := "Create README.md file", Selected := false },
    { ID := "global_gitignore", Label := "Create .gitignore file", Selected := false },
    { ID := "global_makefile", Label := "Create Makefile", Selected := false }]
  let typeItems : List item :=
    if projectType = "go" then [
      { ID := "go_cmd", Label := "Create cmd/ folder", Selected := true },
      { ID := "go_internal", Label := "Create internal/ folder", Selected := true },
      { ID := "go_pkg", Label := "Create pkg/ folder", Selected := true },
      { ID := "go_tests", Label := "Create tests/ folder", Selected := false },
      { ID := "go_gen", Label := "Create gen/ folder", Selected := false },
      { ID := "go_api", Label := "Create api/ folder", Selected := false }]
    else []
  { step := stepGlobal
    projectPath := projectPath
    projectType := projectType
    cursor := 0
    globalItems := globalItems
    typeItems := typeItems
    errMsg := ""
    applySummary := [] }

/-- A call of the wizard to the file system. -/
inductive Call where
  /-- A call `os.Stat(path)`. -/
  | Stat (path : String)
  /-- A call `os.WriteFile(path, data, 0o644)`. -/
  | WriteFile (path data : String)
  /-- A call `os.MkdirAll(path, 0o755)`. -/
  | MkdirAll (path : String)
deriving DecidableEq

/-- The file system the wizard acts on, with states of type `σ`: what each call returns
(the error, `none` for `nil`) and the state it leaves. -/
structure FileSys (σ : Type) where
  /-- Go `os.Stat`: the error; `none` when the path exists. -/
  Stat : σ → String → Option String
  /-- Go `os.WriteFile(path, data, 0o644)`. -/
  WriteFile : σ → String → String → Option String × σ
  /-- Go `os.MkdirAll(path, 0o755)`. -/
  MkdirAll : σ → String → Option String × σ
  /-- Go `filepath.Join` of two elements. -/
  Join : String → String → String

/-- The variables of `applySelections` while it runs: the summary, the error it returns
with (if it has returned one), the state of the file system and the calls made so far. -/
structure Applied (σ : Type) where
  summary : List String
  err : Option String
  world : σ
  calls : List Call

/-- The cases of `applySelections` that create a file: when `os.Stat` finds the path, the
line `skipped` is added and the loop continues; else the file is written, and either the
function returns the error wrapped after `failed`, or the line `created` is added. -/
def createFile {σ : Type} (fs : FileSys σ) (path data skipped failed created : String)
    (a : Applied σ) : Applied σ :=
  match fs.Stat a.world path with
  | none => { a with summary := a.summary ++ [skipped], calls := a.calls ++ [.Stat path] }
  | some _ =>
    let r := fs.WriteFile a.world path data
    match r.1 with
    | some e =>
      { a with
        err := some (failed ++ e)
        world := r.2
        calls := a.calls ++ [.Stat path, .WriteFile path data] }
    | none =>
      { a with
        summary := a.summary ++ [created]
        world := r.2
        calls := a.calls ++ [.Stat path, .WriteFile path data] }

/-- The cases of `applySelections` that create a directory: either the function returns
the error of `os.MkdirAll` wrapped after `failed`, or the line `created` is added. -/
def createDir {σ : Type} (fs : FileSys σ) (path failed created : String) (a : Applied σ) :
    Applied σ :=
  let r := fs.MkdirAll a.world path
  match r.1 with
  | some e => { a with err := some (failed ++ e), world := r.2, calls := a.calls ++ [.MkdirAll path] }
  | none =>
    { a with summary := a.summary ++ [created], world := r.2, calls := a.calls ++ [.MkdirAll path] }

/-- The body of the first loop of `applySelections` for a selected item: `switch it.ID`. -/
def globalItem {σ : Type} (fs : FileSys σ) (projectPath : String) (it : item) (a : Applied σ) :
    Applied σ :=
  if it.ID = "global_env" then
    createFile fs (fs.Join projectPath ".env") "" ".env already exists (skipped)"
      "failed to create .env: " "Created .env file" a
  else if it.ID = "global_notes" then
    createDir fs (fs.Join projectPath "notes") "failed to create notes/ folder: "
      "Created notes/ folder" a
  else if it.ID = "global_readme" then
    createFile fs (fs.Join projectPath "README.md") "# Project Title\n\nProject description.\n"
      "README.md already exists (skipped)" "failed to create README.md: "
      "Created README.md file" a
  else if it.ID = "global_gitignore" then
    createFile fs (fs.Join projectPath ".gitignore") "# Ignore files\n.env\nnotes/\n"
      ".gitignore already exists (skipped)" "failed to create .gitignore: "
      "Created .gitignore file" a
  else if it.ID = "global_makefile" then
    createFile fs (fs.Join projectPath "Makefile") "all:\n\t@echo \"Build commands go here\"\n"
      "Makefile already exists (skipped)" "failed to create Makefile: " "Created Makefile" a
  else a

/-- The body of the second loop of `applySelections` for a selected item:
`switch m.projectType`, and for "go" `switch it.ID`. -/
def typeItem {σ : Type} (fs : FileSys σ) (projectPath projectType : String) (it : item)
    (a : Applied σ) : Applied σ :=
  if projectType = "go" then
    if it.ID = "go_cmd" then
      createDir fs (fs.Join projectPath "cmd") "failed to create cmd/: " "Created cmd/ folder" a
    else if it.ID = "go_internal" then
      createDir fs (fs.Join projectPath "internal") "failed to create internal/: "
        "Created internal/ folder" a
    else if it.ID = "go_pkg" then
      createDir fs (fs.Join projectPath "pkg") "failed to create pkg/: " "Created pkg/ folder" a
    else if it.ID = "go_tests" then
      createDir fs (fs.Join projectPath "tests") "failed to create tests/: "
        "Created tests/ folder" a
    else if it.ID = "go_gen" then
      createDir fs (fs.Join projectPath "gen") "failed to create gen/: " "Created gen/ folder" a
    else if it.ID = "go_api" then
      createDir fs (fs.Join projectPath "api") "failed to create api/: " "Created api/ folder" a
    else a
  else a

/-- A loop of `applySelections` over a checklist: unselected items are skipped, and the
function returns as soon as the body `act` has set the error. -/
def applyItems {σ : Type} (act : item → Applied σ → Applied σ) :
    List item → Applied σ → Applied σ
  | [], a => a
  | it :: rest, a =>
    if !it.Selected then applyItems act rest a
    else
      let a1 := act it a
      if a1.err.isSome then a1 else applyItems act rest a1

/-- `(*Model).applySelections` on the file system in the state `w`. -/
def applySelections {σ : Type} (fs : FileSys σ) (m : Model) (w : σ) : Applied σ :=
  let a : Applied σ := ⟨[], none, w, []⟩
  -- Global items
  let a := applyItems (globalItem fs m.projectPath) m.globalItems a
  if a.err.isSome then a
  else
    -- Type-specific items
    let a := applyItems (typeItem fs m.projectPath m.projectType) m.typeItems a
    if a.err.isSome then a
    else if a.summary.length = 0 then { a with summary := ["No items were selected."] }
    else a

/-- The assignment `items[cursor].Selected = !items[cursor].Selected` at a valid index. -/
def toggleAt : List item → Nat → List item
  | [], _ => []
  | it :: rest, 0 => { it with Selected := !it.Selected } :: rest
  | it :: rest, n + 1 => it :: toggleAt rest n

/-- The result of `Update`: the returned model, the returned command (`nil` is the empty
list), the state of the file system and the calls made. -/
structure Outcome (σ : Type) where
  model : Model
  cmd : List tea.Cmd
  world : σ
  calls : List Call

/-- `Model.Update` on the file system in the state `w`; `none` is the run-time panic of an
index out of range. -/
def Update {σ : Type} (fs : FileSys σ) (m : Model) (msg : tea.Msg) (w : σ) :
    Option (Outcome σ) :=
  match msg with
  | .KeyMsg key =>
    match m.step with
    | stepGlobal =>
      if key = "up" ∨ key = "k" then
        if m.globalItems.length = 0 then some ⟨m, [], w, []⟩
        else
          let cursor := m.cursor - 1
          let cursor := if cursor < 0 then (m.globalItems.length : Int) - 1 else cursor
          some ⟨{ m with cursor := cursor }, [], w, []⟩
      else if key = "down" ∨ key = "j" then
        if m.globalItems.length = 0 then some ⟨m, [], w, []⟩
        else
          let cursor := m.cursor + 1
          let cursor := if cursor ≥ (m.globalItems.length : Int) then 0 else cursor
          some ⟨{ m with cursor := cursor }, [], w, []⟩
      else if key = " " then
        if m.globalItems.length = 0 then some ⟨m, [], w, []⟩
        else if 0 ≤ m.cursor ∧ m.cursor < (m.globalItems.length : Int) then
          some ⟨{ m with globalItems := toggleAt m.globalItems m.cursor.toNat }, [], w, []⟩
        else none
      else if key = "enter" then
        some ⟨{ m with step := stepTypeSpecific, cursor := 0 }, [], w, []⟩
      else if key = "esc" then
        some ⟨{ m with step := stepDone, applySummary := ["Skipped population."] }, [], w, []⟩
      else if key = "ctrl+c" then some ⟨m, [tea.Cmd.Quit], w, []⟩
      else some ⟨m, [], w, []⟩
    | stepTypeSpecific =>
      if key = "up" ∨ key = "k" then
        if m.typeItems.length = 0 then some ⟨m, [], w, []⟩
        else
          let cursor := m.cursor - 1
          let cursor := if cursor < 0 then (m.typeItems.length : Int) - 1 else cursor
          some ⟨{ m with cursor := cursor }, [], w, []⟩
      else if key = "down" ∨ key = "j" then
        if m.typeItems.length = 0 then some ⟨m, [], w, []⟩
        else
          let cursor := m.cursor + 1
          let cursor := if cursor ≥ (m.typeItems.length : Int) then 0 else cursor
          some ⟨{ m with cursor := cursor }, [], w, []⟩
      else if key = " " then
        if m.typeItems.length = 0 then some ⟨m, [], w, []⟩
        else if 0 ≤ m.cursor ∧ m.cursor < (m.typeItems.length : Int) then
          some ⟨{ m with typeItems := toggleAt m.typeItems m.cursor.toNat }, [], w, []⟩
        else none
      else if key = "enter" then
        let r := applySelections fs m w
        let m := { m with applySummary := r.summary }
        let m :=
          match r.err with
          | some e => { m with errMsg := e }
          | none => m
        some ⟨{ m with step := stepDone }, [], r.world, r.calls⟩
      else if key = "esc" then
        some ⟨{ m with step := stepGlobal, cursor := 0 }, [], w, []⟩
      else if key = "ctrl+c" then some ⟨m, [tea.Cmd.Quit], w, []⟩
      else some ⟨m, [], w, []⟩
    | stepDone =>
      -- any key exits
      some ⟨m, [tea.Cmd.Quit], w, []⟩
  | _ => some ⟨m, [], w, []⟩

/-- The selected items in the order in which `applySelections` goes through them: those of
the global checklist, then those of the type-specific checklist. -/
def selected (m : Model) : List item :=
  m.globalItems.filter (fun it => it.Selected) ++ m.typeItems.filter (fun it => it.Selected)

/-- The checklists of `m` are those that `NewModel` builds for the project type of `m`,
whatever the selection. -/
def HasChecklists (m : Model) : Prop :=
  m.globalItems.map (fun it => it.ID) =
      (NewModel m.projectPath m.projectType).globalItems.map (fun it => it.ID) ∧
    m.typeItems.map (fun it => it.ID) =
      (NewModel m.projectPath m.projectType).typeItems.map (fun it => it.ID)

/-- The name, under the project path, of the file that the item `ID` creates. -/
def fileTarget (ID : String) : Option String :=
  if ID = "global_env" then some ".env"
  else if ID = "global_readme" then some "README.md"
  else if ID = "global_gitignore" then some ".gitignore"
  else if ID = "global_makefile" then some "Makefile"
  else none

/-- The name, under the project path, of the directory that the item `ID` creates. -/
def dirTarget (ID : String) : Option String :=
  if ID = "global_notes" then some "notes"
  else if ID = "go_cmd" then some "cmd"
  else if ID = "go_internal" then some "internal"
  else if ID = "go_pkg" then some "pkg"
  else if ID = "go_tests" then some "tests"
  else if ID = "go_gen" then some "gen"
  else if ID = "go_api" then some "api"
  else none

/-- The outcome line of the item `ID` when its action has created its target. -/
def createdLine (ID : String) : String :=
  if ID = "global_env" then "Created .env file"
  else if ID = "global_notes" then "Created notes/ folder"
  else if ID = "global_readme" then "Created README.md file"
  else if ID = "global_gitignore" then "Created .gitignore file"
  else if ID = "global_makefile" then "Created Makefile"
  else if ID = "go_cmd" then "Created cmd/ folder"
  else if ID = "go_internal" then "Created internal/ folder"
  else if ID = "go_pkg" then "Created pkg/ folder"
  else if ID = "go_tests" then "Created tests/ folder"
  else if ID = "go_gen" then "Created gen/ folder"
  else if ID = "go_api" then "Created api/ folder"
  else ""

/-- The outcome line of a file-creation item whose file is already there. -/
def skippedLine (ID : String) : String :=
  (fileTarget ID).getD "" ++ " already exists (skipped)"

/-- The text before the cause in the error of the item `ID` when its action fails. -/
def failedText (ID : String) : String :=
  if ID = "global_env" then "failed to create .env: "
  else if ID = "global_notes" then "failed to create notes/ folder: "
  else if ID = "global_readme" then "failed to create README.md: "
  else if ID = "global_gitignore" then "failed to create .gitignore: "
  else if ID = "global_makefile" then "failed to create Makefile: "
  else if ID = "go_cmd" then "failed to create cmd/: "
  else if ID = "go_internal" then "failed to create internal/: "
  else if ID = "go_pkg" then "failed to create pkg/: "
  else if ID = "go_tests" then "failed to create tests/: "
  else if ID = "go_gen" then "failed to create gen/: "
  else if ID = "go_api" then "failed to create api/: "
  else ""

/-- A line is an outcome of an item: its line for a created target, or, for a
file-creation item, its line for a file already there. -/
def IsOutcome (it : item) (line : String) : Prop :=
  line = createdLine it.ID ∨ ((fileTarget it.ID).isSome ∧ line = skippedLine it.ID)

/-- The content that the file-creation item `ID` writes. -/
def fileData (ID : String) : String :=
  if ID = "global_readme" then "# Project Title\n\nProject description.\n"
  else if ID = "global_gitignore" then "# Ignore files\n.env\nnotes/\n"
  else if ID = "global_makefile" then "all:\n\t@echo \"Build commands go here\"\n"
  else ""

/-- The action of the item `ID` read from the tables above: the creation of its file, or of
its directory, under the project path. -/
def itemAction {σ : Type} (fs : FileSys σ) (projectPath ID : String) (a : Applied σ) :
    Applied σ :=
  match fileTarget ID with
  | some name =>
    createFile fs (fs.Join projectPath name) (fileData ID) (skippedLine ID) (failedText ID)
      (createdLine ID) a
  | none =>
    match dirTarget ID with
    | some name => createDir fs (fs.Join projectPath name) (failedText ID) (createdLine ID) a
    | none => a

/-- The call by which the item `ID` changes the file system. -/
def mutation {σ : Type} (fs : FileSys σ) (projectPath ID : String) : Option Call :=
  match fileTarget ID with
  | some name => some (.WriteFile (fs.Join projectPath name) (fileData ID))
  | none =>
    match dirTarget ID with
    | some name => some (.MkdirAll (fs.Join projectPath name))
    | none => none

/-- The outcome line of an item on a populated target: the line for a file already there,
or the line for a created directory. -/
def populatedLine (it : item) : String :=
  if (fileTarget it.ID).isSome then skippedLine it.ID else createdLine it.ID

/-- The path is a directory that exists: `os.Stat` finds it and `os.MkdirAll` on it
succeeds. -/
def IsDir {σ : Type} (fs : FileSys σ) (w : σ) (path : String) : Prop :=
  fs.Stat w path = none ∧ (fs.MkdirAll w path).1 = none

/-- The target is populated for the items `items`: the file of every file-creation item
among them exists, and the directory of every directory item among them exists. -/
def Populated {σ : Type} (fs : FileSys σ) (projectPath : String) (w : σ) (items : List item) :
    Prop :=
  ∀ it ∈ items,
    (∀ name, fileTarget it.ID = some name → fs.Stat w (fs.Join projectPath name) = none) ∧
    (∀ name, dirTarget it.ID = some name → IsDir fs w (fs.Join projectPath name))

/-- A file system on which only the wizard acts: a file that has been written exists and a
directory that has been made is a directory that exists; a path that exists still exists,
and a directory that exists is still one, after a file is written or a directory is made. -/
structure Lawful {σ : Type} (fs : FileSys σ) : Prop where
  written : ∀ w p d, (fs.WriteFile w p d).1 = none → fs.Stat (fs.WriteFile w p d).2 p = none
  made : ∀ w p, (fs.MkdirAll w p).1 = none → IsDir fs (fs.MkdirAll w p).2 p
  kept_by_write : ∀ w p q d, fs.Stat w p = none → fs.Stat (fs.WriteFile w q d).2 p = none
  kept_by_mkdir : ∀ w p q, fs.Stat w p = none → fs.Stat (fs.MkdirAll w q).2 p = none
  dir_kept_by_write : ∀ w p q d, IsDir fs w p → IsDir fs (fs.WriteFile w q d).2 p
  dir_kept_by_mkdir : ∀ w p q, IsDir fs w p → IsDir fs (fs.MkdirAll w q).2 p

end global

namespace sample

/-- A file system whose state is the list of the paths that exist, on which every write and
every directory creation succeeds. -/
def fs : global.FileSys (List String) where
  Stat := fun w path => if path ∈ w then none else some "no such file or directory"
  WriteFile := fun w path _ => (none, path :: w)
  MkdirAll := fun w path => (none, path :: w)
  Join := fun a b => a ++ "/" ++ b

/-- The same file system, on which no directory can be made. -/
def fsNoDir : global.FileSys (List String) :=
  { fs with MkdirAll := fun w _ => (some "permission denied", w) }

/-- The post-create wizard of a Go project in the type-specific step with `.env` selected in
addition to the defaults: `.env`, `cmd/`, `internal/` and `pkg/` are selected. -/
def selection : global.Model :=
  { global.NewModel "/srv/widget" "go" with
    step := .stepTypeSpecific
    globalItems := global.toggleAt (global.NewModel "/srv/widget" "go").globalItems 0 }

end sample

namespace goproject

/-- Where the goroutine that runs `runInstallWithOutput` (and, inside it,
`langenv.RunWithOutput`) stands. -/
inductive mainAt where
  /-- Before `cmd.Start()`, the reader goroutine being started. -/
  | start
  /-- In the loop over the lines of the standard output. -/
  | stdout
  /-- At `cmd.Wait()`. -/
  | wait
  /-- At `close(lines)`, `RunWithOutput` having returned `err`. -/
  | closeLines (err : Option String)
  /-- At `ch <- installFinishedMsg{Err: err}`. -/
  | sendFinished (err : Option String)
  /-- At the deferred `close(ch)`. -/
  | closeCh
  /-- Returned. -/
  | done
deriving DecidableEq

/-- Where the reader goroutine of `runInstallWithOutput` stands. -/
inductive readerAt where
  /-- At `for line := range lines`. -/
  | receive
  /-- At `ch <- installLogMsg{Line: line}`. -/
  | sendLog (line : String)
  /-- At `ch <- installProgressMsg{}`. -/
  | sendProgress
  /-- Returned. -/
  | done
  /-- Stopped by the run-time panic "send on closed channel". -/
  | panicked
deriving DecidableEq

/-- Where the goroutine of `RunWithOutput` that reads the standard error stands. -/
inductive stderrAt where
  /-- Not started yet. -/
  | idle
  /-- In its loop `for scanner.Scan() { ch <- scanner.Text() }`. -/
  | scan
  /-- Returned. -/
  | done
  /-- Stopped by the run-time panic "send on closed channel". -/
  | panicked
deriving DecidableEq

/-- A run of `runInstallWithOutput(cmd, ch)`: the lines the command still has to give on its
two streams, the errors of `cmd.Start()` (or of the pipes) and of `cmd.Wait()`, where the
three goroutines stand, which channels are closed, and the messages received from `ch` so
far. Both channels are unbuffered: a send completes together with a receive. -/
structure InstallRun where
  stdout : List String
  stderr : List String
  startErr : Option String
  waitErr : Option String
  main : mainAt
  reader : readerAt
  stderrReader : stderrAt
  linesClosed : Bool
  chClosed : Bool
  delivered : List tea.Msg
deriving DecidableEq

/-- The beginning of a run. -/
def InstallRun.begin (stdout stderr : List String) (startErr waitErr : Option String) :
    InstallRun :=
  { stdout := stdout, stderr := stderr, startErr := startErr, waitErr := waitErr
    main := .start, reader := .receive, stderrReader := .idle
    linesClosed := false, chClosed := false, delivered := [] }

/-- What the scheduler lets happen next. -/
inductive Sched where
  /-- The main goroutine executes its next statement, when that is not a send. -/
  | main
  /-- The main goroutine's `ch <- stdoutScanner.Text()` (on `lines`) meets the reader's
  receive. -/
  | stdoutLine
  /-- The `ch <- scanner.Text()` (on `lines`) of the goroutine of the standard error meets
  the reader's receive. -/
  | stderrLine
  /-- The goroutine of the standard error finds its stream at its end, or sends on the
  closed channel `lines`. -/
  | stderrReader
  /-- The goroutine of the standard error finds its stream closed by `cmd.Wait()`, which has
  returned, before it has read all the lines. -/
  | stderrCut
  /-- The reader goroutine finds `lines` closed, or sends on the closed channel `ch`. -/
  | reader
  /-- The consumer receives from `ch` the message the reader goroutine is sending. -/
  | receiveFromReader
  /-- The consumer receives from `ch` the message the main goroutine is sending. -/
  | receiveFromMain
deriving DecidableEq

/-- One step of a run of `runInstallWithOutput`; `none` when the scheduler's choice is not
possible in the state. -/
def runInstallWithOutput.step (s : InstallRun) : Sched → Option InstallRun
  | .main =>
    match s.main with
    | .start =>
      match s.startErr with
      | some e => some { s with main := .closeLines (some e) }
      | none => some { s with main := .stdout, stderrReader := .scan }
    | .stdout => if s.stdout = [] then some { s with main := .wait } else none
    | .wait => some { s with main := .closeLines s.waitErr }
    | .closeLines err => some { s with main := .sendFinished err, linesClosed := true }
    | .sendFinished _ => none
    | .closeCh => some { s with main := .done, chClosed := true }
    | .done => none
  | .stdoutLine =>
    match s.main, s.stdout, s.reader with
    | .stdout, line :: rest, .receive => some { s with stdout := rest, reader := .sendLog line }
    | _, _, _ => none
  | .stderrLine =>
    match s.stderrReader, s.stderr, s.reader with
    | .scan, line :: rest, .receive =>
      if s.linesClosed then none
      else some { s with stderr := rest, reader := .sendLog line }
    | _, _, _ => none
  | .stderrReader =>
    match s.stderrReader, s.stderr with
    | .scan, [] => some { s with stderrReader := .done }
    | .scan, _ :: _ => if s.linesClosed then some { s with stderrReader := .panicked } else none
    | _, _ => none
  | .stderrCut =>
    match s.stderrReader, s.main with
    | .scan, .closeLines _ => some { s with stderrReader := .done }
    | .scan, .sendFinished _ => some { s with stderrReader := .done }
    | .scan, .closeCh => some { s with stderrReader := .done }
    | .scan, .done => some { s with stderrReader := .done }
    | _, _ => none
  | .reader =>
    match s.reader with
    | .receive => if s.linesClosed then some { s with reader := .done } else none
    | .sendLog _ => if s.chClosed then some { s with reader := .panicked } else none
    | .sendProgress => if s.chClosed then some { s with reader := .panicked } else none
    | _ => none
  | .receiveFromReader =>
    if s.chClosed then none
    else
      match s.reader with
      | .sendLog line =>
        some { s with reader := .sendProgress, delivered := s.delivered ++ [.installLogMsg line] }
      | .sendProgress =>
        some { s with reader := .receive, delivered := s.delivered ++ [.installProgressMsg] }
      | _ => none
  | .receiveFromMain =>
    if s.chClosed then none
    else
      match s.main with
      | .sendFinished err =>
        some { s with main := .closeCh, delivered := s.delivered ++ [.installFinishedMsg err] }
      | _ => none

/-- The state after the steps of a schedule; `none` when one of them is not possible. -/
def runInstallWithOutput.run : InstallRun → List Sched → Option InstallRun
  | s, [] => some s
  | s, c :: rest =>
    match runInstallWithOutput.step s c with
    | some s1 => runInstallWithOutput.run s1 rest
    | none => none

end goproject

namespace global

open step

/-- The states the post-create wizard can be in: those of `NewModel`, and those returned by
`Update` from such a state, for any message and any file system. -/
inductive Reachable : Model → Prop where
  | init (projectPath projectType : String) : Reachable (NewModel projectPath projectType)
  | update {σ : Type} (fs : FileSys σ) (m : Model) (msg : tea.Msg) (w : σ) (out : Outcome σ)
      (h : Reachable m) (e : Update fs m msg w = some out) : Reachable out.model

/-- The checklist of the active step; the done step has none. -/
def activeItems (m : Model) : List item :=
  match m.step with
  | stepGlobal => m.globalItems
  | stepTypeSpecific => m.typeItems
  | stepDone => []

/-- The cursor is a valid index of the checklist of the active step, when that checklist is
not empty. -/
def CursorValid (m : Model) : Prop :=
  activeItems m ≠ [] → 0 ≤ m.cursor ∧ m.cursor < (activeItems m).length

/-- The message on which `Update` calls `applySelections`: the enter key in the
type-specific step. -/
def runsApply (m : Model) (msg : tea.Msg) : Bool :=
  decide (m.step = stepTypeSpecific) && decide (msg = .KeyMsg "enter")

/-- The number of calls of `applySelections` while `Update` handles the messages of `msgs`
one after the other, from the state `m` and the file system state `w`. -/
def applyCount {σ : Type} (fs : FileSys σ) : Model → List tea.Msg → σ → Nat
  | _, [], _ => 0
  | m, msg :: rest, w =>
    (if runsApply m msg then 1 else 0) +
      match Update fs m msg w with
      | some out => applyCount fs out.model rest out.world
      | none => 0

end global

namespace projecttype

/-- The interface `projecttype.Plugin`, as the record of what its methods return; `W` is the
type of the wizards (`tea.Model`) the plugins build, and `NewWizard` is called in a world. -/
structure Plugin (W : Type) where
  ID : String
  DisplayName : String
  Description : String
  NewWizard : Env → W

end projecttype

namespace goproject

/-- The plugin `goproject.New()`, with the methods of `GoPlugin`. -/
def New : projecttype.Plugin GoWizardModel where
  ID := "go"
  DisplayName := "Go"
  Description := "Create a Go project using module path workflow"
  NewWizard := fun env => NewGoWizardModel env

end goproject

namespace ui

/-- The state of the type chooser; `selectedIndex` is a Go `int`. -/
structure TypeChooserModel (W : Type) where
  plugins : List (projecttype.Plugin W)
  selectedIndex : Int

/-- `ui.NewTypeChooserModel`; the function `projecttype.All` is not among the sources, and
the plugins it returns are the parameter `registered`. -/
def NewTypeChooserModel {W : Type} (registered : List (projecttype.Plugin W)) :
    TypeChooserModel W :=
  let plugins := registered
  { plugins := plugins, selectedIndex := 0 }

/-- The `tea.Model` returned by `Update`: the chooser itself, or the wizard built by the
chosen plugin. -/
inductive Model (W : Type) where
  | self (m : TypeChooserModel W)
  | handoff (w : W)

/-- `TypeChooserModel.Update`: the returned model and command (`nil` is the empty list);
`none` is the run-time panic of an index out of range. -/
def Update {W : Type} (env : Env) (m : TypeChooserModel W) (msg : tea.Msg) :
    Option (Model W × List tea.Cmd) :=
  match msg with
  | .KeyMsg s =>
    if s = "ctrl+c" then some (.self m, [tea.Cmd.Quit])
    else if s = "up" ∨ s = "k" then
      if m.plugins.length = 0 then some (.self m, [])
      else
        let selectedIndex := m.selectedIndex - 1
        let selectedIndex :=
          if selectedIndex < 0 then (m.plugins.length : Int) - 1 else selectedIndex
        some (.self { m with selectedIndex := selectedIndex }, [])
    else if s = "down" ∨ s = "j" then
      if m.plugins.length = 0 then some (.self m, [])
      else
        let selectedIndex := m.selectedIndex + 1
        let selectedIndex :=
          if selectedIndex ≥ (m.plugins.length : Int) then 0 else selectedIndex
        some (.self { m with selectedIndex := selectedIndex }, [])
    else if s = "enter" then
      if m.plugins.length = 0 then some (.self m, [])
      else if 0 ≤ m.selectedIndex then
        match m.plugins[m.selectedIndex.toNat]? with
        | some plugin => some (.handoff (plugin.NewWizard env), [])
        | none => none
      else none
    else some (.self m, [])
  | _ => some (.self m, [])

/-- The chooser after the keys of `keys`, pressed one after the other, as long as `Update`
returns the chooser itself; `none` after a hand-off or a panic. -/
def pressAll {W : Type} (env : Env) : TypeChooserModel W → List String →
    Option (TypeChooserModel W)
  | m, [] => some m
  | m, key :: rest =>
    match Update env m (.KeyMsg key) with
    | some (.self m1, _) => pressAll env m1 rest
    | _ => none

end ui

namespace sample

/-- The wizard that has just entered the installing step, after sixty log lines. -/
def afterSixtyLines : goproject.GoWizardModel :=
  (goproject.UpdateAll env [plugin] atInstalling (lines60.map .installLogMsg)).getD atInstalling

/-- The sample machine with Go installed, on which `go mod init` fails. -/
def envInitFails : Env :=
  { envGo with
    CombinedOutput := fun cmd =>
      if cmd.Args = ["go", "mod", "init", "github.com/acme/widget"] then
        ("go: cannot determine module path", some "exit status 1")
      else ("", none) }

/-- A second project type, whose wizard is a Go wizard with an error message. -/
def otherType : projecttype.Plugin goproject.GoWizardModel where
  ID := "other"
  DisplayName := "Other"
  Description := "Another project type"
  NewWizard := fun env => { goproject.NewGoWizardModel env with errMsg := "other" }

/-- The post-create wizard of a Go project in the global step, the cursor on `README.md`:
the keys down, down from `NewModel`. -/
def onReadme : global.Model :=
  { global.NewModel "/srv/widget" "go" with cursor := 2 }

/-- The post-create wizard of a Go project in the done step, after the sample selection
has been applied on the empty sample file system. -/
def applied : global.Model :=
  { selection with
    step := .stepDone
    applySummary := ["Created .env file", "Created cmd/ folder", "Created internal/ folder",
      "Created pkg/ folder"] }

end sample

namespace global

/-- The error of the I/O action of the item `ID` on the file system in the state `w`: for
a file-creation item whose file `os.Stat` does not find, the error of `os.WriteFile`; for a
directory item, the error of `os.MkdirAll`; `none` when the action does not fail. -/
def actionError {σ : Type} (fs : FileSys σ) (projectPath ID : String) (w : σ) :
    Option String :=
  match fileTarget ID with
  | some name =>
    match fs.Stat w (fs.Join projectPath name) with
    | none => none
    | some _ => (fs.WriteFile w (fs.Join projectPath name) (fileData ID)).1
  | none =>
    match dirTarget ID with
    | some name => (fs.MkdirAll w (fs.Join projectPath name)).1
    | none => none

/-- The state in which the I/O action of the item `ID` leaves the file system. -/
def actionWorld {σ : Type} (fs : FileSys σ) (projectPath ID : String) (w : σ) : σ :=
  match fileTarget ID with
  | some name =>
    match fs.Stat w (fs.Join projectPath name) with
    | none => w
    | some _ => (fs.WriteFile w (fs.Join projectPath name) (fileData ID)).2
  | none =>
    match dirTarget ID with
    | some name => (fs.MkdirAll w (fs.Join projectPath name)).2
    | none => w

/-- The calls to the file system of the I/O action of the item `ID`. -/
def actionCalls {σ : Type} (fs : FileSys σ) (projectPath ID : String) (w : σ) : List Call :=
  match fileTarget ID with
  | some name =>
    match fs.Stat w (fs.Join projectPath name) with
    | none => [.Stat (fs.Join projectPath name)]
    | some _ =>
      [.Stat (fs.Join projectPath name), .WriteFile (fs.Join projectPath name) (fileData ID)]
  | none =>
    match dirTarget ID with
    | some name => [.MkdirAll (fs.Join projectPath name)]
    | none => []

/-- The I/O actions of the items, run one after the other from the state `w`, all
succeed. -/
def allSucceed {σ : Type} (fs : FileSys σ) (projectPath : String) : List item → σ → Bool
  | [], _ => true
  | it :: rest, w =>
    (actionError fs projectPath it.ID w).isNone &&
      allSucceed fs projectPath rest (actionWorld fs projectPath it.ID w)

/-- The state of the file system after the I/O actions of the items, run one after the
other from the state `w`. -/
def worldAfter {σ : Type} (fs : FileSys σ) (projectPath : String) : List item → σ → σ
  | [], w => w
  | it :: rest, w => worldAfter fs projectPath rest (actionWorld fs projectPath it.ID w)

/-- The calls to the file system of the I/O actions of the items, run one after the other
from the state `w`. -/
def callsOf {σ : Type} (fs : FileSys σ) (projectPath : String) : List item → σ → List Call
  | [], _ => []
  | it :: rest, w =>
    actionCalls fs projectPath it.ID w ++
      callsOf fs projectPath rest (actionWorld fs projectPath it.ID w)

end global

namespace sample

/-- The same file system, on which no file can be written. -/
def fsNoWrite : global.FileSys (List String) :=
  { fs with WriteFile := fun w _ _ => (some "read-only file system", w) }

/-- The post-create wizard of a Go project in the type-specific step with `notes/` and
`README.md` selected in addition to the defaults. -/
def selectionReadme : global.Model :=
  { global.NewModel "/srv/widget" "go" with
    step := .stepTypeSpecific
    globalItems :=
      global.toggleAt (global.toggleAt (global.NewModel "/srv/widget" "go").globalItems 1) 2 }

end sample

/-! ## Theorems -/

namespace postplugin

theorem All_eq {W : Type} (plugins : List (Plugin W)) : All plugins = plugins := by
  unfold All
  exact List.ofFn_get plugins

theorem RegisterEach_eq {W : Type} (ps plugins : List (Plugin W)) :
    RegisterEach ps plugins = plugins ++ ps := by
  induction ps generalizing plugins with
  | nil => simp [RegisterEach]
  | cons p ps ih =>
    have h := ih (Register p plugins)
    simp only [RegisterEach, List.foldl_cons] at h ⊢
    rw [h]
    simp [Register]

end postplugin

/-- C1: after `Register(p1)`, ..., `Register(pn)` from the empty registry, `All` returns
exactly `[p1, ..., pn]`, in registration order (whatever the IDs are, distinct ones included). -/
theorem postplugin.All_RegisterEach {W : Type} (ps : List (postplugin.Plugin W)) :
    postplugin.All (postplugin.RegisterEach ps []) = ps := by
  rw [postplugin.All_eq, postplugin.RegisterEach_eq]
  simp

/-- C2, as stated, fails: registering again a plugin whose ID is already in the registry
changes what `All` returns, and the IDs are no longer unique. -/
theorem postplugin.Register_duplicate_not_rejected :
    sample.plugin.ID ∈ (postplugin.All (postplugin.Register sample.plugin [])).map (·.ID) ∧
    postplugin.All (postplugin.Register sample.plugin (postplugin.Register sample.plugin [])) ≠
      postplugin.All (postplugin.Register sample.plugin []) ∧
    ¬ ((postplugin.All (postplugin.Register sample.plugin
        (postplugin.Register sample.plugin []))).map (·.ID)).Nodup := by
  refine ⟨?_, ?_, ?_⟩
  · simp [postplugin.All_eq, postplugin.Register]
  · intro h
    have := congrArg List.length h
    simp [postplugin.All_eq, postplugin.Register] at this
  · simp [postplugin.All_eq, postplugin.Register]

/-- C2, amended: `Register` never rejects; whatever the ID of the plugin, one already in the
registry included, `All` afterwards returns the previous sequence followed by the new plugin. -/
theorem postplugin.All_Register {W : Type} (p : postplugin.Plugin W)
    (plugins : List (postplugin.Plugin W)) :
    postplugin.All (postplugin.Register p plugins) = postplugin.All plugins ++ [p] := by
  rw [postplugin.All_eq, postplugin.All_eq]
  rfl

namespace strings

theorem trimChars_eq_nil_iff (p : Char → Bool) (l : List Char) :
    trimChars p l = [] ↔ ∀ c ∈ l, p c = true := by
  unfold trimChars
  rw [List.reverse_eq_nil_iff, List.dropWhile_eq_nil_iff]
  constructor
  · intro h
    by_cases hd : l.dropWhile p = []
    · exact List.dropWhile_eq_nil_iff.mp hd
    · exfalso
      have h1 := List.head_dropWhile_not p l hd
      have h2 := h ((l.dropWhile p).head hd) (by simp)
      simp [h2] at h1
  · intro h
    have : l.dropWhile p = [] := List.dropWhile_eq_nil_iff.mpr h
    simp [this]

theorem mk_eq_empty_iff (l : List Char) : String.mk l = "" ↔ l = [] := by
  constructor
  · intro h
    have := congrArg String.data h
    simpa using this
  · intro h
    subst h
    rfl

/-- A string trims to the empty string exactly when it is empty or made of white space only. -/
theorem TrimSpace_eq_empty_iff (s : String) :
    TrimSpace s = "" ↔ ∀ c ∈ s.data, unicode.IsSpace c = true := by
  unfold TrimSpace
  rw [mk_eq_empty_iff, trimChars_eq_nil_iff]

theorem splitChars_ne_nil (sep : Char) (l : List Char) : splitChars sep l ≠ [] := by
  cases l with
  | nil => simp [splitChars]
  | cons c cs =>
    simp only [splitChars]
    split
    · simp
    · split <;> simp

/-- The last piece of a split holds no separator; it is the whole text when the split has one
piece, and otherwise the text after a separator. -/
theorem splitChars_shape (sep : Char) (l : List Char) :
    ∃ last, (splitChars sep l).getLast? = some last ∧ sep ∉ last ∧
      ((splitChars sep l = [l] ∧ last = l) ∨
        (2 ≤ (splitChars sep l).length ∧ ∃ front, l = front ++ sep :: last)) := by
  induction l with
  | nil => exact ⟨[], by simp [splitChars]⟩
  | cons c cs ih =>
    obtain ⟨last, hlast, hsep, hshape⟩ := ih
    cases hs : splitChars sep cs with
    | nil => exact absurd hs (splitChars_ne_nil sep cs)
    | cons p ps =>
      rw [hs] at hlast hshape
      by_cases hc : c = sep
      · have hsplit : splitChars sep (c :: cs) = [] :: p :: ps := by
          simp [splitChars, hc, hs]
        rw [hsplit]
        refine ⟨last, by simpa [List.getLast?_cons_cons] using hlast, hsep, Or.inr ⟨by simp, ?_⟩⟩
        rcases hshape with ⟨_, h⟩ | ⟨_, front, h⟩
        · exact ⟨[], by simp [h, hc]⟩
        · exact ⟨c :: front, by simp [h]⟩
      · have hsplit : splitChars sep (c :: cs) = (c :: p) :: ps := by
          simp [splitChars, hc, hs]
        rw [hsplit]
        rcases hshape with ⟨h1, h2⟩ | ⟨hlen, front, h⟩
        · simp only [List.cons.injEq] at h1
          obtain ⟨hp, hps⟩ := h1
          subst hps
          rw [h2] at hsep
          rw [hp]
          refine ⟨c :: cs, by simp, ?_, Or.inl ⟨rfl, rfl⟩⟩
          simp only [List.mem_cons, not_or]
          exact ⟨fun h => hc h.symm, hsep⟩
        · cases ps with
          | nil => simp at hlen
          | cons q qs =>
            refine ⟨last, by simpa [List.getLast?_cons_cons] using hlast, hsep,
              Or.inr ⟨by simp, c :: front, by simp [h]⟩⟩

theorem getD_pred_length {α : Type} (l : List α) (d : α) :
    l.getD (l.length - 1) d = l.getLast?.getD d := by
  rw [List.getLast?_eq_getElem?, List.getD_eq_getElem?_getD]

end strings

namespace goproject

open goWizardStep

/-- C3: when the trimmed module path is not empty, the derived project name holds no "/"
and is the whole trimmed path or the text after a "/" of it, that is, its final segment;
the preview directory is the base directory joined with that name; and
"github.com/acme/widget" gives "widget". -/
theorem deriveProjectNameFromModule_final_segment (env : Env) (modulePath : String)
    (h : strings.TrimSpace modulePath ≠ "") :
    ('/' ∉ (deriveProjectNameFromModule modulePath).data ∧
      (deriveProjectNameFromModule modulePath = strings.TrimSpace modulePath ∨
        ∃ front : String, strings.TrimSpace modulePath =
          front ++ "/" ++ deriveProjectNameFromModule modulePath)) ∧
    previewProjectDir env modulePath =
      env.Join (loadDefaultProjectBasePath env) (deriveProjectNameFromModule modulePath) ∧
    deriveProjectNameFromModule "github.com/acme/widget" = "widget" := by
  obtain ⟨last, hlast, hsep, hshape⟩ :=
    strings.splitChars_shape '/' (strings.TrimSpace modulePath).data
  have hname : deriveProjectNameFromModule modulePath = String.mk last := by
    simp only [deriveProjectNameFromModule, if_neg h, strings.Split, strings.getD_pred_length,
      List.getLast?_map, hlast]
    rfl
  refine ⟨?_, rfl, by decide⟩
  rw [hname]
  refine ⟨hsep, ?_⟩
  rcases hshape with ⟨_, h2⟩ | ⟨_, front, h2⟩
  · left
    rw [h2]
  · right
    refine ⟨String.mk front, ?_⟩
    apply String.ext
    simp [h2]

/-- C3 at the module path " github.com/acme/widget ", on the sample machine. -/
theorem deriveProjectNameFromModule_final_segment_witness :
    strings.TrimSpace " github.com/acme/widget " ≠ "" ∧
    (('/' ∉ (deriveProjectNameFromModule " github.com/acme/widget ").data ∧
      (deriveProjectNameFromModule " github.com/acme/widget " =
          strings.TrimSpace " github.com/acme/widget " ∨
        ∃ front : String, strings.TrimSpace " github.com/acme/widget " =
          front ++ "/" ++ deriveProjectNameFromModule " github.com/acme/widget ")) ∧
    previewProjectDir sample.env " github.com/acme/widget " =
      sample.env.Join (loadDefaultProjectBasePath sample.env)
        (deriveProjectNameFromModule " github.com/acme/widget ") ∧
    deriveProjectNameFromModule "github.com/acme/widget" = "widget") :=
  ⟨by decide, deriveProjectNameFromModule_final_segment sample.env " github.com/acme/widget "
    (by decide)⟩

/-- C4: in the module path step, with an input that is empty or made of white space only,
the enter key keeps the wizard in the module path step, sets the error message
"module path cannot be empty" (not empty), leaves the project directory as it was, and
does nothing outside the wizard. -/
theorem Update_modulePath_enter_blank {W : Type} (env : Env)
    (plugins : List (postplugin.Plugin W)) (m : GoWizardModel)
    (hstep : m.step = goStepModulePath)
    (hblank : ∀ c ∈ m.modulePathInput.Value.data, unicode.IsSpace c = true) :
    ∃ m1, (Update env plugins m (.KeyMsg "enter")).model = .self m1 ∧
      m1.step = goStepModulePath ∧
      m1.errMsg = "module path cannot be empty" ∧ m1.errMsg ≠ "" ∧
      m1.projectDir = m.projectDir ∧
      (Update env plugins m (.KeyMsg "enter")).effects = [] := by
  have hb : strings.TrimSpace m.modulePathInput.Value = "" :=
    (strings.TrimSpace_eq_empty_iff _).mpr hblank
  have hU : Update env plugins m (.KeyMsg "enter") =
      ⟨.self { m with
          progress := (env.progressUpdate m.progress (.KeyMsg "enter")).1
          modulePath := ""
          errMsg := "module path cannot be empty" },
        (env.progressUpdate m.progress (.KeyMsg "enter")).2.toList, []⟩ := by
    simp [Update, hstep, hb]
  rw [hU]
  refine ⟨_, rfl, hstep, rfl, ?_, rfl, rfl⟩
  show ("module path cannot be empty" : String) ≠ ""
  decide

/-- C4 on a wizard whose input holds two spaces and a tab. -/
theorem Update_modulePath_enter_blank_witness :
    (sample.atModulePath "  \t").step = goStepModulePath ∧
    (∀ c ∈ (sample.atModulePath "  \t").modulePathInput.Value.data, unicode.IsSpace c = true) ∧
    ∃ m1, (Update sample.env [sample.plugin] (sample.atModulePath "  \t")
        (.KeyMsg "enter")).model = .self m1 ∧
      m1.step = goStepModulePath ∧
      m1.errMsg = "module path cannot be empty" ∧ m1.errMsg ≠ "" ∧
      m1.projectDir = (sample.atModulePath "  \t").projectDir ∧
      (Update sample.env [sample.plugin] (sample.atModulePath "  \t")
        (.KeyMsg "enter")).effects = [] :=
  ⟨rfl, by decide,
    Update_modulePath_enter_blank sample.env [sample.plugin] (sample.atModulePath "  \t") rfl
      (by decide)⟩

/-- C5: in the module path step, with an input that is not empty once trimmed, the enter key
stores the trimmed input as the module path, sets the project directory to the preview
directory of that module path, clears the error message and moves to the summary step. -/
theorem Update_modulePath_enter_text {W : Type} (env : Env)
    (plugins : List (postplugin.Plugin W)) (m : GoWizardModel)
    (hstep : m.step = goStepModulePath)
    (htext : strings.TrimSpace m.modulePathInput.Value ≠ "") :
    ∃ m1, (Update env plugins m (.KeyMsg "enter")).model = .self m1 ∧
      m1.modulePath = strings.TrimSpace m.modulePathInput.Value ∧
      m1.projectDir = previewProjectDir env (strings.TrimSpace m.modulePathInput.Value) ∧
      m1.errMsg = "" ∧
      m1.step = goStepSummary := by
  have hU : Update env plugins m (.KeyMsg "enter") =
      ⟨.self { m with
          progress := (env.progressUpdate m.progress (.KeyMsg "enter")).1
          modulePath := strings.TrimSpace m.modulePathInput.Value
          projectDir := previewProjectDir env (strings.TrimSpace m.modulePathInput.Value)
          errMsg := ""
          step := goStepSummary },
        (env.progressUpdate m.progress (.KeyMsg "enter")).2.toList, []⟩ := by
    simp [Update, hstep, htext]
  rw [hU]
  exact ⟨_, rfl, rfl, rfl, rfl, rfl⟩

/-- C5 on a wizard whose input holds " github.com/acme/widget ". -/
theorem Update_modulePath_enter_text_witness :
    (sample.atModulePath " github.com/acme/widget ").step = goStepModulePath ∧
    strings.TrimSpace (sample.atModulePath " github.com/acme/widget ").modulePathInput.Value ≠ "" ∧
    ∃ m1, (Update sample.env [sample.plugin] (sample.atModulePath " github.com/acme/widget ")
        (.KeyMsg "enter")).model = .self m1 ∧
      m1.modulePath =
        strings.TrimSpace (sample.atModulePath " github.com/acme/widget ").modulePathInput.Value ∧
      m1.projectDir = previewProjectDir sample.env
        (strings.TrimSpace (sample.atModulePath " github.com/acme/widget ").modulePathInput.Value) ∧
      m1.errMsg = "" ∧
      m1.step = goStepSummary :=
  ⟨rfl, by decide,
    Update_modulePath_enter_text sample.env [sample.plugin]
      (sample.atModulePath " github.com/acme/widget ") rfl (by decide)⟩


/-! ### The log buffer -/

theorem drop_last_append {α : Type} (n : Nat) (a b : List α) :
    (a.drop (a.length - n) ++ b).drop ((a.drop (a.length - n) ++ b).length - n) =
      (a ++ b).drop ((a ++ b).length - n) := by
  simp only [List.drop_append_eq_append_drop, List.length_append, List.length_drop,
    List.drop_drop]
  congr 2 <;> omega

theorem appendLogLine_logLines (m : GoWizardModel) (line : String) (h : line ≠ "") :
    (appendLogLine m line).logLines =
      (m.logLines ++ [line]).drop ((m.logLines ++ [line]).length - maxLines) := by
  unfold appendLogLine
  rw [if_neg h]
  by_cases hl : (m.logLines ++ [line]).length > maxLines
  · simp only [hl, if_true]
  · simp only [hl, if_false]
    have : (m.logLines ++ [line]).length - maxLines = 0 := by omega
    rw [this, List.drop_zero]

theorem appendLogLine_empty (m : GoWizardModel) : appendLogLine m "" = m := by
  simp [appendLogLine]

theorem appendLogLine_congr (m m1 : GoWizardModel) (line : String)
    (h : m.logLines = m1.logLines) :
    (appendLogLine m line).logLines = (appendLogLine m1 line).logLines := by
  simp only [appendLogLine, h]
  split_ifs <;> first | rfl | exact h

theorem foldl_appendLogLine_congr (lines : List String) (m m1 : GoWizardModel)
    (h : m.logLines = m1.logLines) :
    (lines.foldl appendLogLine m).logLines = (lines.foldl appendLogLine m1).logLines := by
  induction lines generalizing m m1 with
  | nil => exact h
  | cons line rest ih => exact ih _ _ (appendLogLine_congr m m1 line h)

/-- The buffer after a sequence of lines: the last `maxLines` of the lines it held followed
by the non-empty new ones. -/
theorem foldl_appendLogLine (lines : List String) (m : GoWizardModel)
    (h : m.logLines.length ≤ maxLines) :
    (lines.foldl appendLogLine m).logLines =
      (m.logLines ++ lines.filter (fun l => l ≠ "")).drop
        ((m.logLines ++ lines.filter (fun l => l ≠ "")).length - maxLines) := by
  induction lines generalizing m with
  | nil =>
    have : m.logLines.length - maxLines = 0 := by omega
    simp [this]
  | cons line rest ih =>
    simp only [List.foldl_cons]
    by_cases hl : line = ""
    · subst hl
      rw [appendLogLine_empty, ih m h]
      simp
    · have h1 := appendLogLine_logLines m line hl
      have hlen : (appendLogLine m line).logLines.length ≤ maxLines := by
        rw [h1, List.length_drop]
        omega
      rw [ih _ hlen, h1, drop_last_append]
      simp [hl]

/-! ### Rounding to `float64` -/

end goproject

namespace float64

theorem roundHalfEven_eq (x : ℚ) (n : ℤ) (h : |x - n| < 1 / 2) : roundHalfEven x = n := by
  rw [abs_sub_lt_iff] at h
  obtain ⟨h1, h2⟩ := h
  unfold roundHalfEven
  simp only
  by_cases hx : (n : ℚ) ≤ x
  · have hf : ⌊x⌋ = n := Int.floor_eq_iff.mpr ⟨hx, by linarith⟩
    rw [hf, if_pos (by linarith)]
  · have hx1 : x < n := not_le.mp hx
    have hf : ⌊x⌋ = n - 1 := Int.floor_eq_iff.mpr ⟨by push_cast; linarith, by push_cast; linarith⟩
    rw [hf]
    push_cast
    rw [if_neg (by linarith), if_pos (by linarith)]
    ring

theorem roundHalfEven_tie (x : ℚ) (n : ℤ) (h : x = n + 1 / 2 ∨ x = n - 1 / 2)
    (he : n % 2 = 0) : roundHalfEven x = n := by
  unfold roundHalfEven
  simp only
  rcases h with h | h
  · have hf : ⌊x⌋ = n := Int.floor_eq_iff.mpr ⟨by linarith, by linarith⟩
    rw [hf, if_neg (by linarith), if_neg (by linarith), if_pos he]
  · have hf : ⌊x⌋ = n - 1 := Int.floor_eq_iff.mpr ⟨by push_cast; linarith, by push_cast; linarith⟩
    rw [hf]
    push_cast
    rw [if_neg (by linarith), if_neg (by linarith), if_neg (by omega)]
    ring

theorem abs_roundHalfEven_sub_le (x : ℚ) : |(roundHalfEven x : ℚ) - x| ≤ 1 / 2 := by
  have h1 := Int.floor_le x
  have h2 := Int.lt_floor_add_one x
  unfold roundHalfEven
  simp only
  rw [abs_le]
  split_ifs with ha hb hc
  · constructor <;> linarith
  · push_cast
    constructor <;> linarith
  · constructor <;> linarith
  · push_cast
    constructor <;> linarith

theorem log_eq (q : ℚ) (k : ℤ) (h1 : (2 : ℚ) ^ k ≤ q) (h2 : q < (2 : ℚ) ^ (k + 1)) :
    Int.log 2 q = k := by
  have hq : 0 < q := lt_of_lt_of_le (by positivity) h1
  have ha : k ≤ Int.log 2 q := (Int.zpow_le_iff_le_log (by norm_num) hq).mp (by exact_mod_cast h1)
  have hb : Int.log 2 q < k + 1 := (Int.lt_zpow_iff_log_lt (by norm_num) hq).mp (by exact_mod_cast h2)
  omega

/-- The rounding of a positive number that lies in the binade of `2 ^ (e + 52)`. -/
theorem round_eq (q : ℚ) (e n : ℤ) (h1 : (2 : ℚ) ^ (e + 52) ≤ q) (h2 : q < (2 : ℚ) ^ (e + 52 + 1))
    (hn : roundHalfEven (q / 2 ^ e) = n) : round q = n * 2 ^ e := by
  have hq : 0 < q := lt_of_lt_of_le (by positivity) h1
  unfold round
  rw [if_neg (ne_of_gt hq)]
  simp only
  rw [abs_of_pos hq, log_eq q (e + 52) h1 h2]
  have : e + 52 - 52 = e := by ring
  rw [this, hn]

/-- The relative error of the rounding is at most `2 ^ (-53)`. -/
theorem abs_round_sub_le (q : ℚ) (hq : 0 < q) : |round q - q| ≤ q / 2 ^ 53 := by
  unfold round
  rw [if_neg (ne_of_gt hq)]
  simp only
  rw [abs_of_pos hq]
  set k := Int.log 2 q with hk
  have hlow : (2 : ℚ) ^ k ≤ q := by
    have := Int.zpow_log_le_self (R := ℚ) (b := 2) (by norm_num) hq
    exact_mod_cast this
  have hpos : (0 : ℚ) < 2 ^ (k - 52) := by positivity
  have herr := abs_roundHalfEven_sub_le (q / 2 ^ (k - 52))
  have hq2 : q = q / 2 ^ (k - 52) * 2 ^ (k - 52) := by
    field_simp
  have : (roundHalfEven (q / 2 ^ (k - 52)) : ℚ) * 2 ^ (k - 52) - q =
      ((roundHalfEven (q / 2 ^ (k - 52)) : ℚ) - q / 2 ^ (k - 52)) * 2 ^ (k - 52) := by
    rw [sub_mul, ← hq2]
  rw [this, abs_mul, abs_of_pos hpos]
  have hk2 : (2 : ℚ) ^ k = 2 ^ (k - 52) * 2 ^ (52 : ℤ) := by
    rw [← zpow_add₀ (by norm_num)]
    congr 1
    ring
  have h52 : (2 : ℚ) ^ (52 : ℤ) = 2 ^ 52 := by norm_cast
  calc |(roundHalfEven (q / 2 ^ (k - 52)) : ℚ) - q / 2 ^ (k - 52)| * 2 ^ (k - 52)
      ≤ 1 / 2 * 2 ^ (k - 52) := by
        exact mul_le_mul_of_nonneg_right herr (le_of_lt hpos)
    _ = 2 ^ k / 2 ^ 53 := by
        rw [hk2, h52]
        field_simp
        ring
    _ ≤ q / 2 ^ 53 := by
        exact div_le_div_of_nonneg_right hlow (by positivity)

theorem round_002 : round 0.02 = 5764607523034235 / 2 ^ 58 := by
  have h := round_eq 0.02 (-58) 5764607523034235 (by norm_num) (by norm_num)
    (roundHalfEven_eq _ _ (by norm_num [abs_lt]))
  rw [h]
  norm_num

theorem round_095 : round 0.95 = 8556839292003942 / 2 ^ 53 := by
  have h := round_eq 0.95 (-53) 8556839292003942 (by norm_num) (by norm_num)
    (roundHalfEven_eq _ _ (by norm_num [abs_lt]))
  rw [h]
  norm_num

theorem round_095_le : round 0.95 ≤ 0.95 := by
  rw [round_095]
  norm_num

theorem round_095_pos : 0 < round 0.95 := by
  rw [round_095]
  norm_num

theorem round_095_lt_one : round 0.95 < 1 := by
  rw [round_095]
  norm_num

theorem round_pos (q : ℚ) (hq : 0 < q) : 0 ≤ round q := by
  have h := abs_round_sub_le q hq
  rw [abs_le] at h
  have h53 : q / 2 ^ 53 ≤ q := by
    apply div_le_self (le_of_lt hq)
    norm_num
  linarith [h.1]

end float64

namespace goproject

open goWizardStep

/-! ### The increment of the progress estimate -/

theorem bumpProgress_le (v : ℚ) : bumpProgress v ≤ float64.round 0.95 := by
  unfold bumpProgress
  simp only
  split_ifs with h
  · exact le_refl _
  · exact not_lt.mp h

theorem bumpProgress_nonneg (v : ℚ) (h0 : 0 ≤ v) : 0 ≤ bumpProgress v := by
  unfold bumpProgress
  simp only
  split_ifs with h
  · exact le_of_lt float64.round_095_pos
  · apply float64.round_pos
    rw [float64.round_002]
    have : (0 : ℚ) < 5764607523034235 / 2 ^ 58 := by norm_num
    linarith

theorem le_bumpProgress (v : ℚ) (h0 : 0 ≤ v) (h1 : v ≤ float64.round 0.95) :
    v ≤ bumpProgress v := by
  unfold bumpProgress
  simp only
  split_ifs with h
  · exact h1
  · have hc : (0 : ℚ) < 5764607523034235 / 2 ^ 58 := by norm_num
    have hx : 0 < v + float64.round 0.02 := by
      rw [float64.round_002]
      linarith
    have herr := float64.abs_round_sub_le _ hx
    rw [abs_le] at herr
    have h1' : v ≤ 0.95 := le_trans h1 float64.round_095_le
    unfold float64.add
    rw [float64.round_002] at herr hx ⊢
    norm_num at herr hx h1' ⊢
    linarith [herr.1]

/-- One increment away from the clamp: the error grows by at most `2 ^ (-52)`. -/
theorem bumpProgress_near (v : ℚ) (k : ℕ) (hk : k ≤ 46)
    (h : |v - (k : ℚ) / 50| ≤ (k : ℚ) / 2 ^ 52) :
    |bumpProgress v - ((k + 1 : ℕ) : ℚ) / 50| ≤ ((k + 1 : ℕ) : ℚ) / 2 ^ 52 := by
  have hk0 : (0 : ℚ) ≤ (k : ℚ) := Nat.cast_nonneg k
  have hk46 : (k : ℚ) ≤ 46 := by exact_mod_cast hk
  rw [abs_le] at h
  obtain ⟨ha, hb⟩ := h
  have hx : 0 < v + float64.round 0.02 := by
    rw [float64.round_002]
    norm_num at ha ⊢
    linarith
  have herr := float64.abs_round_sub_le _ hx
  rw [abs_le] at herr
  obtain ⟨hc, hd⟩ := herr
  have hadd : float64.add v (float64.round 0.02) = float64.round (v + float64.round 0.02) := rfl
  have hnot : ¬ (float64.add v (float64.round 0.02) > float64.round 0.95) := by
    rw [hadd, not_lt, float64.round_095]
    rw [float64.round_002] at hc hd ⊢
    norm_num at ha hb hc hd ⊢
    linarith
  unfold bumpProgress
  simp only
  rw [if_neg hnot, hadd, abs_le]
  rw [float64.round_002] at hc hd ⊢
  push_cast
  norm_num at ha hb hc hd ⊢
  constructor <;> linarith

theorem bumpProgress_clamp (v : ℚ) (h : |v - 47 / 50| ≤ 47 / 2 ^ 52) :
    bumpProgress v = float64.round 0.95 := by
  rw [abs_le] at h
  obtain ⟨ha, hb⟩ := h
  have hx : 0 < v + float64.round 0.02 := by
    rw [float64.round_002]
    norm_num at ha ⊢
    linarith
  have herr := float64.abs_round_sub_le _ hx
  rw [abs_le] at herr
  obtain ⟨hc, hd⟩ := herr
  have hadd : float64.add v (float64.round 0.02) = float64.round (v + float64.round 0.02) := rfl
  have hgt : float64.add v (float64.round 0.02) > float64.round 0.95 := by
    rw [hadd, gt_iff_lt, float64.round_095]
    rw [float64.round_002] at hc hd ⊢
    norm_num at ha hb hc hd ⊢
    linarith
  unfold bumpProgress
  simp only
  rw [if_pos hgt]

theorem bumpProgress_clamped : bumpProgress (float64.round 0.95) = float64.round 0.95 := by
  have hx : 0 < float64.round 0.95 + float64.round 0.02 := by
    rw [float64.round_002, float64.round_095]
    norm_num
  have herr := float64.abs_round_sub_le _ hx
  rw [abs_le] at herr
  obtain ⟨hc, hd⟩ := herr
  have hadd : float64.add (float64.round 0.95) (float64.round 0.02) =
      float64.round (float64.round 0.95 + float64.round 0.02) := rfl
  have hgt : float64.add (float64.round 0.95) (float64.round 0.02) > float64.round 0.95 := by
    rw [hadd, gt_iff_lt]
    rw [float64.round_002, float64.round_095] at hc hd ⊢
    norm_num at hc hd ⊢
    linarith
  unfold bumpProgress
  simp only
  rw [if_pos hgt]

/-- The estimate after `k` increments from 0. -/
theorem iterate_bumpProgress (k : ℕ) :
    (k ≤ 47 → |bumpProgress^[k] 0 - (k : ℚ) / 50| ≤ (k : ℚ) / 2 ^ 52) ∧
    (48 ≤ k → bumpProgress^[k] 0 = float64.round 0.95) := by
  induction k with
  | zero =>
    constructor
    · intro _
      simp
    · intro h
      omega
  | succ k ih =>
    rw [Function.iterate_succ_apply']
    constructor
    · intro h
      exact bumpProgress_near _ k (by omega) (ih.1 (by omega))
    · intro h
      by_cases h47 : k = 47
      · have h1 := ih.1 (by omega)
        have hk47 : (k : ℚ) = 47 := by exact_mod_cast h47
        rw [hk47] at h1
        exact bumpProgress_clamp _ h1
      · rw [ih.2 (by omega)]
        exact bumpProgress_clamped

theorem iterate_bumpProgress_near_min (k : ℕ) :
    |bumpProgress^[k] 0 - min (0.02 * (k : ℚ)) 0.95| ≤ 1 / 2 ^ 46 := by
  have hk0 : (0 : ℚ) ≤ (k : ℚ) := Nat.cast_nonneg k
  by_cases hk : k ≤ 47
  · have h := (iterate_bumpProgress k).1 hk
    have hk47 : (k : ℚ) ≤ 47 := by exact_mod_cast hk
    have hmin : min (0.02 * (k : ℚ)) 0.95 = (k : ℚ) / 50 := by
      rw [min_eq_left (by norm_num; linarith)]
      norm_num
      ring
    rw [hmin]
    refine le_trans h ?_
    norm_num
    linarith
  · have h := (iterate_bumpProgress k).2 (by omega)
    have hk48 : (48 : ℚ) ≤ (k : ℚ) := by exact_mod_cast (by omega : 48 ≤ k)
    rw [h, min_eq_right (by norm_num; linarith), float64.round_095, abs_le]
    norm_num

/-- Six increments, one after the other. -/
theorem iterate_bumpProgress_six : bumpProgress^[6] 0 = 8646911284551353 / 2 ^ 56 := by
  have hc := float64.round_002
  have h95 := float64.round_095
  have step : ∀ (v : ℚ) (e n : ℤ), (2 : ℚ) ^ (e + 52) ≤ v + 5764607523034235 / 2 ^ 58 →
      v + 5764607523034235 / 2 ^ 58 < (2 : ℚ) ^ (e + 52 + 1) →
      float64.roundHalfEven ((v + 5764607523034235 / 2 ^ 58) / 2 ^ e) = n →
      (n : ℚ) * 2 ^ e ≤ 8556839292003942 / 2 ^ 53 →
      bumpProgress v = n * 2 ^ e := by
    intro v e n h1 h2 hn hle
    unfold bumpProgress float64.add
    simp only
    rw [hc, h95, float64.round_eq _ e n h1 h2 hn, if_neg (not_lt.mpr hle)]
  have h1 : bumpProgress 0 = 5764607523034235 / 2 ^ 58 := by
    rw [step 0 (-58) 5764607523034235 (by norm_num) (by norm_num)
      (float64.roundHalfEven_eq _ _ (by norm_num [abs_lt])) (by norm_num)]
    norm_num
  have h2 : bumpProgress (5764607523034235 / 2 ^ 58) = 5764607523034235 / 2 ^ 57 := by
    rw [step _ (-57) 5764607523034235 (by norm_num) (by norm_num)
      (float64.roundHalfEven_eq _ _ (by norm_num [abs_lt])) (by norm_num)]
    norm_num
  have h3 : bumpProgress (5764607523034235 / 2 ^ 57) = 8646911284551352 / 2 ^ 57 := by
    rw [step _ (-57) 8646911284551352 (by norm_num) (by norm_num)
      (float64.roundHalfEven_tie _ _ (Or.inl (by norm_num)) (by norm_num)) (by norm_num)]
    norm_num
  have h4 : bumpProgress (8646911284551352 / 2 ^ 57) = 5764607523034235 / 2 ^ 56 := by
    rw [step _ (-56) 5764607523034235 (by norm_num) (by norm_num)
      (float64.roundHalfEven_eq _ _ (by norm_num [abs_lt])) (by norm_num)]
    norm_num
  have h5 : bumpProgress (5764607523034235 / 2 ^ 56) = 7205759403792794 / 2 ^ 56 := by
    rw [step _ (-56) 7205759403792794 (by norm_num) (by norm_num)
      (float64.roundHalfEven_eq _ _ (by norm_num [abs_lt])) (by norm_num)]
    norm_num
  have h6 : bumpProgress (7205759403792794 / 2 ^ 56) = 8646911284551353 / 2 ^ 56 := by
    rw [step _ (-56) 8646911284551353 (by norm_num) (by norm_num)
      (float64.roundHalfEven_eq _ _ (by norm_num [abs_lt])) (by norm_num)]
    norm_num
  simp only [Function.iterate_succ, Function.iterate_zero, Function.comp_apply, id_eq]
  rw [h1, h2, h3, h4, h5, h6]

/-! ### The install messages -/

theorem Update_installLogMsg {W : Type} (env : Env) (plugins : List (postplugin.Plugin W))
    (m : GoWizardModel) (line : String) (hstep : m.step = goStepInstalling) :
    ∃ m1, (Update env plugins m (.installLogMsg line)).model = .self m1 ∧
      m1.step = goStepInstalling ∧
      m1.logLines = (appendLogLine m line).logLines ∧
      m1.progressValue = bumpProgress m.progressValue ∧
      m1.installEvents = m.installEvents := by
  obtain ⟨step, mp, pd, em, ti, pr, pv, ie, ll⟩ := m
  simp only at hstep
  subst hstep
  simp only [Update, appendLogLine, updateTail, bumpProgress, if_true, reduceCtorEq, if_false]
  split_ifs <;> exact ⟨_, rfl, rfl, rfl, rfl, rfl⟩

theorem Update_installFinishedMsg {W : Type} (env : Env) (plugins : List (postplugin.Plugin W))
    (m : GoWizardModel) (err : Option String) (hstep : m.step = goStepInstalling) :
    (Update env plugins m (.installFinishedMsg err)).model = .self
      (match err with
        | some e =>
          { m with
            progress := (env.progressUpdate m.progress (.installFinishedMsg err)).1
            errMsg := "Go installation failed: " ++ e
            step := goStepSummary
            installEvents := none }
        | none =>
          { m with
            errMsg := "Go installation succeeded."
            progressValue := 1.0
            progress := env.progressSetPercent
              (env.progressUpdate m.progress (.installFinishedMsg err)).1 1.0
            step := goStepSummary
            installEvents := none }) := by
  cases err <;> simp [Update, hstep, updateTail]

/-- Handling a sequence of log-line messages in the installing step keeps the wizard in that
step and feeds the lines to the log buffer. -/
theorem UpdateAll_installLogMsg {W : Type} (env : Env) (plugins : List (postplugin.Plugin W))
    (lines : List String) (rest : List tea.Msg) (m : GoWizardModel)
    (hstep : m.step = goStepInstalling) :
    ∃ m1, UpdateAll env plugins m (lines.map .installLogMsg ++ rest) =
        UpdateAll env plugins m1 rest ∧
      m1.step = goStepInstalling ∧
      m1.logLines = (lines.foldl appendLogLine m).logLines := by
  induction lines generalizing m with
  | nil => exact ⟨m, rfl, hstep, rfl⟩
  | cons line more ih =>
    obtain ⟨m1, h1, hs1, hl1, _, _⟩ := Update_installLogMsg env plugins m line hstep
    obtain ⟨m2, h2, hs2, hl2⟩ := ih m1 hs1
    refine ⟨m2, ?_, hs2, ?_⟩
    · simp only [List.map_cons, List.cons_append, UpdateAll, h1]
      exact h2
    · rw [hl2, List.foldl_cons]
      exact foldl_appendLogLine_congr more m1 (appendLogLine m line) hl1

/-! ### Reachable states -/

theorem Update_keeps_progress_bound {W : Type} (env : Env) (plugins : List (postplugin.Plugin W))
    (m m1 : GoWizardModel) (msg : tea.Msg)
    (hinv : m.step = goStepInstalling → m.progressValue ≤ 0.95)
    (e : (Update env plugins m msg).model = .self m1) :
    m1.step = goStepInstalling → m1.progressValue ≤ 0.95 := by
  intro h1
  cases msg with
  | KeyMsg key =>
    obtain ⟨step, mp, pd, em, ti, pr, pv, ie, ll⟩ := m
    simp only at hinv
    cases step <;> simp only [Update, updateTail, if_true, reduceCtorEq, if_false] at e
    all_goals repeat' split at e
    all_goals cases e
    all_goals try dsimp only at h1 ⊢
    all_goals first
      | exact absurd h1 (by decide)
      | exact hinv h1
      | norm_num
  | installProgressMsg =>
    obtain ⟨step, mp, pd, em, ti, pr, pv, ie, ll⟩ := m
    simp only at hinv
    simp only [Update, updateTail] at e
    split at e <;> cases e <;> exact hinv h1
  | installLogMsg line =>
    by_cases hstep : m.step = goStepInstalling
    · obtain ⟨m2, h2, _, _, hv, _⟩ := Update_installLogMsg env plugins m line hstep
      rw [h2] at e
      cases e
      rw [hv]
      exact le_trans (bumpProgress_le _) float64.round_095_le
    · obtain ⟨step, mp, pd, em, ti, pr, pv, ie, ll⟩ := m
      simp only at hstep hinv
      simp only [Update, updateTail, hstep, if_false] at e
      split at e <;> cases e <;> exact hinv h1
  | installFinishedMsg err =>
    obtain ⟨step, mp, pd, em, ti, pr, pv, ie, ll⟩ := m
    simp only at hinv
    simp only [Update, updateTail] at e
    repeat' split at e
    all_goals cases e
    all_goals try dsimp only at h1 ⊢
    all_goals first
      | exact absurd h1 (by decide)
      | exact hinv h1
  | other tag =>
    obtain ⟨step, mp, pd, em, ti, pr, pv, ie, ll⟩ := m
    simp only at hinv
    simp only [Update, updateTail] at e
    split at e <;> cases e <;> exact hinv h1

/-- In every reachable state of the installing step the progress estimate is at most 0.95. -/
theorem Reachable.progress_le {W : Type} {m : GoWizardModel} (h : Reachable W m) :
    m.step = goStepInstalling → m.progressValue ≤ 0.95 := by
  induction h with
  | init env =>
    intro hs
    exact absurd hs (by simp [NewGoWizardModel])
  | update env plugins m m1 msg _ e ih =>
    exact Update_keeps_progress_bound env plugins m m1 msg ih e

theorem Reachable.UpdateAll {W : Type} (env : Env) (plugins : List (postplugin.Plugin W))
    (msgs : List tea.Msg) (m m1 : GoWizardModel) (h : Reachable W m)
    (e : goproject.UpdateAll env plugins m msgs = some m1) : Reachable W m1 := by
  induction msgs generalizing m with
  | nil =>
    simp only [goproject.UpdateAll, Option.some.injEq] at e
    exact e ▸ h
  | cons msg rest ih =>
    simp only [goproject.UpdateAll] at e
    split at e
    · rename_i m2 hm2
      exact ih m2 (Reachable.update env plugins m m2 msg h hm2) e
    · exact absurd e (by simp)

theorem sample_atInstalling_reachable : Reachable (String × String) sample.atInstalling :=
  Reachable.UpdateAll sample.env [sample.plugin]
    [.KeyMsg "enter", .KeyMsg "enter", .KeyMsg "y"] (NewGoWizardModel sample.env)
    sample.atInstalling (Reachable.init sample.env) rfl

/-! ### Project creation -/

theorem createGoProject_ok (env : Env) (modulePath : String)
    (h : (createGoProject env modulePath).err = none) :
    env.MkdirAll (createGoProject env modulePath).dir = none ∧
    Effect.MkdirAll (createGoProject env modulePath).dir ∈
      (createGoProject env modulePath).effects := by
  revert h
  unfold createGoProject
  simp only
  repeat' split
  all_goals simp_all

/-! ### The claims on the install session -/

/-- C6, as stated, fails: an empty line fed to `appendLogLine` is not kept, so after the one
line "" the buffer is not the last one of the lines fed. -/
theorem appendLogLine_empty_line_not_kept :
    sample.atInstalling.logLines = [] ∧
    ([""].foldl appendLogLine sample.atInstalling).logLines ≠ [""].drop ([""].length - 50) := by
  decide

/-- C6, amended: from an empty buffer, after any sequence of lines fed one by one to
`appendLogLine` the buffer holds exactly the last min(k, 50) of the non-empty lines of the
sequence, oldest first, k being their number (empty lines are skipped); so when no line
is empty it holds the last min(n, 50) of the n lines. -/
theorem appendLogLine_keeps_last (m : GoWizardModel) (lines : List String)
    (h : m.logLines = []) :
    (lines.foldl appendLogLine m).logLines =
      (lines.filter (fun l => l ≠ "")).drop ((lines.filter (fun l => l ≠ "")).length - 50) ∧
    ((∀ l ∈ lines, l ≠ "") →
      (lines.foldl appendLogLine m).logLines = lines.drop (lines.length - 50)) := by
  have hfold := foldl_appendLogLine lines m (by simp [h])
  rw [h, List.nil_append] at hfold
  refine ⟨hfold, fun hne => ?_⟩
  have hf : lines.filter (fun l => l ≠ "") = lines := by
    apply List.filter_eq_self.mpr
    intro l hl
    simpa using hne l hl
  rw [hfold, hf]
  rfl

/-- C6 on sixty non-empty lines: the buffer holds the lines 11 to 60, in order. -/
theorem appendLogLine_keeps_last_witness :
    sample.atInstalling.logLines = [] ∧
    ((sample.lines60.foldl appendLogLine sample.atInstalling).logLines =
      (sample.lines60.filter (fun l => l ≠ "")).drop
        ((sample.lines60.filter (fun l => l ≠ "")).length - 50) ∧
    ((∀ l ∈ sample.lines60, l ≠ "") →
      (sample.lines60.foldl appendLogLine sample.atInstalling).logLines =
        sample.lines60.drop (sample.lines60.length - 50))) ∧
    (∀ l ∈ sample.lines60, l ≠ "") ∧
    sample.lines60.drop (sample.lines60.length - 50) = sample.lines60.drop 10 :=
  ⟨rfl, appendLogLine_keeps_last sample.atInstalling sample.lines60 rfl, by decide, by decide⟩

/-- C7, as stated, fails in its general part: after the one log line "" and the success
message, the log is empty, not the sequence of the lines received. -/
theorem UpdateAll_empty_line_not_logged :
    sample.atInstalling.step = goStepInstalling ∧ sample.atInstalling.logLines = [] ∧
    [""].length ≤ 50 ∧
    (UpdateAll sample.env [sample.plugin] sample.atInstalling
      ([""].map .installLogMsg ++ [.installFinishedMsg none])).map (fun m => m.logLines) ≠
        some [""] := by
  decide

/-- C7, amended: from a wizard in the installing step with an empty log, after the log-line
messages of any sequence of at most 50 lines followed by the success message, the log is
that sequence without its empty lines, in order, the progress is 1.0 and the step is the
summary step. -/
theorem UpdateAll_install_success {W : Type} (env : Env) (plugins : List (postplugin.Plugin W))
    (m : GoWizardModel) (lines : List String)
    (hstep : m.step = goStepInstalling) (hlog : m.logLines = [])
    (hlen : lines.length ≤ 50) :
    ∃ m1, UpdateAll env plugins m (lines.map .installLogMsg ++ [.installFinishedMsg none]) =
        some m1 ∧
      m1.logLines = lines.filter (fun l => l ≠ "") ∧
      m1.progressValue = 1.0 ∧
      m1.step = goStepSummary := by
  obtain ⟨m1, h1, hs1, hl1⟩ :=
    UpdateAll_installLogMsg env plugins lines [.installFinishedMsg none] m hstep
  have hfin := Update_installFinishedMsg env plugins m1 none hs1
  refine ⟨{ m1 with
      errMsg := "Go installation succeeded."
      progressValue := 1.0
      progress := env.progressSetPercent
        (env.progressUpdate m1.progress (.installFinishedMsg none)).1 1.0
      step := goStepSummary
      installEvents := none }, ?_, ?_, rfl, rfl⟩
  · rw [h1]
    simp only [UpdateAll, hfin]
  · have hfold := foldl_appendLogLine lines m (by simp [hlog])
    rw [hlog, List.nil_append] at hfold
    have hk : (lines.filter (fun l => l ≠ "")).length ≤ 50 :=
      le_trans (List.length_filter_le _ _) hlen
    have h0 : (lines.filter (fun l => l ≠ "")).length - maxLines = 0 := by
      simp only [maxLines]
      omega
    show m1.logLines = _
    rw [hl1, hfold, h0, List.drop_zero]

/-- C7 on the lines "a", "b", "c": the log ends as exactly these three lines. -/
theorem UpdateAll_install_success_witness :
    sample.atInstalling.step = goStepInstalling ∧ sample.atInstalling.logLines = [] ∧
    ["a", "b", "c"].length ≤ 50 ∧
    ∃ m1, UpdateAll sample.env [sample.plugin] sample.atInstalling
        ([.installLogMsg "a", .installLogMsg "b", .installLogMsg "c"] ++
          [.installFinishedMsg none]) = some m1 ∧
      m1.logLines = ["a", "b", "c"] ∧
      m1.progressValue = 1.0 ∧
      m1.step = goStepSummary :=
  ⟨rfl, rfl, by decide,
    UpdateAll_install_success sample.env [sample.plugin] sample.atInstalling ["a", "b", "c"]
      rfl rfl (by decide)⟩

/-- C8: in a reachable state of the installing step, a failure message leaves the progress
estimate as it was, which is below 1.0, sets the error message to "Go installation failed: "
followed by the text of the error (so the message contains that text), moves to the summary
step and clears the reference to the queue. -/
theorem Update_install_failure {W : Type} (env : Env) (plugins : List (postplugin.Plugin W))
    (m : GoWizardModel) (e : String)
    (hreach : Reachable W m) (hstep : m.step = goStepInstalling) :
    ∃ m1, (Update env plugins m (.installFinishedMsg (some e))).model = .self m1 ∧
      m1.progressValue = m.progressValue ∧ m.progressValue < 1.0 ∧
      m1.errMsg = "Go installation failed: " ++ e ∧
      e.data <:+: m1.errMsg.data ∧
      m1.step = goStepSummary ∧
      m1.installEvents = none := by
  have hfin := Update_installFinishedMsg env plugins m (some e) hstep
  have hle := hreach.progress_le hstep
  refine ⟨_, hfin, rfl, ?_, rfl, ?_, rfl, rfl⟩
  · have : (0.95 : ℚ) < 1.0 := by norm_num
    exact lt_of_le_of_lt hle this
  · show e.data <:+: ("Go installation failed: " ++ e).data
    rw [String.data_append]
    exact (List.suffix_append _ _).isInfix

/-- C8 on the wizard that has just entered the installing step, with the error "exit status 1". -/
theorem Update_install_failure_witness :
    Reachable (String × String) sample.atInstalling ∧
    sample.atInstalling.step = goStepInstalling ∧
    ∃ m1, (Update sample.env [sample.plugin] sample.atInstalling
        (.installFinishedMsg (some "exit status 1"))).model = .self m1 ∧
      m1.progressValue = sample.atInstalling.progressValue ∧
      sample.atInstalling.progressValue < 1.0 ∧
      m1.errMsg = "Go installation failed: " ++ "exit status 1" ∧
      "exit status 1".data <:+: m1.errMsg.data ∧
      m1.step = goStepSummary ∧
      m1.installEvents = none :=
  ⟨sample_atInstalling_reachable, rfl,
    Update_install_failure sample.env [sample.plugin] sample.atInstalling "exit status 1"
      sample_atInstalling_reachable rfl⟩

/-- C9: on the enter key in the summary step, with Go installed and the project created
without error, `Update` returns the wizard that the first registered post-create plugin
builds for the created directory and the type "go" when a plugin is registered, and the
same Go wizard in the done step when none is; the directory is the one `os.MkdirAll`
was called on, with success. -/
theorem Update_summary_enter_created {W : Type} (env : Env) (ps : List (postplugin.Plugin W))
    (m : GoWizardModel)
    (hstep : m.step = goStepSummary)
    (hgo : langenv.IsInstalled env langenv.LanguageGo = true)
    (hok : (createGoProject env m.modulePath).err = none) :
    (∀ first rest, ps = first :: rest →
      (Update env (postplugin.RegisterEach ps []) m (.KeyMsg "enter")).model =
        .handoff (first.NewWizard (createGoProject env m.modulePath).dir "go")) ∧
    (ps = [] →
      (Update env (postplugin.RegisterEach ps []) m (.KeyMsg "enter")).model =
        .self { m with
          progress := (env.progressUpdate m.progress (.KeyMsg "enter")).1
          projectDir := (createGoProject env m.modulePath).dir
          errMsg := ""
          step := goStepDone }) ∧
    Effect.MkdirAll (createGoProject env m.modulePath).dir ∈
      (Update env (postplugin.RegisterEach ps []) m (.KeyMsg "enter")).effects ∧
    env.MkdirAll (createGoProject env m.modulePath).dir = none := by
  obtain ⟨hmk, heff⟩ := createGoProject_ok env m.modulePath hok
  have hall : postplugin.All (postplugin.RegisterEach ps []) = ps := by
    rw [postplugin.All_eq, postplugin.RegisterEach_eq]
    simp
  refine ⟨?_, ?_, ?_, hmk⟩
  · intro first rest hps
    subst hps
    simp [Update, hstep, hgo, hok, hall]
  · intro hps
    subst hps
    simp [Update, hstep, hgo, hok, hall]
  · cases ps with
    | nil => simpa [Update, hstep, hgo, hok, hall] using heff
    | cons first rest => simpa [Update, hstep, hgo, hok, hall] using heff

/-- C9 on the sample machine with Go installed: with the sample plugin registered, the
wizard hands off; with no plugin, it reaches the done step. -/
theorem Update_summary_enter_created_witness :
    sample.atSummary.step = goStepSummary ∧
    langenv.IsInstalled sample.envGo langenv.LanguageGo = true ∧
    (createGoProject sample.envGo sample.atSummary.modulePath).err = none ∧
    ((∀ first rest, [sample.plugin] = first :: rest →
      (Update sample.envGo (postplugin.RegisterEach [sample.plugin] []) sample.atSummary
        (.KeyMsg "enter")).model =
        .handoff (first.NewWizard
          (createGoProject sample.envGo sample.atSummary.modulePath).dir "go")) ∧
    ([sample.plugin] = [] →
      (Update sample.envGo (postplugin.RegisterEach [sample.plugin] []) sample.atSummary
        (.KeyMsg "enter")).model =
        .self { sample.atSummary with
          progress := (sample.envGo.progressUpdate sample.atSummary.progress (.KeyMsg "enter")).1
          projectDir := (createGoProject sample.envGo sample.atSummary.modulePath).dir
          errMsg := ""
          step := goStepDone }) ∧
    Effect.MkdirAll (createGoProject sample.envGo sample.atSummary.modulePath).dir ∈
      (Update sample.envGo (postplugin.RegisterEach [sample.plugin] []) sample.atSummary
        (.KeyMsg "enter")).effects ∧
    sample.envGo.MkdirAll (createGoProject sample.envGo sample.atSummary.modulePath).dir = none) ∧
    (createGoProject sample.envGo sample.atSummary.modulePath).dir = "/home/dev/Documents/widget" :=
  ⟨rfl, rfl, rfl,
    Update_summary_enter_created sample.envGo [sample.plugin] sample.atSummary rfl rfl rfl,
    by decide⟩

/-- C10 fails on the code: in the installing step with a queue, the message
`installProgressMsg` that the runner sends after each line is answered with no command at
all, so nothing waits for the next message of the queue, while a log-line message is
answered with the command waiting on the queue. -/
theorem Update_installProgressMsg_stops_listening :
    sample.atInstalling.step = goStepInstalling ∧
    sample.atInstalling.installEvents = some 1 ∧
    (Update sample.env [sample.plugin] sample.atInstalling .installProgressMsg).cmd = [] ∧
    (Update sample.env [sample.plugin] sample.atInstalling (.installLogMsg "a")).cmd =
      [.waitInstallEvent 1] := by
  decide

end goproject

namespace langenv

theorem detectByBinaries_mem (env : Env) :
    detectByBinaries env ∈ ["apt", "dnf", "pacman", ""] := by
  unfold detectByBinaries
  split_ifs <;> simp

theorem detectLinuxPackageManager_mem (env : Env) :
    detectLinuxPackageManager env ∈ ["apt", "dnf", "pacman", ""] := by
  unfold detectLinuxPackageManager
  split
  · simp only []
    split_ifs
    · simp
    · simp
    · simp
    · exact detectByBinaries_mem env
  · exact detectByBinaries_mem env

end langenv

namespace goproject

open goWizardStep

/-- C15: for the Go language, when the platform is not Linux, or is Linux with no package
manager identified, `InstallCommand` returns no command but an error asking for a manual
installation, and at the install prompt `Update` then starts nothing and goes back to the
summary step with that error; otherwise it returns, without error, the command for apt,
dnf or pacman. -/
theorem InstallCommand_go (env : Env) :
    ((env.GOOS ≠ "linux" ∨ langenv.detectLinuxPackageManager env = "") →
      ∃ e, langenv.InstallCommand env langenv.LanguageGo = .error e ∧
        "please install Go manually".data <:+: e.data ∧
        ∀ (W : Type) (plugins : List (postplugin.Plugin W)) (m : GoWizardModel) (key : String),
          m.step = goStepInstallPrompt → (key = "y" ∨ key = "Y" ∨ key = "enter") →
          (Update env plugins m (.KeyMsg key)).effects = [] ∧
          ∃ m1, (Update env plugins m (.KeyMsg key)).model = .self m1 ∧
            m1.step = goStepSummary ∧ m1.errMsg = e ∧ m1.installEvents = m.installEvents) ∧
    (¬ (env.GOOS ≠ "linux" ∨ langenv.detectLinuxPackageManager env = "") →
      ∃ cmd, langenv.InstallCommand env langenv.LanguageGo = .ok cmd ∧
        cmd ∈ [exec.Command "sh" ["-c", "sudo apt-get update && sudo apt-get install -y golang-go"],
          exec.Command "sh" ["-c", "sudo dnf install -y golang"],
          exec.Command "sh" ["-c", "sudo pacman -Sy --noconfirm go"]]) := by
  have hupd : ∀ e, langenv.InstallCommand env langenv.LanguageGo = .error e →
      ∀ (W : Type) (plugins : List (postplugin.Plugin W)) (m : GoWizardModel) (key : String),
        m.step = goStepInstallPrompt → (key = "y" ∨ key = "Y" ∨ key = "enter") →
        (Update env plugins m (.KeyMsg key)).effects = [] ∧
        ∃ m1, (Update env plugins m (.KeyMsg key)).model = .self m1 ∧
          m1.step = goStepSummary ∧ m1.errMsg = e ∧ m1.installEvents = m.installEvents := by
    intro e he W plugins m key hstep hkey
    have hU : Update env plugins m (.KeyMsg key) =
        ⟨.self { m with
            progress := (env.progressUpdate m.progress (.KeyMsg key)).1
            errMsg := e
            step := goStepSummary },
          (env.progressUpdate m.progress (.KeyMsg key)).2.toList, []⟩ := by
      simp [Update, hstep, hkey, he]
    rw [hU]
    exact ⟨rfl, _, rfl, rfl, rfl, rfl⟩
  have hgo : langenv.InstallCommand env langenv.LanguageGo = langenv.installGoCommand env := by
    simp [langenv.InstallCommand]
  constructor
  · intro h
    by_cases hos : env.GOOS = "linux"
    · have hpm : langenv.detectLinuxPackageManager env = "" := by
        rcases h with h | h
        · exact absurd hos h
        · exact h
      have he : langenv.InstallCommand env langenv.LanguageGo =
          .error "unsupported Linux distro for automatic Go install; please install Go manually" := by
        rw [hgo]
        simp [langenv.installGoCommand, hos, hpm]
      exact ⟨_, he, by decide, hupd _ he⟩
    · have he : langenv.InstallCommand env langenv.LanguageGo =
          .error "automatic Go installation is only supported on Linux; please install Go manually" := by
        rw [hgo]
        simp [langenv.installGoCommand, hos]
      exact ⟨_, he, by decide, hupd _ he⟩
  · intro h
    have hos : env.GOOS = "linux" := by
      by_contra hne
      exact h (Or.inl hne)
    have hpm : langenv.detectLinuxPackageManager env ≠ "" := fun hp => h (Or.inr hp)
    have hmem := langenv.detectLinuxPackageManager_mem env
    simp only [List.mem_cons, List.mem_singleton, List.not_mem_nil, or_false] at hmem
    rw [hgo]
    rcases hmem with hp | hp | hp | hp
    · exact ⟨exec.Command "sh" ["-c", "sudo apt-get update && sudo apt-get install -y golang-go"],
        by simp [langenv.installGoCommand, hos, hp], by simp⟩
    · exact ⟨exec.Command "sh" ["-c", "sudo dnf install -y golang"],
        by simp [langenv.installGoCommand, hos, hp], by simp⟩
    · exact ⟨exec.Command "sh" ["-c", "sudo pacman -Sy --noconfirm go"],
        by simp [langenv.installGoCommand, hos, hp], by simp⟩
    · exact absurd hp hpm

/-- C15 on a machine that is not Linux, on a Linux machine of an unknown distribution, and
on the sample Linux machine with `apt-get`. -/
theorem InstallCommand_go_witness :
    (∃ e, langenv.InstallCommand sample.envDarwin langenv.LanguageGo = .error e ∧
        "please install Go manually".data <:+: e.data ∧
        ∀ (W : Type) (plugins : List (postplugin.Plugin W)) (m : GoWizardModel) (key : String),
          m.step = goStepInstallPrompt → (key = "y" ∨ key = "Y" ∨ key = "enter") →
          (Update sample.envDarwin plugins m (.KeyMsg key)).effects = [] ∧
          ∃ m1, (Update sample.envDarwin plugins m (.KeyMsg key)).model = .self m1 ∧
            m1.step = goStepSummary ∧ m1.errMsg = e ∧ m1.installEvents = m.installEvents) ∧
    (∃ e, langenv.InstallCommand sample.envUnknownDistro langenv.LanguageGo = .error e ∧
        "please install Go manually".data <:+: e.data ∧
        ∀ (W : Type) (plugins : List (postplugin.Plugin W)) (m : GoWizardModel) (key : String),
          m.step = goStepInstallPrompt → (key = "y" ∨ key = "Y" ∨ key = "enter") →
          (Update sample.envUnknownDistro plugins m (.KeyMsg key)).effects = [] ∧
          ∃ m1, (Update sample.envUnknownDistro plugins m (.KeyMsg key)).model = .self m1 ∧
            m1.step = goStepSummary ∧ m1.errMsg = e ∧ m1.installEvents = m.installEvents) ∧
    (∃ cmd, langenv.InstallCommand sample.env langenv.LanguageGo = .ok cmd ∧
        cmd ∈ [exec.Command "sh" ["-c", "sudo apt-get update && sudo apt-get install -y golang-go"],
          exec.Command "sh" ["-c", "sudo dnf install -y golang"],
          exec.Command "sh" ["-c", "sudo pacman -Sy --noconfirm go"]]) :=
  ⟨(InstallCommand_go sample.envDarwin).1 (Or.inl (by decide)),
    (InstallCommand_go sample.envUnknownDistro).1 (Or.inr (by decide)),
    (InstallCommand_go sample.env).2 (by decide)⟩

end goproject

namespace goproject

open goWizardStep

/-! ### The view and the configuration -/

/-- C16, as stated, fails: for one and the same wizard state in the summary step, `View`
returns two different texts on two machines that differ in their configuration file only. -/
theorem View_depends_on_configuration :
    sample.atSummary.step = goStepSummary ∧
    View sample.widgets sample.env sample.atSummary ≠
      View sample.widgets sample.envConfigured sample.atSummary := by
  decide

/-- C16, amended: `View` depends on the world through the preview directory of the summary
step only; outside the summary step, and whenever `previewProjectDir` gives the same
directory for the module path of the state, it returns the same text for the same state. -/
theorem View_eq_of_previewProjectDir_eq (wd : Widgets) (env1 env2 : Env) (m : GoWizardModel)
    (h : m.step = goStepSummary →
      previewProjectDir env1 m.modulePath = previewProjectDir env2 m.modulePath) :
    View wd env1 m = View wd env2 m := by
  unfold View
  cases hs : m.step with
  | goStepSummary => simp only [h hs]
  | _ => rfl

/-- C16, amended, on the wizard in the summary step and two sample machines that differ in
the search path only: the same preview directory, hence the same text. -/
theorem View_eq_of_previewProjectDir_eq_witness :
    (sample.atSummary.step = goStepSummary →
      previewProjectDir sample.env sample.atSummary.modulePath =
        previewProjectDir sample.envGo sample.atSummary.modulePath) ∧
    View sample.widgets sample.env sample.atSummary =
      View sample.widgets sample.envGo sample.atSummary :=
  ⟨fun _ => by decide,
    View_eq_of_previewProjectDir_eq sample.widgets sample.env sample.envGo
      sample.atSummary (fun _ => by decide)⟩

theorem firstValue_eq_find (key : String) (lines : List String) :
    firstValue key lines =
      (lines.find? (hasValue key)).map
        (fun line => strings.TrimSpace (strings.TrimPrefix line key)) := by
  induction lines with
  | nil => rfl
  | cons line rest ih =>
    by_cases hp : strings.HasPrefix line key = true
    · by_cases hv : strings.TrimSpace (strings.TrimPrefix line key) = ""
      · simp [firstValue, hasValue, hp, hv, ih]
      · simp [firstValue, hasValue, hp, hv]
    · simp [firstValue, hasValue, hp, ih]

theorem firstValue_filter (key : String) (lines : List String) :
    firstValue key (lines.filter (fun line => strings.HasPrefix line key)) =
      firstValue key lines := by
  induction lines with
  | nil => rfl
  | cons line rest ih =>
    by_cases hp : strings.HasPrefix line key = true
    · by_cases hv : strings.TrimSpace (strings.TrimPrefix line key) = ""
      · simp [firstValue, hp, hv, ih]
      · simp [firstValue, hp, hv]
    · simp [firstValue, hp, ih]

/-- C18: `loadDefaultModulePath` and `loadDefaultProjectBasePath` return what the
specification says (the built-in default, resp. the `Documents` directory of the home
directory or ".", unless the file has a line beginning with the key and holding a non-blank
value, and then the expansion of the trimmed value of the first such line); and replacing
the content of the file by one with the same lines beginning with the key changes
neither result. -/
theorem loadDefaults_spec (env : Env) :
    loadDefaultModulePath env = specDefaultModulePath env ∧
    loadDefaultProjectBasePath env = specDefaultProjectBasePath env ∧
    (∀ data data1 : String, env.ReadFile ".env" = some data →
      ((strings.Split data '\n').filter
          (fun line => strings.HasPrefix line "DEFAULT_GO_PROJECT_MODULE_PATH=") =
        (strings.Split data1 '\n').filter
          (fun line => strings.HasPrefix line "DEFAULT_GO_PROJECT_MODULE_PATH=")) →
      loadDefaultModulePath { env with ReadFile := fun _ => some data1 } =
        loadDefaultModulePath env) ∧
    (∀ data data1 : String, env.ReadFile ".env" = some data →
      ((strings.Split data '\n').filter
          (fun line => strings.HasPrefix line "DEFAULT_GO_PROJECT_PATH=") =
        (strings.Split data1 '\n').filter
          (fun line => strings.HasPrefix line "DEFAULT_GO_PROJECT_PATH=")) →
      loadDefaultProjectBasePath { env with ReadFile := fun _ => some data1 } =
        loadDefaultProjectBasePath env) := by
  refine ⟨?_, ?_, ?_, ?_⟩
  · unfold loadDefaultModulePath specDefaultModulePath configured
    cases env.ReadFile ".env" with
    | none => rfl
    | some data =>
      simp only [Option.bind, firstValue_eq_find]
  · unfold loadDefaultProjectBasePath specDefaultProjectBasePath configured homeDocuments
    cases env.ReadFile ".env" with
    | none =>
      simp only [Option.bind]
      cases env.UserHomeDir with
      | none => rfl
      | some home => by_cases hh : home = "" <;> simp [hh]
    | some data =>
      simp only [Option.bind, firstValue_eq_find]
      cases (List.find? (hasValue "DEFAULT_GO_PROJECT_PATH=") (strings.Split data '\n')) with
      | some line => rfl
      | none =>
        simp only [Option.map]
        cases env.UserHomeDir with
        | none => rfl
        | some home => by_cases hh : home = "" <;> simp [hh]
  · intro data data1 hread hsame
    simp only [loadDefaultModulePath, hread]
    rw [← firstValue_filter _ (strings.Split data1 '\n'), ← hsame, firstValue_filter]
    rfl
  · intro data data1 hread hsame
    simp only [loadDefaultProjectBasePath, hread]
    rw [← firstValue_filter _ (strings.Split data1 '\n'), ← hsame, firstValue_filter]
    rfl

end goproject

namespace goproject

open goWizardStep

/-- C18 on the sample machine with a configuration file: the configured values are found,
and the file reduced to its module path line gives the same module path. -/
theorem loadDefaults_spec_witness :
    sample.envConfigured.ReadFile ".env" = some "# defaults\nDEFAULT_GO_PROJECT_PATH=\nDEFAULT_GO_PROJECT_PATH= /srv/projects \nDEFAULT_GO_PROJECT_MODULE_PATH=example.org/team/tool\nOTHER=1\n" ∧
    loadDefaultModulePath sample.envConfigured = "example.org/team/tool" ∧
    loadDefaultProjectBasePath sample.envConfigured = "/srv/projects" ∧
    loadDefaultModulePath { sample.envConfigured with
        ReadFile := fun _ => some "DEFAULT_GO_PROJECT_MODULE_PATH=example.org/team/tool" } =
      loadDefaultModulePath sample.envConfigured :=
  ⟨rfl, by decide, by decide,
    (loadDefaults_spec sample.envConfigured).2.2.1 _ _ rfl (by decide)⟩

/-! ### The transition table -/

/-- C19: whatever the state and the message, `Update` returns a Go wizard in a step that the
transition table allows after the step of the state, or hands off, from the summary step
only; and a log-line or terminal message of the runner received outside the installing step
changes neither the step, the log, the progress estimate nor the error message. -/
theorem Update_follows_table {W : Type} (env : Env) (plugins : List (postplugin.Plugin W))
    (m : GoWizardModel) (msg : tea.Msg) :
    allowedAfter m.step (Update env plugins m msg).model = true ∧
    (m.step ≠ goStepInstalling →
      (isInstallLogMsg msg = true ∨ isInstallFinishedMsg msg = true) →
      ∃ m1, (Update env plugins m msg).model = .self m1 ∧
        m1.step = m.step ∧ m1.logLines = m.logLines ∧
        m1.progressValue = m.progressValue ∧ m1.errMsg = m.errMsg) := by
  obtain ⟨step, mp, pd, em, ti, pr, pv, ie, ll⟩ := m
  constructor
  · cases msg with
    | KeyMsg key =>
      cases step <;> simp only [Update, updateTail, if_true, reduceCtorEq, if_false]
      all_goals repeat' split
      all_goals rfl
    | installProgressMsg =>
      cases step <;> simp [Update, updateTail, allowedAfter, allowedNext]
    | installLogMsg line =>
      cases step <;> simp [Update, updateTail, allowedAfter, allowedNext, appendLogLine]
      split_ifs <;> rfl
    | installFinishedMsg err =>
      cases step <;> simp [Update, updateTail, allowedAfter, allowedNext]
    | other tag =>
      cases step <;> simp [Update, updateTail, allowedAfter, allowedNext]
  · intro hstep hmsg
    simp only at hstep
    cases msg with
    | installLogMsg line =>
      cases step <;> first
        | exact absurd rfl hstep
        | (simp only [Update, updateTail, if_true, reduceCtorEq, if_false]
           exact ⟨_, rfl, rfl, rfl, rfl, rfl⟩)
    | installFinishedMsg err =>
      cases step <;> first
        | exact absurd rfl hstep
        | (simp only [Update, updateTail, if_true, reduceCtorEq, if_false]
           exact ⟨_, rfl, rfl, rfl, rfl, rfl⟩)
    | KeyMsg key => simp [isInstallLogMsg, isInstallFinishedMsg] at hmsg
    | installProgressMsg => simp [isInstallLogMsg, isInstallFinishedMsg] at hmsg
    | other tag => simp [isInstallLogMsg, isInstallFinishedMsg] at hmsg

end goproject

namespace goproject

open goWizardStep

/-- C19 on the wizard in the summary step: a log-line message leaves it as it is. -/
theorem Update_follows_table_witness :
    sample.atSummary.step ≠ goStepInstalling ∧
    allowedAfter sample.atSummary.step
      (Update sample.env [sample.plugin] sample.atSummary (.installLogMsg "x")).model = true ∧
    ∃ m1, (Update sample.env [sample.plugin] sample.atSummary (.installLogMsg "x")).model =
        .self m1 ∧
      m1.step = sample.atSummary.step ∧ m1.logLines = sample.atSummary.logLines ∧
      m1.progressValue = sample.atSummary.progressValue ∧ m1.errMsg = sample.atSummary.errMsg :=
  ⟨by decide,
    (Update_follows_table sample.env [sample.plugin] sample.atSummary (.installLogMsg "x")).1,
    (Update_follows_table sample.env [sample.plugin] sample.atSummary (.installLogMsg "x")).2
      (by decide) (Or.inl rfl)⟩

/-! ### The progress estimate -/

/-- In the installing step a message other than the terminal one keeps the wizard in the
installing step; a log-line message bumps the progress estimate, any other leaves it. -/
theorem Update_installing_nonterminal {W : Type} (env : Env)
    (plugins : List (postplugin.Plugin W)) (m : GoWizardModel) (msg : tea.Msg)
    (hstep : m.step = goStepInstalling) (hmsg : isInstallFinishedMsg msg = false) :
    ∃ m1, (Update env plugins m msg).model = .self m1 ∧
      m1.step = goStepInstalling ∧
      m1.progressValue =
        (if isInstallLogMsg msg = true then bumpProgress m.progressValue
        else m.progressValue) := by
  cases msg with
  | installLogMsg line =>
    obtain ⟨m1, h1, h2, _, h4, _⟩ := Update_installLogMsg env plugins m line hstep
    exact ⟨m1, h1, h2, by simpa [isInstallLogMsg] using h4⟩
  | installFinishedMsg err => simp [isInstallFinishedMsg] at hmsg
  | KeyMsg key =>
    obtain ⟨step, mp, pd, em, ti, pr, pv, ie, ll⟩ := m
    simp only at hstep
    subst hstep
    simp only [Update, updateTail, reduceCtorEq, if_false, isInstallLogMsg]
    split <;> exact ⟨_, rfl, rfl, by simp⟩
  | installProgressMsg =>
    obtain ⟨step, mp, pd, em, ti, pr, pv, ie, ll⟩ := m
    simp only at hstep
    subst hstep
    simp only [Update, updateTail, reduceCtorEq, if_false, isInstallLogMsg]
    exact ⟨_, rfl, rfl, by simp⟩
  | other tag =>
    obtain ⟨step, mp, pd, em, ti, pr, pv, ie, ll⟩ := m
    simp only at hstep
    subst hstep
    simp only [Update, updateTail, reduceCtorEq, if_false, isInstallLogMsg]
    exact ⟨_, rfl, rfl, by simp⟩

/-- From a state of the installing step, after messages none of which is the terminal one,
the estimate has been incremented once for each log-line message. -/
theorem UpdateAll_progress {W : Type} (env : Env) (plugins : List (postplugin.Plugin W))
    (msgs : List tea.Msg) (m : GoWizardModel)
    (hstep : m.step = goStepInstalling)
    (hmsgs : ∀ msg ∈ msgs, isInstallFinishedMsg msg = false) :
    ∃ m1, UpdateAll env plugins m msgs = some m1 ∧ m1.step = goStepInstalling ∧
      m1.progressValue = bumpProgress^[msgs.countP isInstallLogMsg] m.progressValue := by
  induction msgs generalizing m with
  | nil => exact ⟨m, rfl, hstep, rfl⟩
  | cons msg rest ih =>
    obtain ⟨m1, h1, hs1, hv1⟩ :=
      Update_installing_nonterminal env plugins m msg hstep (hmsgs msg (List.mem_cons_self _ _))
    obtain ⟨m2, h2, hs2, hv2⟩ :=
      ih m1 hs1 (fun x hx => hmsgs x (List.mem_cons_of_mem _ hx))
    refine ⟨m2, ?_, hs2, ?_⟩
    · simp only [UpdateAll, h1]
      exact h2
    · rw [hv2, hv1]
      by_cases hlog : isInstallLogMsg msg = true
      · rw [if_pos hlog, List.countP_cons_of_pos _ _ hlog, Function.iterate_succ_apply]
      · rw [if_neg hlog, List.countP_cons_of_neg _ _ hlog]

theorem Update_keeps_progress_range {W : Type} (env : Env) (plugins : List (postplugin.Plugin W))
    (m m1 : GoWizardModel) (msg : tea.Msg)
    (hinv : 0 ≤ m.progressValue ∧ m.progressValue ≤ 1)
    (e : (Update env plugins m msg).model = .self m1) :
    0 ≤ m1.progressValue ∧ m1.progressValue ≤ 1 := by
  cases msg with
  | KeyMsg key =>
    obtain ⟨step, mp, pd, em, ti, pr, pv, ie, ll⟩ := m
    simp only at hinv
    cases step <;> simp only [Update, updateTail, if_true, reduceCtorEq, if_false] at e
    all_goals repeat' split at e
    all_goals cases e
    all_goals try dsimp only
    all_goals first
      | exact hinv
      | norm_num
  | installProgressMsg =>
    obtain ⟨step, mp, pd, em, ti, pr, pv, ie, ll⟩ := m
    simp only [Update, updateTail] at e
    split at e <;> cases e <;> exact hinv
  | installLogMsg line =>
    by_cases hstep : m.step = goStepInstalling
    · obtain ⟨m2, h2, _, _, hv, _⟩ := Update_installLogMsg env plugins m line hstep
      rw [h2] at e
      cases e
      rw [hv]
      exact ⟨bumpProgress_nonneg _ hinv.1,
        le_trans (bumpProgress_le _) (le_of_lt float64.round_095_lt_one)⟩
    · obtain ⟨step, mp, pd, em, ti, pr, pv, ie, ll⟩ := m
      simp only at hstep
      simp only [Update, updateTail, hstep, if_false] at e
      split at e <;> cases e <;> exact hinv
  | installFinishedMsg err =>
    obtain ⟨step, mp, pd, em, ti, pr, pv, ie, ll⟩ := m
    simp only at hinv
    simp only [Update, updateTail] at e
    repeat' split at e
    all_goals cases e
    all_goals try dsimp only
    all_goals first
      | exact hinv
      | norm_num
  | other tag =>
    obtain ⟨step, mp, pd, em, ti, pr, pv, ie, ll⟩ := m
    simp only [Update, updateTail] at e
    split at e <;> cases e <;> exact hinv

/-- In every reachable state the progress estimate lies between 0 and 1. -/
theorem Reachable.progress_range {W : Type} {m : GoWizardModel} (h : Reachable W m) :
    0 ≤ m.progressValue ∧ m.progressValue ≤ 1 := by
  induction h with
  | init env => simp [NewGoWizardModel]
  | update env plugins m m1 msg _ e ih =>
    exact Update_keeps_progress_range env plugins m m1 msg ih e

end goproject

namespace goproject

open goWizardStep

theorem Update_enters_installing_at_zero {W : Type} (env : Env)
    (plugins : List (postplugin.Plugin W)) (m m1 : GoWizardModel) (msg : tea.Msg)
    (hstep : m.step = goStepInstallPrompt)
    (e : (Update env plugins m msg).model = .self m1) (h1 : m1.step = goStepInstalling) :
    m1.progressValue = 0 := by
  obtain ⟨step, mp, pd, em, ti, pr, pv, ie, ll⟩ := m
  simp only at hstep
  subst hstep
  cases msg <;> simp only [Update, updateTail, if_true, reduceCtorEq, if_false] at e
  all_goals repeat' split at e
  all_goals cases e
  all_goals try dsimp only at h1 ⊢
  all_goals first
    | exact absurd h1 (by decide)
    | norm_num

theorem Update_installing_monotone {W : Type} (env : Env)
    (plugins : List (postplugin.Plugin W)) (m m1 : GoWizardModel) (msg : tea.Msg)
    (hstep : m.step = goStepInstalling) (h0 : 0 ≤ m.progressValue)
    (hle : m.progressValue ≤ float64.round 0.95)
    (e : (Update env plugins m msg).model = .self m1) (h1 : m1.step = goStepInstalling) :
    m.progressValue ≤ m1.progressValue := by
  by_cases hfin : isInstallFinishedMsg msg = true
  · cases msg with
    | installFinishedMsg err =>
      rw [Update_installFinishedMsg env plugins m err hstep] at e
      cases err <;> cases e <;> simp at h1
    | _ => simp [isInstallFinishedMsg] at hfin
  · obtain ⟨m2, h2, _, hv⟩ :=
      Update_installing_nonterminal env plugins m msg hstep (by simpa using hfin)
    rw [h2] at e
    cases e
    rw [hv]
    split_ifs with ha
    · exact le_bumpProgress _ h0 hle
    · exact le_refl _

theorem iterate_bumpProgress_le (k : ℕ) : bumpProgress^[k] 0 ≤ float64.round 0.95 := by
  cases k with
  | zero => exact le_of_lt float64.round_095_pos
  | succ k =>
    rw [Function.iterate_succ_apply']
    exact bumpProgress_le _

theorem iterate_bumpProgress_nonneg (k : ℕ) : 0 ≤ bumpProgress^[k] 0 := by
  induction k with
  | zero => exact le_refl _
  | succ k ih =>
    rw [Function.iterate_succ_apply']
    exact bumpProgress_nonneg _ ih

theorem round_012 : float64.round 0.12 = 8646911284551352 / 2 ^ 56 := by
  have h := float64.round_eq 0.12 (-56) 8646911284551352 (by norm_num) (by norm_num)
    (float64.roundHalfEven_eq _ _ (by norm_num [abs_lt]))
  rw [h]
  norm_num

/-- C20, as stated, fails: after six log lines in the installing step the progress
estimate of the sample wizard is the `float64` 0.12000000000000001
(8646911284551353 / 2 ^ 56), the result of six rounded additions of the `float64` 0.02. It
is not min(0.02 * 6, 0.95) = 0.12, neither the rational number nor the `float64` nearest
to it (8646911284551352 / 2 ^ 56). -/
theorem progress_estimate_not_exact :
    ∃ m1, UpdateAll sample.env [sample.plugin] sample.atInstalling
        (List.replicate 6 (.installLogMsg "x")) = some m1 ∧
      m1.step = goStepInstalling ∧
      m1.progressValue = 8646911284551353 / 2 ^ 56 ∧
      m1.progressValue ≠ min (0.02 * ((6 : ℕ) : ℚ)) 0.95 ∧
      m1.progressValue ≠ float64.round (min (0.02 * ((6 : ℕ) : ℚ)) 0.95) := by
  obtain ⟨m1, h1, hs1, hv1⟩ :=
    UpdateAll_progress sample.env [sample.plugin] (List.replicate 6 (.installLogMsg "x"))
      sample.atInstalling rfl (by decide)
  have hcount : List.countP isInstallLogMsg
      (List.replicate 6 (tea.Msg.installLogMsg "x")) = 6 := by decide
  have hzero : sample.atInstalling.progressValue = 0 := by
    have h := Update_enters_installing_at_zero sample.env [sample.plugin]
      sample.atInstallPrompt sample.atInstalling (.KeyMsg "y") rfl rfl rfl
    exact h
  rw [hcount, hzero, iterate_bumpProgress_six] at hv1
  have hmin : min (0.02 * ((6 : ℕ) : ℚ)) 0.95 = 0.12 := by norm_num
  refine ⟨m1, h1, hs1, hv1, ?_, ?_⟩
  · rw [hv1, hmin]
    norm_num
  · rw [hv1, hmin, round_012]
    norm_num

/-- C20, amended: a wizard that enters the installing step from the install prompt has the
progress estimate 0; after it has handled messages none of which is the terminal one, k of
them log-line messages, the estimate is the result of k times the `float64` addition of
0.02 followed by the clamp at the `float64` 0.95; it differs from min(0.02 * k, 0.95) by at
most 2 ^ (-46), and is the `float64` 0.95 when k ≥ 48; from there a further message that
keeps the wizard in the installing step never lowers it; it is at most 0.95 and lies in
[0, 1], as in every reachable state. -/
theorem progress_estimate {W : Type} (env : Env) (plugins : List (postplugin.Plugin W))
    (m0 m : GoWizardModel) (msg0 : tea.Msg) (msgs : List tea.Msg)
    (hprompt : m0.step = goStepInstallPrompt)
    (henter : (Update env plugins m0 msg0).model = .self m)
    (hstep : m.step = goStepInstalling)
    (hmsgs : ∀ msg ∈ msgs, isInstallFinishedMsg msg = false) :
    m.progressValue = 0 ∧
    (∃ m1, UpdateAll env plugins m msgs = some m1 ∧ m1.step = goStepInstalling ∧
      m1.progressValue = bumpProgress^[msgs.countP isInstallLogMsg] 0 ∧
      |m1.progressValue - min (0.02 * ((msgs.countP isInstallLogMsg : ℕ) : ℚ)) 0.95| ≤
        1 / 2 ^ 46 ∧
      (48 ≤ msgs.countP isInstallLogMsg → m1.progressValue = float64.round 0.95) ∧
      m1.progressValue ≤ 0.95 ∧ 0 ≤ m1.progressValue ∧ m1.progressValue ≤ 1 ∧
      ∀ (env1 : Env) (msg : tea.Msg) (m2 : GoWizardModel),
        (Update env1 plugins m1 msg).model = .self m2 → m2.step = goStepInstalling →
        m1.progressValue ≤ m2.progressValue) ∧
    (∀ s, Reachable W s → 0 ≤ s.progressValue ∧ s.progressValue ≤ 1) := by
  have h0 := Update_enters_installing_at_zero env plugins m0 m msg0 hprompt henter hstep
  refine ⟨h0, ?_, fun s hs => hs.progress_range⟩
  obtain ⟨m1, h1, hs1, hv1⟩ := UpdateAll_progress env plugins msgs m hstep hmsgs
  rw [h0] at hv1
  have hle : m1.progressValue ≤ float64.round 0.95 := by
    rw [hv1]
    exact iterate_bumpProgress_le _
  have hge : 0 ≤ m1.progressValue := by
    rw [hv1]
    exact iterate_bumpProgress_nonneg _
  refine ⟨m1, h1, hs1, hv1, ?_, ?_, le_trans hle float64.round_095_le, hge,
    le_trans hle (le_of_lt float64.round_095_lt_one), ?_⟩
  · rw [hv1]
    exact iterate_bumpProgress_near_min _
  · intro h48
    rw [hv1]
    exact (iterate_bumpProgress _).2 h48
  · intro env1 msg m2 e h2
    exact Update_installing_monotone env1 plugins m1 m2 msg hs1 hge hle e h2

/-- C20 on the sample wizard: after two log lines among four messages the estimate is
within 2 ^ (-46) of min(0.02 * 2, 0.95). -/
theorem progress_estimate_witness :
    sample.atInstallPrompt.step = goStepInstallPrompt ∧
    (Update sample.env [sample.plugin] sample.atInstallPrompt (.KeyMsg "y")).model =
      .self sample.atInstalling ∧
    sample.atInstalling.step = goStepInstalling ∧
    (∀ msg ∈ [tea.Msg.installLogMsg "a", .installProgressMsg, .installLogMsg "", .KeyMsg "x"],
      isInstallFinishedMsg msg = false) ∧
    (sample.atInstalling.progressValue = 0 ∧
    (∃ m1, UpdateAll sample.env [sample.plugin] sample.atInstalling
        [.installLogMsg "a", .installProgressMsg, .installLogMsg "", .KeyMsg "x"] = some m1 ∧
      m1.step = goStepInstalling ∧
      m1.progressValue = bumpProgress^[2] 0 ∧
      |m1.progressValue - min (0.02 * ((2 : ℕ) : ℚ)) 0.95| ≤ 1 / 2 ^ 46 ∧
      (48 ≤ 2 → m1.progressValue = float64.round 0.95) ∧
      m1.progressValue ≤ 0.95 ∧ 0 ≤ m1.progressValue ∧ m1.progressValue ≤ 1 ∧
      ∀ (env1 : Env) (msg : tea.Msg) (m2 : GoWizardModel),
        (Update env1 [sample.plugin] m1 msg).model = .self m2 → m2.step = goStepInstalling →
        m1.progressValue ≤ m2.progressValue) ∧
    (∀ s, Reachable (String × String) s → 0 ≤ s.progressValue ∧ s.progressValue ≤ 1)) :=
  ⟨rfl, rfl, rfl, by decide,
    progress_estimate sample.env [sample.plugin] sample.atInstallPrompt sample.atInstalling
      (.KeyMsg "y") [.installLogMsg "a", .installProgressMsg, .installLogMsg "", .KeyMsg "x"]
      rfl rfl rfl (by decide)⟩

end goproject

namespace global

open step

/-! ### The post-create wizard: the apply as one loop -/

theorem globalItem_eq {σ : Type} (fs : FileSys σ) (projectPath : String) (it : item)
    (h : it.ID ∈ ["global_env", "global_notes", "global_readme", "global_gitignore",
      "global_makefile"]) :
    globalItem fs projectPath it = itemAction fs projectPath it.ID := by
  obtain ⟨ID, label, sel⟩ := it
  simp only [List.mem_cons, List.mem_singleton, List.not_mem_nil, or_false] at h
  rcases h with h | h | h | h | h <;> subst h <;> rfl

theorem typeItem_eq {σ : Type} (fs : FileSys σ) (projectPath : String) (it : item)
    (h : it.ID ∈ ["go_cmd", "go_internal", "go_pkg", "go_tests", "go_gen", "go_api"]) :
    typeItem fs projectPath "go" it = itemAction fs projectPath it.ID := by
  obtain ⟨ID, label, sel⟩ := it
  simp only [List.mem_cons, List.mem_singleton, List.not_mem_nil, or_false] at h
  rcases h with h | h | h | h | h | h <;> subst h <;> rfl

theorem applyItems_congr {σ : Type} (act1 act2 : item → Applied σ → Applied σ)
    (items : List item) (a : Applied σ) (h : ∀ it ∈ items, act1 it = act2 it) :
    applyItems act1 items a = applyItems act2 items a := by
  induction items generalizing a with
  | nil => rfl
  | cons it rest ih =>
    have hit := h it (List.mem_cons_self _ _)
    have hrest := fun a1 => ih a1 (fun x hx => h x (List.mem_cons_of_mem _ hx))
    simp only [applyItems, hit, hrest]

theorem applyItems_append {σ : Type} (act : item → Applied σ → Applied σ)
    (items1 items2 : List item) (a : Applied σ) (ha : a.err = none) :
    applyItems act (items1 ++ items2) a =
      if (applyItems act items1 a).err.isSome then applyItems act items1 a
      else applyItems act items2 (applyItems act items1 a) := by
  induction items1 generalizing a with
  | nil => simp [applyItems, ha]
  | cons it rest ih =>
    simp only [List.cons_append, applyItems]
    by_cases hsel : it.Selected = true
    · simp only [hsel, Bool.not_true, Bool.false_eq_true, if_false]
      by_cases herr : (act it a).err.isSome = true
      · simp [herr]
      · simp only [herr, if_false]
        exact ih _ (by simpa using herr)
    · simp only [hsel, Bool.not_false, if_true]
      exact ih a ha

/-- The items of both checklists, in the order of the apply. -/
theorem selected_eq (m : Model) :
    selected m = (m.globalItems ++ m.typeItems).filter (fun it => it.Selected) := by
  simp [selected]

theorem HasChecklists.known {m : Model} (h : HasChecklists m) :
    ∀ it ∈ m.globalItems ++ m.typeItems,
      (fileTarget it.ID).isSome = true ∨ (dirTarget it.ID).isSome = true := by
  intro it hit
  obtain ⟨hg, ht⟩ := h
  rcases List.mem_append.mp hit with hm | hm
  · have : it.ID ∈ m.globalItems.map (fun it => it.ID) := List.mem_map_of_mem _ hm
    rw [hg] at this
    simp only [NewModel, List.map_cons, List.map_nil, List.mem_cons, List.mem_singleton,
      List.not_mem_nil, or_false] at this
    rcases this with h | h | h | h | h <;> rw [h] <;> decide
  · have : it.ID ∈ m.typeItems.map (fun it => it.ID) := List.mem_map_of_mem _ hm
    rw [ht] at this
    simp only [NewModel] at this
    split_ifs at this
    · simp only [List.map_cons, List.map_nil, List.mem_cons, List.mem_singleton,
        List.not_mem_nil, or_false] at this
      rcases this with h | h | h | h | h | h <;> rw [h] <;> decide
    · simp at this

/-- With the checklists of `NewModel`, `applySelections` is one loop over the items of both
checklists with the action of the tables, followed by the test of the empty summary. -/
theorem applySelections_eq {σ : Type} (fs : FileSys σ) (m : Model) (w : σ)
    (h : HasChecklists m) :
    applySelections fs m w =
      if (applyItems (fun it => itemAction fs m.projectPath it.ID)
          (m.globalItems ++ m.typeItems) ⟨[], none, w, []⟩).err.isSome then
        applyItems (fun it => itemAction fs m.projectPath it.ID)
          (m.globalItems ++ m.typeItems) ⟨[], none, w, []⟩
      else if (applyItems (fun it => itemAction fs m.projectPath it.ID)
          (m.globalItems ++ m.typeItems) ⟨[], none, w, []⟩).summary.length = 0 then
        { applyItems (fun it => itemAction fs m.projectPath it.ID)
            (m.globalItems ++ m.typeItems) ⟨[], none, w, []⟩ with
          summary := ["No items were selected."] }
      else
        applyItems (fun it => itemAction fs m.projectPath it.ID)
          (m.globalItems ++ m.typeItems) ⟨[], none, w, []⟩ := by
  obtain ⟨hg, ht⟩ := h
  have h1 : ∀ a : Applied σ, applyItems (globalItem fs m.projectPath) m.globalItems a =
      applyItems (fun it => itemAction fs m.projectPath it.ID) m.globalItems a := by
    intro a
    apply applyItems_congr
    intro it hit
    apply globalItem_eq
    have : it.ID ∈ m.globalItems.map (fun it => it.ID) := List.mem_map_of_mem _ hit
    rw [hg] at this
    simpa [NewModel] using this
  have h2 : ∀ a : Applied σ,
      applyItems (typeItem fs m.projectPath m.projectType) m.typeItems a =
        applyItems (fun it => itemAction fs m.projectPath it.ID) m.typeItems a := by
    intro a
    by_cases hgo : m.projectType = "go"
    · apply applyItems_congr
      intro it hit
      rw [hgo]
      apply typeItem_eq
      have : it.ID ∈ m.typeItems.map (fun it => it.ID) := List.mem_map_of_mem _ hit
      rw [ht] at this
      simpa [NewModel, hgo] using this
    · have : m.typeItems = [] := by
        have hnil : m.typeItems.map (fun it => it.ID) = [] := by
          rw [ht]
          simp [NewModel, hgo]
        simpa using hnil
      rw [this]
      rfl
  unfold applySelections
  simp only [h1, h2]
  rw [applyItems_append _ _ _ _ rfl]
  split_ifs <;> rfl

end global

namespace global

open step

/-! ### The post-create wizard: what the loop returns -/

end global

namespace global

open step

/-! ### The post-create wizard: a populated target -/

theorem dirTarget_of_fileTarget {ID name : String} (h : fileTarget ID = some name) :
    dirTarget ID = none := by
  unfold fileTarget at h
  split_ifs at h with h1 h2 h3 h4 <;> first
    | (subst h1; rfl)
    | (subst h2; rfl)
    | (subst h3; rfl)
    | (subst h4; rfl)

/-- On a lawful file system an action keeps the target populated for any items. -/
theorem itemAction_keeps_populated {σ : Type} (fs : FileSys σ) (projectPath ID : String)
    (a : Applied σ) (items : List item) (hlaw : Lawful fs)
    (hp : Populated fs projectPath a.world items) :
    Populated fs projectPath (itemAction fs projectPath ID a).world items := by
  unfold itemAction
  cases hf : fileTarget ID with
  | some name =>
    simp only [createFile]
    cases hs : fs.Stat a.world (fs.Join projectPath name) with
    | none => exact hp
    | some e0 =>
      have hw : Populated fs projectPath
          (fs.WriteFile a.world (fs.Join projectPath name) (fileData ID)).2 items := by
        intro it hit
        obtain ⟨h1, h2⟩ := hp it hit
        exact ⟨fun n hn => hlaw.kept_by_write _ _ _ _ (h1 n hn),
          fun n hn => hlaw.dir_kept_by_write _ _ _ _ (h2 n hn)⟩
      simp only
      split <;> exact hw
  | none =>
    cases hd : dirTarget ID with
    | none => exact hp
    | some name =>
      have hw : Populated fs projectPath (fs.MkdirAll a.world (fs.Join projectPath name)).2
          items := by
        intro it hit
        obtain ⟨h1, h2⟩ := hp it hit
        exact ⟨fun n hn => hlaw.kept_by_mkdir _ _ _ (h1 n hn),
          fun n hn => hlaw.dir_kept_by_mkdir _ _ _ (h2 n hn)⟩
      simp only [createDir]
      split <;> exact hw

/-- On a lawful file system an action that succeeds leaves the target populated for its
item. -/
theorem itemAction_populates {σ : Type} (fs : FileSys σ) (projectPath : String) (it : item)
    (a : Applied σ) (hlaw : Lawful fs)
    (hok : (itemAction fs projectPath it.ID a).err = none) :
    Populated fs projectPath (itemAction fs projectPath it.ID a).world [it] := by
  intro x hx
  rw [List.mem_singleton] at hx
  subst hx
  revert hok
  unfold itemAction
  cases hf : fileTarget x.ID with
  | some name =>
    have hd := dirTarget_of_fileTarget hf
    simp only [createFile]
    cases hs : fs.Stat a.world (fs.Join projectPath name) with
    | none =>
      intro _
      refine ⟨fun n hn => ?_, fun n hn => by rw [hd] at hn; cases hn⟩
      cases hn
      exact hs
    | some e0 =>
      simp only
      cases hw : (fs.WriteFile a.world (fs.Join projectPath name) (fileData x.ID)).1 with
      | some e => intro hok; simp at hok
      | none =>
        intro _
        refine ⟨fun n hn => ?_, fun n hn => by rw [hd] at hn; cases hn⟩
        cases hn
        exact hlaw.written _ _ _ hw
  | none =>
    cases hd : dirTarget x.ID with
    | none => intro _; exact ⟨fun n hn => by simp at hn, fun n hn => by simp at hn⟩
    | some name =>
      simp only [createDir]
      cases hm : (fs.MkdirAll a.world (fs.Join projectPath name)).1 with
      | some e => intro hok; simp at hok
      | none =>
        intro _
        refine ⟨fun n hn => by simp at hn, fun n hn => ?_⟩
        cases hn
        exact hlaw.made _ _ hm

theorem Populated.append {σ : Type} {fs : FileSys σ} {projectPath : String} {w : σ}
    {items1 items2 : List item} (h1 : Populated fs projectPath w items1)
    (h2 : Populated fs projectPath w items2) :
    Populated fs projectPath w (items1 ++ items2) := by
  intro it hit
  rcases List.mem_append.mp hit with h | h
  · exact h1 it h
  · exact h2 it h

/-- A loop that ends without error on a lawful file system leaves the target populated
for its selected items. -/
theorem applyItems_populates {σ : Type} (fs : FileSys σ) (projectPath : String)
    (items : List item) (a : Applied σ) (done : List item) (hlaw : Lawful fs)
    (ha : a.err = none) (hp : Populated fs projectPath a.world done)
    (hok : (applyItems (fun it => itemAction fs projectPath it.ID) items a).err = none) :
    Populated fs projectPath
      (applyItems (fun it => itemAction fs projectPath it.ID) items a).world
      (done ++ items.filter (fun it => it.Selected)) := by
  induction items generalizing a done with
  | nil => simpa [applyItems] using hp
  | cons it rest ih =>
    by_cases hsel : it.Selected = true
    · by_cases herr : (itemAction fs projectPath it.ID a).err = none
      · have hloop : applyItems (fun it => itemAction fs projectPath it.ID) (it :: rest) a =
            applyItems (fun it => itemAction fs projectPath it.ID) rest
              (itemAction fs projectPath it.ID a) := by
          simp [applyItems, hsel, herr]
        rw [hloop] at hok ⊢
        have h1 := itemAction_keeps_populated fs projectPath it.ID a done hlaw hp
        have h2 := itemAction_populates fs projectPath it a hlaw herr
        have h3 := ih (itemAction fs projectPath it.ID a) (done ++ [it]) herr (h1.append h2) hok
        simpa [hsel] using h3
      · exfalso
        have hloop : applyItems (fun it => itemAction fs projectPath it.ID) (it :: rest) a =
            itemAction fs projectPath it.ID a := by
          have : (itemAction fs projectPath it.ID a).err.isSome = true := by
            cases h : (itemAction fs projectPath it.ID a).err with
            | none => exact absurd h herr
            | some e => rfl
          simp [applyItems, hsel, this]
        rw [hloop] at hok
        exact herr hok
    · have hloop : applyItems (fun it => itemAction fs projectPath it.ID) (it :: rest) a =
          applyItems (fun it => itemAction fs projectPath it.ID) rest a := by
        simp [applyItems, hsel]
      rw [hloop] at hok ⊢
      have h3 := ih a done ha hp hok
      simpa [hsel] using h3

/-- On a target populated for the selected items of the loop, on a lawful file system, the
loop ends without error, adds for each selected item its line for a populated target, and
writes no file. -/
theorem applyItems_on_populated {σ : Type} (fs : FileSys σ) (projectPath : String)
    (items : List item) (a : Applied σ) (hlaw : Lawful fs)
    (hk : ∀ it ∈ items, (fileTarget it.ID).isSome = true ∨ (dirTarget it.ID).isSome = true)
    (ha : a.err = none)
    (hp : Populated fs projectPath a.world (items.filter (fun it => it.Selected)))
    (hc : ∀ c ∈ a.calls, ∀ p d, c ≠ Call.WriteFile p d) :
    (applyItems (fun it => itemAction fs projectPath it.ID) items a).err = none ∧
    (applyItems (fun it => itemAction fs projectPath it.ID) items a).summary =
      a.summary ++ (items.filter (fun it => it.Selected)).map populatedLine ∧
    (∀ c ∈ (applyItems (fun it => itemAction fs projectPath it.ID) items a).calls,
      ∀ p d, c ≠ Call.WriteFile p d) := by
  induction items generalizing a with
  | nil => simpa [applyItems] using ⟨ha, hc⟩
  | cons it rest ih =>
    have hkrest : ∀ x ∈ rest, (fileTarget x.ID).isSome = true ∨ (dirTarget x.ID).isSome = true :=
      fun x hx => hk x (List.mem_cons_of_mem _ hx)
    by_cases hsel : it.Selected = true
    · have hfilter : (it :: rest).filter (fun it => it.Selected) =
          it :: rest.filter (fun it => it.Selected) := by simp [hsel]
      rw [hfilter] at hp ⊢
      obtain ⟨hpf, hpd⟩ := hp it (List.mem_cons_self _ _)
      have hprest : Populated fs projectPath (itemAction fs projectPath it.ID a).world
          (rest.filter (fun it => it.Selected)) :=
        itemAction_keeps_populated fs projectPath it.ID a _ hlaw
          (fun x hx => hp x (List.mem_cons_of_mem _ hx))
      have hstep : (itemAction fs projectPath it.ID a).err = none ∧
          (itemAction fs projectPath it.ID a).summary = a.summary ++ [populatedLine it] ∧
          (∀ c ∈ (itemAction fs projectPath it.ID a).calls, ∀ p d, c ≠ Call.WriteFile p d) := by
        unfold itemAction populatedLine
        cases hf : fileTarget it.ID with
        | some name =>
          simp only [createFile, hpf name hf, Option.isSome_some, if_true]
          refine ⟨ha, by simp, ?_⟩
          intro c hcm p d
          rcases List.mem_append.mp hcm with h | h
          · exact hc c h p d
          · simp only [List.mem_singleton] at h
            subst h
            simp
        | none =>
          cases hd : dirTarget it.ID with
          | none =>
            have := hk it (List.mem_cons_self _ _)
            simp [hf, hd] at this
          | some name =>
            simp only [createDir, (hpd name hd).2, Option.isSome_none, Bool.false_eq_true, if_false]
            refine ⟨ha, by simp, ?_⟩
            intro c hcm p d
            rcases List.mem_append.mp hcm with h | h
            · exact hc c h p d
            · simp only [List.mem_singleton] at h
              subst h
              simp
      obtain ⟨hok, hsum, hcalls⟩ := hstep
      have hloop : applyItems (fun it => itemAction fs projectPath it.ID) (it :: rest) a =
          applyItems (fun it => itemAction fs projectPath it.ID) rest
            (itemAction fs projectPath it.ID a) := by
        simp [applyItems, hsel, hok]
      rw [hloop]
      obtain ⟨r1, r2, r3⟩ := ih (itemAction fs projectPath it.ID a) hkrest hok hprest hcalls
      refine ⟨r1, ?_, r3⟩
      rw [r2, hsum]
      simp
    · have hfilter : (it :: rest).filter (fun it => it.Selected) =
          rest.filter (fun it => it.Selected) := by simp [hsel]
      have hloop : applyItems (fun it => itemAction fs projectPath it.ID) (it :: rest) a =
          applyItems (fun it => itemAction fs projectPath it.ID) rest a := by
        simp [applyItems, hsel]
      rw [hfilter] at hp ⊢
      rw [hloop]
      exact ih a hkrest ha hp hc

theorem sample_fs_lawful : Lawful sample.fs where
  written := by intro w p d _; simp [sample.fs]
  made := by intro w p _; simp [IsDir, sample.fs]
  kept_by_write := by
    intro w p q d h
    simp only [sample.fs, ite_eq_left_iff, reduceCtorEq, imp_false, Decidable.not_not,
      List.mem_cons] at h ⊢
    exact Or.inr h
  kept_by_mkdir := by
    intro w p q h
    simp only [sample.fs, ite_eq_left_iff, reduceCtorEq, imp_false, Decidable.not_not,
      List.mem_cons] at h ⊢
    exact Or.inr h
  dir_kept_by_write := by
    intro w p q d h
    simp only [IsDir, sample.fs, ite_eq_left_iff, reduceCtorEq, imp_false, Decidable.not_not,
      List.mem_cons, and_true] at h ⊢
    exact Or.inr h
  dir_kept_by_mkdir := by
    intro w p q h
    simp only [IsDir, sample.fs, ite_eq_left_iff, reduceCtorEq, imp_false, Decidable.not_not,
      List.mem_cons, and_true] at h ⊢
    exact Or.inr h

end global

namespace global

open step

/-! ### The claims on the post-create wizard -/

theorem sample_selection_checklists : HasChecklists sample.selection :=
  ⟨rfl, rfl⟩

/-- C13: on a lawful file system, with the checklists of `NewModel` and any selection: run
on a target populated for the selected items (their files and their directories exist),
`applySelections` returns no error, every selected file-creation item yields
its line "<file> already exists (skipped)", the summary is the lines of the selected items
for a populated target, and no file is written; and the target left by an apply that
returned no error is populated for the selected items. -/
theorem applySelections_populated {σ : Type} (fs : FileSys σ) (m : Model)
    (hlaw : Lawful fs) (hcl : HasChecklists m) :
    (∀ w, Populated fs m.projectPath w (selected m) →
      (applySelections fs m w).err = none ∧
      (∀ it ∈ selected m, (fileTarget it.ID).isSome = true →
        skippedLine it.ID ∈ (applySelections fs m w).summary) ∧
      (selected m ≠ [] → (applySelections fs m w).summary = (selected m).map populatedLine) ∧
      (∀ c ∈ (applySelections fs m w).calls, ∀ p d, c ≠ Call.WriteFile p d)) ∧
    (∀ w0, (applySelections fs m w0).err = none →
      Populated fs m.projectPath (applySelections fs m w0).world (selected m)) := by
  constructor
  · intro w hp
    rw [selected_eq] at hp
    obtain ⟨r1, r2, r3⟩ := applyItems_on_populated fs m.projectPath
      (m.globalItems ++ m.typeItems) ⟨[], none, w, []⟩ hlaw hcl.known rfl hp
      (by intro c hc; simp at hc)
    rw [← selected_eq] at r2
    simp only [List.nil_append] at r2
    rw [applySelections_eq fs m w hcl]
    have herr : ¬ (applyItems (fun it => itemAction fs m.projectPath it.ID)
        (m.globalItems ++ m.typeItems) ⟨[], none, w, []⟩).err.isSome = true := by
      rw [r1]
      simp
    rw [if_neg herr]
    by_cases hlen : (applyItems (fun it => itemAction fs m.projectPath it.ID)
        (m.globalItems ++ m.typeItems) ⟨[], none, w, []⟩).summary.length = 0
    · rw [if_pos hlen]
      have hnil : selected m = [] := by
        rw [r2] at hlen
        simpa using hlen
      refine ⟨r1, ?_, fun hne => absurd hnil hne, r3⟩
      intro it hit
      rw [hnil] at hit
      simp at hit
    · rw [if_neg hlen]
      refine ⟨r1, ?_, fun _ => r2, r3⟩
      intro it hit hfile
      rw [r2]
      refine List.mem_map.mpr ⟨it, hit, ?_⟩
      simp [populatedLine, hfile]
  · intro w0 hok
    rw [applySelections_eq fs m w0 hcl] at hok ⊢
    have hnone : (applyItems (fun it => itemAction fs m.projectPath it.ID)
        (m.globalItems ++ m.typeItems) ⟨[], none, w0, []⟩).err = none := by
      by_cases herr : (applyItems (fun it => itemAction fs m.projectPath it.ID)
          (m.globalItems ++ m.typeItems) ⟨[], none, w0, []⟩).err.isSome = true
      · rw [if_pos herr] at hok
        exact hok
      · simpa using herr
    have hp := applyItems_populates fs m.projectPath (m.globalItems ++ m.typeItems)
      ⟨[], none, w0, []⟩ [] hlaw rfl (by intro it hit; simp at hit) hnone
    simp only [List.nil_append] at hp
    rw [← selected_eq] at hp
    split_ifs <;> exact hp

/-- C13 on the sample file system: the second apply of the sample selection on the target
left by the first. -/
theorem applySelections_populated_witness :
    Lawful sample.fs ∧ HasChecklists sample.selection ∧
    (applySelections sample.fs sample.selection []).err = none ∧
    ((applySelections sample.fs sample.selection
        (applySelections sample.fs sample.selection []).world).err = none ∧
      (∀ it ∈ selected sample.selection, (fileTarget it.ID).isSome = true →
        skippedLine it.ID ∈ (applySelections sample.fs sample.selection
          (applySelections sample.fs sample.selection []).world).summary) ∧
      (selected sample.selection ≠ [] →
        (applySelections sample.fs sample.selection
          (applySelections sample.fs sample.selection []).world).summary =
          (selected sample.selection).map populatedLine) ∧
      (∀ c ∈ (applySelections sample.fs sample.selection
          (applySelections sample.fs sample.selection []).world).calls,
        ∀ p d, c ≠ Call.WriteFile p d)) ∧
    (selected sample.selection).map populatedLine =
      [".env already exists (skipped)", "Created cmd/ folder", "Created internal/ folder",
        "Created pkg/ folder"] :=
  ⟨sample_fs_lawful, sample_selection_checklists, rfl,
    (applySelections_populated sample.fs sample.selection sample_fs_lawful
      sample_selection_checklists).1 _
      ((applySelections_populated sample.fs sample.selection sample_fs_lawful
        sample_selection_checklists).2 [] rfl),
    by decide⟩

/-! ### A failing action -/

/-- What the action of an item does, in terms of its I/O action. -/
theorem itemAction_action {σ : Type} (fs : FileSys σ) (projectPath : String) (it : item)
    (a : Applied σ)
    (hk : (fileTarget it.ID).isSome = true ∨ (dirTarget it.ID).isSome = true) :
    (itemAction fs projectPath it.ID a).world = actionWorld fs projectPath it.ID a.world ∧
    (itemAction fs projectPath it.ID a).calls =
      a.calls ++ actionCalls fs projectPath it.ID a.world ∧
    (∀ cause, actionError fs projectPath it.ID a.world = some cause →
      (itemAction fs projectPath it.ID a).err = some (failedText it.ID ++ cause) ∧
      (itemAction fs projectPath it.ID a).summary = a.summary) ∧
    (actionError fs projectPath it.ID a.world = none →
      (itemAction fs projectPath it.ID a).err = a.err ∧
      ∃ line, (itemAction fs projectPath it.ID a).summary = a.summary ++ [line] ∧
        IsOutcome it line) := by
  unfold itemAction actionWorld actionCalls actionError
  cases hf : fileTarget it.ID with
  | some name =>
    simp only [createFile]
    cases hs : fs.Stat a.world (fs.Join projectPath name) with
    | none =>
      refine ⟨rfl, rfl, ?_, ?_⟩
      · intro cause h
        simp at h
      · intro _
        exact ⟨rfl, _, rfl, Or.inr ⟨by simp [hf], rfl⟩⟩
    | some e0 =>
      cases hw : (fs.WriteFile a.world (fs.Join projectPath name) (fileData it.ID)).1 with
      | none =>
        refine ⟨rfl, rfl, ?_, ?_⟩
        · intro cause h
          simp at h
        · intro _
          exact ⟨rfl, _, rfl, Or.inl rfl⟩
      | some e =>
        refine ⟨rfl, rfl, ?_, ?_⟩
        · intro cause h
          simp only [Option.some.injEq] at h
          subst h
          exact ⟨rfl, rfl⟩
        · intro h
          simp at h
  | none =>
    cases hd : dirTarget it.ID with
    | none => simp [hf, hd] at hk
    | some name =>
      simp only [createDir]
      cases hm : (fs.MkdirAll a.world (fs.Join projectPath name)).1 with
      | none =>
        refine ⟨rfl, rfl, ?_, ?_⟩
        · intro cause h
          simp at h
        · intro _
          exact ⟨rfl, _, rfl, Or.inl rfl⟩
      | some e =>
        refine ⟨rfl, rfl, ?_, ?_⟩
        · intro cause h
          simp only [Option.some.injEq] at h
          subst h
          exact ⟨rfl, rfl⟩
        · intro h
          simp at h

/-- The last call of a failing I/O action is the call that changes the file system. -/
theorem actionCalls_getLast {σ : Type} (fs : FileSys σ) (projectPath ID cause : String)
    (w : σ) (h : actionError fs projectPath ID w = some cause) (l : List Call) :
    (l ++ actionCalls fs projectPath ID w).getLast? = mutation fs projectPath ID := by
  unfold actionError at h
  unfold actionCalls mutation
  cases hf : fileTarget ID with
  | some name =>
    rw [hf] at h
    simp only at h ⊢
    cases hs : fs.Stat w (fs.Join projectPath name) with
    | none =>
      rw [hs] at h
      cases h
    | some e0 => simp
  | none =>
    rw [hf] at h
    simp only at h ⊢
    cases hd : dirTarget ID with
    | none =>
      rw [hd] at h
      cases h
    | some name => simp

/-- The loop over items that all have a target, when the I/O actions of the selected items
`before` succeed and that of the next selected item fails. -/
theorem applyItems_fails {σ : Type} (fs : FileSys σ) (projectPath : String)
    (items : List item) (a : Applied σ) (before : List item) (failing : item)
    (after : List item) (cause : String)
    (hk : ∀ it ∈ items, (fileTarget it.ID).isSome = true ∨ (dirTarget it.ID).isSome = true)
    (ha : a.err = none)
    (hsel : items.filter (fun it => it.Selected) = before ++ failing :: after)
    (hok : allSucceed fs projectPath before a.world = true)
    (hfail : actionError fs projectPath failing.ID (worldAfter fs projectPath before a.world) =
      some cause) :
    (applyItems (fun it => itemAction fs projectPath it.ID) items a).err =
      some (failedText failing.ID ++ cause) ∧
    (∃ lines, (applyItems (fun it => itemAction fs projectPath it.ID) items a).summary =
        a.summary ++ lines ∧ List.Forall₂ IsOutcome before lines) ∧
    (applyItems (fun it => itemAction fs projectPath it.ID) items a).calls =
      a.calls ++ (callsOf fs projectPath before a.world ++
        actionCalls fs projectPath failing.ID (worldAfter fs projectPath before a.world)) := by
  induction items generalizing a before with
  | nil =>
    simp at hsel
  | cons it rest ih =>
    have hkrest : ∀ x ∈ rest, (fileTarget x.ID).isSome = true ∨ (dirTarget x.ID).isSome = true :=
      fun x hx => hk x (List.mem_cons_of_mem _ hx)
    by_cases hs : it.Selected = true
    · have hfilter : (it :: rest).filter (fun it => it.Selected) =
          it :: rest.filter (fun it => it.Selected) := List.filter_cons_of_pos hs
      rw [hfilter] at hsel
      obtain ⟨hw, hc, herr, hnone⟩ :=
        itemAction_action fs projectPath it a (hk it (List.mem_cons_self _ _))
      cases before with
      | nil =>
        simp only [List.nil_append, List.cons.injEq] at hsel
        obtain ⟨hit, _⟩ := hsel
        subst hit
        simp only [worldAfter] at hfail
        obtain ⟨he, hsum⟩ := herr cause hfail
        have hsome : (itemAction fs projectPath it.ID a).err.isSome = true := by simp [he]
        simp only [applyItems, hs, Bool.not_true, Bool.false_eq_true, if_false, hsome, if_true]
        refine ⟨he, ⟨[], by simp [hsum], List.Forall₂.nil⟩, ?_⟩
        simp [hc, callsOf, worldAfter]
      | cons b bs =>
        simp only [List.cons_append, List.cons.injEq] at hsel
        obtain ⟨hit, hrest⟩ := hsel
        subst hit
        simp only [allSucceed, Bool.and_eq_true, Option.isNone_iff_eq_none] at hok
        obtain ⟨hb, hbs⟩ := hok
        obtain ⟨he, line, hsum, hline⟩ := hnone hb
        have hnot : ¬ ((itemAction fs projectPath it.ID a).err.isSome = true) := by
          simp [he, ha]
        simp only [worldAfter] at hfail
        rw [← hw] at hbs hfail
        obtain ⟨h1, ⟨lines, h2, h3⟩, h4⟩ :=
          ih (itemAction fs projectPath it.ID a) bs hkrest (by rw [he, ha]) hrest hbs hfail
        simp only [applyItems, hs, Bool.not_true, Bool.false_eq_true, if_false, hnot]
        refine ⟨h1, ⟨line :: lines, ?_, List.Forall₂.cons hline h3⟩, ?_⟩
        · rw [h2, hsum]
          simp
        · rw [h4, hc]
          simp only [callsOf, worldAfter, hw, List.append_assoc]
    · have hfilter : (it :: rest).filter (fun it => it.Selected) =
          rest.filter (fun it => it.Selected) := List.filter_cons_of_neg hs
      rw [hfilter] at hsel
      have hsel2 : (!it.Selected) = true := by simpa using hs
      simp only [applyItems, hsel2, if_true]
      exact ih a before hkrest ha hsel hok hfail

/-- C14: with the checklists of `NewModel` and any selection, when the I/O actions of the
selected items `before` succeed one after the other and the I/O action of the next selected
item `failing` fails with the error `cause` (`os.WriteFile` on its file, which is not
there, or `os.MkdirAll` on its directory, returns `cause`): `applySelections` returns the
error text of the failing item followed by `cause`, and a summary with one outcome line
for each of the items before, and none else; the calls to the file system are those of the
items before and of the failing item, the last one being the failing call, and none for
the selected items after it; and on the enter key in the type-specific step `Update`
stores that summary and the error text and moves to the done step. -/
theorem applySelections_failure {σ : Type} (fs : FileSys σ) (m : Model) (w : σ)
    (before : List item) (failing : item) (after : List item) (cause : String)
    (hcl : HasChecklists m)
    (hsel : selected m = before ++ failing :: after)
    (hok : allSucceed fs m.projectPath before w = true)
    (hfail : actionError fs m.projectPath failing.ID (worldAfter fs m.projectPath before w) =
      some cause) :
    (applySelections fs m w).err = some (failedText failing.ID ++ cause) ∧
    List.Forall₂ IsOutcome before (applySelections fs m w).summary ∧
    (applySelections fs m w).calls =
      callsOf fs m.projectPath before w ++
        actionCalls fs m.projectPath failing.ID (worldAfter fs m.projectPath before w) ∧
    (applySelections fs m w).calls.getLast? = mutation fs m.projectPath failing.ID ∧
    (m.step = stepTypeSpecific →
      Update fs m (.KeyMsg "enter") w =
        some ⟨{ m with
            applySummary := (applySelections fs m w).summary
            errMsg := failedText failing.ID ++ cause
            step := stepDone }, [], (applySelections fs m w).world,
          (applySelections fs m w).calls⟩) := by
  rw [selected_eq] at hsel
  obtain ⟨h1, ⟨lines, h2, h3⟩, h4⟩ :=
    applyItems_fails fs m.projectPath (m.globalItems ++ m.typeItems) ⟨[], none, w, []⟩
      before failing after cause hcl.known rfl hsel hok hfail
  simp only [List.nil_append] at h2 h4
  have hsome : (applyItems (fun it => itemAction fs m.projectPath it.ID)
      (m.globalItems ++ m.typeItems) ⟨[], none, w, []⟩).err.isSome = true := by
    rw [h1]
    rfl
  have heq : applySelections fs m w =
      applyItems (fun it => itemAction fs m.projectPath it.ID)
        (m.globalItems ++ m.typeItems) ⟨[], none, w, []⟩ := by
    rw [applySelections_eq fs m w hcl, if_pos hsome]
  have herr : (applySelections fs m w).err = some (failedText failing.ID ++ cause) := by
    rw [heq]
    exact h1
  refine ⟨herr, ?_, ?_, ?_, ?_⟩
  · rw [heq, h2]
    exact h3
  · rw [heq]
    exact h4
  · rw [heq, h4]
    exact actionCalls_getLast fs m.projectPath failing.ID cause _ hfail _
  · intro hstep
    simp [Update, hstep, herr]

theorem sample_selectionReadme_checklists : HasChecklists sample.selectionReadme := by
  constructor <;> rfl

/-- C14 on the sample file system on which no file can be written, with `notes/`,
`README.md` and the defaults selected: the apply stops at `README.md`, after the line of
`notes/`, and makes no call for `cmd/`, `internal/` and `pkg/`. -/
theorem applySelections_failure_witness :
    HasChecklists sample.selectionReadme ∧
    selected sample.selectionReadme =
      [⟨"global_notes", "Create notes/ folder", true⟩] ++
        ⟨"global_readme", "Create README.md file", true⟩ ::
        [⟨"go_cmd", "Create cmd/ folder", true⟩, ⟨"go_internal", "Create internal/ folder", true⟩,
          ⟨"go_pkg", "Create pkg/ folder", true⟩] ∧
    allSucceed sample.fsNoWrite "/srv/widget"
      [⟨"global_notes", "Create notes/ folder", true⟩] [] = true ∧
    actionError sample.fsNoWrite "/srv/widget" "global_readme"
      (worldAfter sample.fsNoWrite "/srv/widget"
        [⟨"global_notes", "Create notes/ folder", true⟩] []) = some "read-only file system" ∧
    sample.selectionReadme.step = stepTypeSpecific ∧
    (applySelections sample.fsNoWrite sample.selectionReadme []).err =
      some "failed to create README.md: read-only file system" ∧
    (applySelections sample.fsNoWrite sample.selectionReadme []).summary =
      ["Created notes/ folder"] ∧
    (applySelections sample.fsNoWrite sample.selectionReadme []).calls =
      [.MkdirAll "/srv/widget/notes", .Stat "/srv/widget/README.md",
        .WriteFile "/srv/widget/README.md" "# Project Title\n\nProject description.\n"] ∧
    ((applySelections sample.fsNoWrite sample.selectionReadme []).err =
      some (failedText "global_readme" ++ "read-only file system") ∧
    List.Forall₂ IsOutcome [⟨"global_notes", "Create notes/ folder", true⟩]
      (applySelections sample.fsNoWrite sample.selectionReadme []).summary ∧
    (applySelections sample.fsNoWrite sample.selectionReadme []).calls =
      callsOf sample.fsNoWrite "/srv/widget" [⟨"global_notes", "Create notes/ folder", true⟩] [] ++
        actionCalls sample.fsNoWrite "/srv/widget" "global_readme"
          (worldAfter sample.fsNoWrite "/srv/widget"
            [⟨"global_notes", "Create notes/ folder", true⟩] []) ∧
    (applySelections sample.fsNoWrite sample.selectionReadme []).calls.getLast? =
      mutation sample.fsNoWrite "/srv/widget" "global_readme" ∧
    (sample.selectionReadme.step = stepTypeSpecific →
      Update sample.fsNoWrite sample.selectionReadme (.KeyMsg "enter") [] =
        some ⟨{ sample.selectionReadme with
            applySummary := (applySelections sample.fsNoWrite sample.selectionReadme []).summary
            errMsg := failedText "global_readme" ++ "read-only file system"
            step := stepDone }, [],
          (applySelections sample.fsNoWrite sample.selectionReadme []).world,
          (applySelections sample.fsNoWrite sample.selectionReadme []).calls⟩)) :=
  ⟨sample_selectionReadme_checklists, rfl, rfl, rfl, rfl, rfl, by decide, by decide,
    applySelections_failure sample.fsNoWrite sample.selectionReadme []
      [⟨"global_notes", "Create notes/ folder", true⟩]
      ⟨"global_readme", "Create README.md file", true⟩
      [⟨"go_cmd", "Create cmd/ folder", true⟩, ⟨"go_internal", "Create internal/ folder", true⟩,
        ⟨"go_pkg", "Create pkg/ folder", true⟩] "read-only file system"
      sample_selectionReadme_checklists rfl rfl rfl⟩

/-- C17: `NewModel` builds the global checklist `.env`, `notes/`, `README.md`, `.gitignore`,
`Makefile`, in this order and all unselected; for the project type "go" the type-specific
checklist `cmd/`, `internal/`, `pkg/`, `tests/`, `gen/`, `api/`, in this order, of which
the first three are selected, and for any other project type the empty one; and it starts
in the global step with the cursor at 0. -/
theorem NewModel_checklists (projectPath projectType : String) :
    (NewModel projectPath projectType).globalItems =
      [⟨"global_env", "Create .env file", false⟩,
        ⟨"global_notes", "Create notes/ folder", false⟩,
        ⟨"global_readme", "Create README.md file", false⟩,
        ⟨"global_gitignore", "Create .gitignore file", false⟩,
        ⟨"global_makefile", "Create Makefile", false⟩] ∧
    ((NewModel projectPath projectType).globalItems.map
        (fun it => ((fileTarget it.ID).getD "", (dirTarget it.ID).getD "")) =
      [(".env", ""), ("", "notes"), ("README.md", ""), (".gitignore", ""), ("Makefile", "")]) ∧
    (NewModel projectPath projectType).typeItems =
      (if projectType = "go" then
        [⟨"go_cmd", "Create cmd/ folder", true⟩,
          ⟨"go_internal", "Create internal/ folder", true⟩,
          ⟨"go_pkg", "Create pkg/ folder", true⟩,
          ⟨"go_tests", "Create tests/ folder", false⟩,
          ⟨"go_gen", "Create gen/ folder", false⟩,
          ⟨"go_api", "Create api/ folder", false⟩]
      else []) ∧
    ((NewModel projectPath "go").typeItems.map (fun it => ((dirTarget it.ID).getD "", it.Selected)) =
      [("cmd", true), ("internal", true), ("pkg", true), ("tests", false), ("gen", false),
        ("api", false)]) ∧
    (NewModel projectPath projectType).step = stepGlobal ∧
    (NewModel projectPath projectType).cursor = 0 ∧
    (NewModel projectPath projectType).projectPath = projectPath ∧
    (NewModel projectPath projectType).projectType = projectType := by
  exact ⟨rfl, rfl, rfl, rfl, rfl, rfl, rfl, rfl⟩

end global

namespace goproject

/-! ### The runner -/

/-- C11 fails on the code. For a command that gives the one line "x" on its standard output:
when the reader goroutine has taken the line but not yet sent it while the main goroutine
finishes, the terminal message is received first, `ch` is closed, and the send of the log
line is a send on the closed channel; or, `ch` being closed a little later, the log line
and the progress message are received after the terminal message. For a command that gives
two lines on its standard error: `lines` is closed while the second line is still to be
sent, and its send is a send on the closed channel. (When every message is received as
soon as it is sent, the order is the expected one: log line, progress, terminal message.) -/
theorem runInstallWithOutput_terminal_not_last :
    (runInstallWithOutput.run (InstallRun.begin ["x"] [] none none)
        [.main, .stdoutLine, .main, .main, .main, .receiveFromMain, .main, .reader]).map
      (fun s => (s.delivered, s.chClosed, s.reader)) =
        some ([.installFinishedMsg none], true, .panicked) ∧
    (runInstallWithOutput.run (InstallRun.begin ["x"] [] none none)
        [.main, .stdoutLine, .main, .main, .main, .receiveFromMain, .receiveFromReader,
          .receiveFromReader, .main, .reader, .stderrReader]).map
      (fun s => (s.delivered, s.main, s.reader, s.stderrReader)) =
        some ([.installFinishedMsg none, .installLogMsg "x", .installProgressMsg],
          .done, .done, .done) ∧
    (runInstallWithOutput.run (InstallRun.begin [] ["e1", "e2"] none none)
        [.main, .stderrLine, .receiveFromReader, .main, .main, .main, .stderrReader]).map
      (fun s => (s.delivered, s.linesClosed, s.stderr, s.stderrReader)) =
        some ([.installLogMsg "e1"], true, ["e2"], .panicked) ∧
    (runInstallWithOutput.run (InstallRun.begin ["x"] [] none none)
        [.main, .stdoutLine, .receiveFromReader, .receiveFromReader, .main, .main, .main,
          .receiveFromMain, .main, .reader, .stderrReader]).map
      (fun s => (s.delivered, s.main, s.reader, s.stderrReader)) =
        some ([.installLogMsg "x", .installProgressMsg, .installFinishedMsg none],
          .done, .done, .done) := by
  decide

end goproject

namespace goproject

open goWizardStep

/-! ### The bound of the log buffer -/

theorem appendLogLine_length_le (m : GoWizardModel) (line : String)
    (h : m.logLines.length ≤ maxLines) :
    (appendLogLine m line).logLines.length ≤ maxLines := by
  by_cases hl : line = ""
  · subst hl
    rw [appendLogLine_empty]
    exact h
  · rw [appendLogLine_logLines m line hl, List.length_drop]
    omega

theorem Update_keeps_log_bound {W : Type} (env : Env) (plugins : List (postplugin.Plugin W))
    (m m1 : GoWizardModel) (msg : tea.Msg)
    (hinv : m.logLines.length ≤ maxLines)
    (e : (Update env plugins m msg).model = .self m1) :
    m1.logLines.length ≤ maxLines := by
  cases msg with
  | installLogMsg line =>
    by_cases hstep : m.step = goStepInstalling
    · obtain ⟨m2, h2, _, hlog, _, _⟩ := Update_installLogMsg env plugins m line hstep
      rw [h2] at e
      cases e
      rw [hlog]
      exact appendLogLine_length_le m line hinv
    · obtain ⟨step, mp, pd, em, ti, pr, pv, ie, ll⟩ := m
      simp only at hstep hinv
      simp only [Update, updateTail, hstep, if_false] at e
      split at e <;> cases e <;> exact hinv
  | KeyMsg key =>
    obtain ⟨step, mp, pd, em, ti, pr, pv, ie, ll⟩ := m
    simp only at hinv
    cases step <;> simp only [Update, updateTail, if_true, reduceCtorEq, if_false] at e
    all_goals repeat' split at e
    all_goals cases e
    all_goals first
      | exact hinv
      | exact Nat.zero_le _
  | installProgressMsg =>
    obtain ⟨step, mp, pd, em, ti, pr, pv, ie, ll⟩ := m
    simp only [Update, updateTail] at e
    split at e <;> cases e <;> exact hinv
  | installFinishedMsg err =>
    obtain ⟨step, mp, pd, em, ti, pr, pv, ie, ll⟩ := m
    simp only [Update, updateTail] at e
    repeat' split at e
    all_goals cases e
    all_goals exact hinv
  | other tag =>
    obtain ⟨step, mp, pd, em, ti, pr, pv, ie, ll⟩ := m
    simp only [Update, updateTail] at e
    split at e <;> cases e <;> exact hinv

/-- In every reachable state the log buffer holds at most `maxLines` lines. -/
theorem Reachable.log_le {W : Type} {m : GoWizardModel} (h : Reachable W m) :
    m.logLines.length ≤ maxLines := by
  induction h with
  | init env => simp [NewGoWizardModel]
  | update env plugins m m1 msg _ e ih =>
    exact Update_keeps_log_bound env plugins m m1 msg ih e

theorem sample_afterSixtyLines_reachable : Reachable (String × String) sample.afterSixtyLines :=
  Reachable.UpdateAll sample.env [sample.plugin] (sample.lines60.map .installLogMsg)
    sample.atInstalling sample.afterSixtyLines sample_atInstalling_reachable rfl

/-- C21: in every state of the Go wizard reachable from `NewGoWizardModel` by any sequence
of messages (in any world and with any registry of post-create plugins), the log buffer
holds at most 50 lines. -/
theorem logLines_length_le_50 {W : Type} (m : GoWizardModel) (h : Reachable W m) :
    m.logLines.length ≤ 50 :=
  h.log_le

/-- The wizard that has received sixty log lines in the installing step is reachable, and
its log buffer holds 50 lines. -/
theorem logLines_length_le_50_witness :
    Reachable (String × String) sample.afterSixtyLines ∧
    sample.afterSixtyLines.logLines.length = 50 ∧
    sample.afterSixtyLines.logLines.length ≤ 50 :=
  ⟨sample_afterSixtyLines_reachable, by decide,
    logLines_length_le_50 sample.afterSixtyLines sample_afterSixtyLines_reachable⟩

end goproject

namespace goproject

open goWizardStep

/-! ### A failed project creation -/

/-- The ways in which `createGoProject` returns an error, with the effects it has had. -/
theorem createGoProject_err (env : Env) (modulePath e mp dir : String)
    (modInit modTidy : exec.Cmd)
    (hmp : mp = strings.TrimSpace modulePath)
    (hdir : dir = env.Join (loadDefaultProjectBasePath env) (deriveProjectNameFromModule mp))
    (hinit : modInit = { exec.Command "go" ["mod", "init", mp] with Dir := dir })
    (htidy : modTidy = { exec.Command "go" ["mod", "tidy"] with Dir := dir })
    (hfail : (createGoProject env modulePath).err = some e) :
    (mp = "" ∧ e = "module path cannot be empty" ∧ (createGoProject env modulePath).effects = []) ∨
    (∃ cause, mp ≠ "" ∧ env.MkdirAll dir = some cause ∧
      e = "failed to create project directory: " ++ cause ∧
      (createGoProject env modulePath).effects = [.MkdirAll dir]) ∨
    (∃ out cause, mp ≠ "" ∧ env.MkdirAll dir = none ∧
      env.CombinedOutput modInit = (out, some cause) ∧
      e = "go mod init failed: " ++ cause ++ "\n" ++ out ∧
      (createGoProject env modulePath).effects = [.MkdirAll dir, .Run modInit]) ∨
    (∃ out cause, mp ≠ "" ∧ env.MkdirAll dir = none ∧
      (env.CombinedOutput modInit).2 = none ∧
      env.CombinedOutput modTidy = (out, some cause) ∧
      e = "go mod tidy failed: " ++ cause ++ "\n" ++ out ∧
      (createGoProject env modulePath).effects = [.MkdirAll dir, .Run modInit, .Run modTidy]) := by
  subst hmp hdir hinit htidy
  revert hfail
  unfold createGoProject
  simp only
  split
  · rename_i h
    intro hfail
    simp only [Option.some.injEq] at hfail
    exact Or.inl ⟨h, hfail.symm, rfl⟩
  · rename_i h
    split
    · rename_i cause hc
      intro hfail
      simp only [Option.some.injEq] at hfail
      exact Or.inr (Or.inl ⟨cause, h, hc, hfail.symm, rfl⟩)
    · rename_i hc
      split
      · rename_i out cause hi
        intro hfail
        simp only [Option.some.injEq] at hfail
        exact Or.inr (Or.inr (Or.inl ⟨out, cause, h, hc, hi, hfail.symm, rfl⟩))
      · rename_i out1 hi
        split
        · rename_i out cause ht
          intro hfail
          simp only [Option.some.injEq] at hfail
          exact Or.inr (Or.inr (Or.inr ⟨out, cause, h, hc, by rw [hi], ht, hfail.symm, rfl⟩))
        · intro hfail
          exact absurd hfail (by simp)

theorem createGoProject_mkdir_fails (env : Env) (modulePath cause : String)
    (hne : strings.TrimSpace modulePath ≠ "")
    (hmk : env.MkdirAll (env.Join (loadDefaultProjectBasePath env)
      (deriveProjectNameFromModule (strings.TrimSpace modulePath))) = some cause) :
    createGoProject env modulePath =
      ⟨env.Join (loadDefaultProjectBasePath env)
          (deriveProjectNameFromModule (strings.TrimSpace modulePath)),
        some ("failed to create project directory: " ++ cause),
        [.MkdirAll (env.Join (loadDefaultProjectBasePath env)
          (deriveProjectNameFromModule (strings.TrimSpace modulePath)))]⟩ := by
  unfold createGoProject
  simp only [hne, if_false, hmk]

theorem createGoProject_init_fails (env : Env) (modulePath out cause : String)
    (hne : strings.TrimSpace modulePath ≠ "")
    (hmk : env.MkdirAll (env.Join (loadDefaultProjectBasePath env)
      (deriveProjectNameFromModule (strings.TrimSpace modulePath))) = none)
    (hinit : env.CombinedOutput
      { exec.Command "go" ["mod", "init", strings.TrimSpace modulePath] with
        Dir := env.Join (loadDefaultProjectBasePath env)
          (deriveProjectNameFromModule (strings.TrimSpace modulePath)) } = (out, some cause)) :
    createGoProject env modulePath =
      ⟨env.Join (loadDefaultProjectBasePath env)
          (deriveProjectNameFromModule (strings.TrimSpace modulePath)),
        some ("go mod init failed: " ++ cause ++ "\n" ++ out),
        [.MkdirAll (env.Join (loadDefaultProjectBasePath env)
          (deriveProjectNameFromModule (strings.TrimSpace modulePath))),
         .Run { exec.Command "go" ["mod", "init", strings.TrimSpace modulePath] with
          Dir := env.Join (loadDefaultProjectBasePath env)
            (deriveProjectNameFromModule (strings.TrimSpace modulePath)) }]⟩ := by
  unfold createGoProject
  simp only [hne, if_false, hmk, hinit]

theorem createGoProject_tidy_fails (env : Env) (modulePath out cause : String)
    (hne : strings.TrimSpace modulePath ≠ "")
    (hmk : env.MkdirAll (env.Join (loadDefaultProjectBasePath env)
      (deriveProjectNameFromModule (strings.TrimSpace modulePath))) = none)
    (hinit : (env.CombinedOutput
      { exec.Command "go" ["mod", "init", strings.TrimSpace modulePath] with
        Dir := env.Join (loadDefaultProjectBasePath env)
          (deriveProjectNameFromModule (strings.TrimSpace modulePath)) }).2 = none)
    (htidy : env.CombinedOutput
      { exec.Command "go" ["mod", "tidy"] with
        Dir := env.Join (loadDefaultProjectBasePath env)
          (deriveProjectNameFromModule (strings.TrimSpace modulePath)) } = (out, some cause)) :
    createGoProject env modulePath =
      ⟨env.Join (loadDefaultProjectBasePath env)
          (deriveProjectNameFromModule (strings.TrimSpace modulePath)),
        some ("go mod tidy failed: " ++ cause ++ "\n" ++ out),
        [.MkdirAll (env.Join (loadDefaultProjectBasePath env)
          (deriveProjectNameFromModule (strings.TrimSpace modulePath))),
         .Run { exec.Command "go" ["mod", "init", strings.TrimSpace modulePath] with
          Dir := env.Join (loadDefaultProjectBasePath env)
            (deriveProjectNameFromModule (strings.TrimSpace modulePath)) },
         .Run { exec.Command "go" ["mod", "tidy"] with
          Dir := env.Join (loadDefaultProjectBasePath env)
            (deriveProjectNameFromModule (strings.TrimSpace modulePath)) }]⟩ := by
  rcases hci : env.CombinedOutput
      { exec.Command "go" ["mod", "init", strings.TrimSpace modulePath] with
        Dir := env.Join (loadDefaultProjectBasePath env)
          (deriveProjectNameFromModule (strings.TrimSpace modulePath)) } with ⟨out1, err1⟩
  rw [hci] at hinit
  simp only at hinit
  subst hinit
  unfold createGoProject
  simp only [hne, if_false, hmk, hci, htidy]

theorem Update_summary_enter_err {W : Type} (env : Env)
    (plugins : List (postplugin.Plugin W)) (m : GoWizardModel) (c : Created) (e : String)
    (hstep : m.step = goStepSummary)
    (hgo : langenv.IsInstalled env langenv.LanguageGo = true)
    (hc : createGoProject env m.modulePath = c) (he : c.err = some e) :
    Update env plugins m (.KeyMsg "enter") =
      ⟨.self { m with
          progress := (env.progressUpdate m.progress (.KeyMsg "enter")).1
          step := goStepSummary
          errMsg := e
          projectDir := c.dir },
        (env.progressUpdate m.progress (.KeyMsg "enter")).2.toList, c.effects⟩ := by
  obtain ⟨step, mp, pd, em, ti, pr, pv, ie, ll⟩ := m
  simp only at hstep hc
  subst hstep
  subst hc
  simp [Update, hgo, he]

/-- C22: on the enter key in the summary step, with Go installed and a module path that is
not blank: when `os.MkdirAll` of the project directory returns an error, or `go mod init`
does, or, after both have succeeded, `go mod tidy` does, `Update` returns the Go wizard
itself, whatever post-create plugins are registered, still in the summary step and with the
error of `createGoProject` as its error message: the error of `os.MkdirAll` after "failed
to create project directory: ", or the error of the command after "go mod init failed: " or
"go mod tidy failed: ", followed by a line break and the combined output of the command.
The effects are the calls made up to the failing one: when `go mod init` fails, `go mod
tidy` is not run. With a blank module path the error is "module path cannot be empty" and
nothing is done. -/
theorem Update_summary_enter_failed {W : Type} (env : Env)
    (plugins : List (postplugin.Plugin W)) (m : GoWizardModel) (mp dir : String)
    (modInit modTidy : exec.Cmd)
    (hstep : m.step = goStepSummary)
    (hgo : langenv.IsInstalled env langenv.LanguageGo = true)
    (hmp : mp = strings.TrimSpace m.modulePath)
    (hdir : dir = env.Join (loadDefaultProjectBasePath env) (deriveProjectNameFromModule mp))
    (hinit : modInit = { exec.Command "go" ["mod", "init", mp] with Dir := dir })
    (htidy : modTidy = { exec.Command "go" ["mod", "tidy"] with Dir := dir }) :
    (∀ cause, mp ≠ "" → env.MkdirAll dir = some cause →
      Update env plugins m (.KeyMsg "enter") =
        ⟨.self { m with
            progress := (env.progressUpdate m.progress (.KeyMsg "enter")).1
            step := goStepSummary
            errMsg := "failed to create project directory: " ++ cause
            projectDir := dir },
          (env.progressUpdate m.progress (.KeyMsg "enter")).2.toList,
          [.MkdirAll dir]⟩) ∧
    (∀ out cause, mp ≠ "" → env.MkdirAll dir = none →
      env.CombinedOutput modInit = (out, some cause) →
      Update env plugins m (.KeyMsg "enter") =
        ⟨.self { m with
            progress := (env.progressUpdate m.progress (.KeyMsg "enter")).1
            step := goStepSummary
            errMsg := "go mod init failed: " ++ cause ++ "\n" ++ out
            projectDir := dir },
          (env.progressUpdate m.progress (.KeyMsg "enter")).2.toList,
          [.MkdirAll dir, .Run modInit]⟩ ∧
      Effect.Run modTidy ∉ (Update env plugins m (.KeyMsg "enter")).effects) ∧
    (∀ out cause, mp ≠ "" → env.MkdirAll dir = none →
      (env.CombinedOutput modInit).2 = none →
      env.CombinedOutput modTidy = (out, some cause) →
      Update env plugins m (.KeyMsg "enter") =
        ⟨.self { m with
            progress := (env.progressUpdate m.progress (.KeyMsg "enter")).1
            step := goStepSummary
            errMsg := "go mod tidy failed: " ++ cause ++ "\n" ++ out
            projectDir := dir },
          (env.progressUpdate m.progress (.KeyMsg "enter")).2.toList,
          [.MkdirAll dir, .Run modInit, .Run modTidy]⟩) ∧
    (mp = "" →
      Update env plugins m (.KeyMsg "enter") =
        ⟨.self { m with
            progress := (env.progressUpdate m.progress (.KeyMsg "enter")).1
            step := goStepSummary
            errMsg := "module path cannot be empty"
            projectDir := "" },
          (env.progressUpdate m.progress (.KeyMsg "enter")).2.toList, []⟩) := by
  subst hmp hdir hinit htidy
  refine ⟨?_, ?_, ?_, ?_⟩
  · intro cause hne hmk
    exact Update_summary_enter_err env plugins m _ _ hstep hgo
      (createGoProject_mkdir_fails env m.modulePath cause hne hmk) rfl
  · intro out cause hne hmk hci
    have hU := Update_summary_enter_err env plugins m _ _ hstep hgo
      (createGoProject_init_fails env m.modulePath out cause hne hmk hci) rfl
    refine ⟨hU, ?_⟩
    rw [hU]
    simp [exec.Command]
  · intro out cause hne hmk hci hct
    exact Update_summary_enter_err env plugins m _ _ hstep hgo
      (createGoProject_tidy_fails env m.modulePath out cause hne hmk hci hct) rfl
  · intro hblank
    have hc : createGoProject env m.modulePath = ⟨"", some "module path cannot be empty", []⟩ := by
      unfold createGoProject
      simp only [hblank, if_true]
    exact Update_summary_enter_err env plugins m _ _ hstep hgo hc rfl

/-- On the sample machine where `go mod init` fails, the enter key in the summary step
leaves the wizard in the summary step with the error and the output of the command,
although a post-create plugin is registered, and `go mod tidy` is not run. -/
theorem Update_summary_enter_failed_witness :
    sample.atSummary.step = goStepSummary ∧
    langenv.IsInstalled sample.envInitFails langenv.LanguageGo = true ∧
    ("github.com/acme/widget" : String) ≠ "" ∧
    sample.envInitFails.MkdirAll "/home/dev/Documents/widget" = none ∧
    sample.envInitFails.CombinedOutput
        ⟨["go", "mod", "init", "github.com/acme/widget"], "/home/dev/Documents/widget"⟩ =
      ("go: cannot determine module path", some "exit status 1") ∧
    (Update sample.envInitFails [sample.plugin] sample.atSummary (.KeyMsg "enter") =
        ⟨.self { sample.atSummary with
            progress := (sample.envInitFails.progressUpdate sample.atSummary.progress
              (.KeyMsg "enter")).1
            step := goStepSummary
            errMsg := "go mod init failed: " ++ "exit status 1" ++ "\n" ++
              "go: cannot determine module path"
            projectDir := "/home/dev/Documents/widget" },
          (sample.envInitFails.progressUpdate sample.atSummary.progress
            (.KeyMsg "enter")).2.toList,
          [.MkdirAll "/home/dev/Documents/widget",
            .Run ⟨["go", "mod", "init", "github.com/acme/widget"],
              "/home/dev/Documents/widget"⟩]⟩ ∧
      Effect.Run ⟨["go", "mod", "tidy"], "/home/dev/Documents/widget"⟩ ∉
        (Update sample.envInitFails [sample.plugin] sample.atSummary
          (.KeyMsg "enter")).effects) :=
  ⟨rfl, rfl, by decide, rfl, rfl,
    (Update_summary_enter_failed sample.envInitFails [sample.plugin] sample.atSummary
      "github.com/acme/widget" "/home/dev/Documents/widget"
      ⟨["go", "mod", "init", "github.com/acme/widget"], "/home/dev/Documents/widget"⟩
      ⟨["go", "mod", "tidy"], "/home/dev/Documents/widget"⟩
      rfl rfl rfl rfl rfl rfl).2.1 "go: cannot determine module path" "exit status 1"
      (by decide) rfl rfl⟩

end goproject

namespace global

open step

/-! ### The done step of the post-create wizard -/

theorem Update_done {σ : Type} (fs : FileSys σ) (m : Model) (msg : tea.Msg) (w : σ)
    (h : m.step = stepDone) :
    Update fs m msg w =
      some ⟨m, match msg with
        | .KeyMsg _ => [tea.Cmd.Quit]
        | _ => [], w, []⟩ := by
  cases msg <;> simp [Update, h]

theorem Update_runsApply {σ : Type} (fs : FileSys σ) (m : Model) (msg : tea.Msg) (w : σ)
    (h : runsApply m msg = true) :
    ∃ out, Update fs m msg w = some out ∧ out.model.step = stepDone ∧
      out.model.applySummary = (applySelections fs m w).summary ∧
      out.world = (applySelections fs m w).world ∧
      out.calls = (applySelections fs m w).calls := by
  simp only [runsApply, Bool.and_eq_true, decide_eq_true_eq] at h
  obtain ⟨hs, hm⟩ := h
  subst hm
  simp only [Update, hs]
  refine ⟨_, rfl, rfl, ?_, rfl, rfl⟩
  split <;> rfl

theorem Update_not_runsApply {σ : Type} (fs : FileSys σ) (m : Model) (msg : tea.Msg) (w : σ)
    (out : Outcome σ) (h : runsApply m msg = false) (e : Update fs m msg w = some out) :
    out.world = w ∧ out.calls = [] := by
  obtain ⟨st, pp, pt, c, gi, ti, em, su⟩ := m
  cases msg with
  | KeyMsg key =>
    cases st <;> simp only [Update] at e
    all_goals repeat' split at e
    all_goals first
      | (cases e; exact ⟨rfl, rfl⟩)
      | (cases e; done)
      | (simp only [runsApply, decide_True, Bool.true_and, decide_eq_false_iff_not,
          tea.Msg.KeyMsg.injEq] at h
         exact absurd (by assumption) h)
  | _ =>
    simp only [Update] at e
    cases e
    exact ⟨rfl, rfl⟩

theorem Update_applySummary {σ : Type} (fs : FileSys σ) (m : Model) (msg : tea.Msg) (w : σ)
    (out : Outcome σ) (e : Update fs m msg w = some out)
    (hne : out.model.applySummary ≠ m.applySummary) :
    m.step ≠ stepDone ∧ out.model.step = stepDone := by
  obtain ⟨st, pp, pt, c, gi, ti, em, su⟩ := m
  cases msg with
  | KeyMsg key =>
    cases st <;> simp only [Update] at e
    all_goals repeat' split at e
    all_goals first
      | (cases e; exact absurd rfl hne)
      | (cases e; done)
      | (cases e; refine ⟨?_, rfl⟩; intro h; cases h)
  | _ =>
    simp only [Update] at e
    cases e
    exact absurd rfl hne

theorem applyCount_done {σ : Type} (fs : FileSys σ) (msgs : List tea.Msg) (m : Model) (w : σ)
    (h : m.step = stepDone) : applyCount fs m msgs w = 0 := by
  induction msgs generalizing w with
  | nil => rfl
  | cons msg rest ih =>
    have hr : runsApply m msg = false := by simp [runsApply, h]
    simp only [applyCount, hr, Update_done fs m msg w h]
    simpa using ih w

theorem applyCount_le_one {σ : Type} (fs : FileSys σ) (msgs : List tea.Msg) (m : Model)
    (w : σ) : applyCount fs m msgs w ≤ 1 := by
  induction msgs generalizing m w with
  | nil => simp [applyCount]
  | cons msg rest ih =>
    by_cases hr : runsApply m msg = true
    · obtain ⟨out, hout, hdone, _⟩ := Update_runsApply fs m msg w hr
      simp only [applyCount, hr, hout, if_true]
      rw [applyCount_done fs rest out.model out.world hdone]
    · simp only [applyCount, hr]
      cases hU : Update fs m msg w with
      | none => simp
      | some out =>
        simp only [Bool.false_eq_true, if_false, Nat.zero_add]
        exact ih out.model out.world

/-- In every reachable state with a summary the wizard is in the done step. -/
theorem Reachable.summary_done {m : Model} (h : Reachable m) :
    m.applySummary ≠ [] → m.step = stepDone := by
  induction h with
  | init pp pt => intro hne; exact absurd rfl hne
  | update fs m msg w out _ e ih =>
    intro hne
    by_cases hs : out.model.applySummary = m.applySummary
    · have hd := ih (hs ▸ hne)
      rw [Update_done fs m msg w hd] at e
      cases e
      exact hd
    · exact (Update_applySummary fs m msg w out e hs).2

/-- C23: in the post-create wizard, `Update` returns a model with another apply summary
only when it goes from another step into the done step; in the done step `Update` returns
the model unchanged for every message, touches no file, and returns the quit command for a
key and no command otherwise; a reachable wizard with a summary is in the done step; and
`Update` calls `applySelections` exactly on the enter key of the type-specific step, which
leads to the done step, so that over any sequence of messages it is called at most once. -/
theorem applySummary_set_once {σ : Type} (fs : FileSys σ) (m : Model) (msg : tea.Msg) (w : σ)
    (msgs : List tea.Msg) :
    (∀ out, Update fs m msg w = some out → out.model.applySummary ≠ m.applySummary →
      m.step ≠ stepDone ∧ out.model.step = stepDone) ∧
    (m.step = stepDone →
      Update fs m msg w =
        some ⟨m, match msg with
          | .KeyMsg _ => [tea.Cmd.Quit]
          | _ => [], w, []⟩) ∧
    (Reachable m → m.applySummary ≠ [] → m.step = stepDone) ∧
    (runsApply m msg = true →
      ∃ out, Update fs m msg w = some out ∧ out.model.step = stepDone ∧
        out.model.applySummary = (applySelections fs m w).summary ∧
        out.world = (applySelections fs m w).world ∧
        out.calls = (applySelections fs m w).calls) ∧
    (runsApply m msg = false →
      ∀ out, Update fs m msg w = some out → out.world = w ∧ out.calls = []) ∧
    applyCount fs m msgs w ≤ 1 :=
  ⟨fun out e hne => Update_applySummary fs m msg w out e hne,
    Update_done fs m msg w,
    fun h => h.summary_done,
    Update_runsApply fs m msg w,
    fun h out e => Update_not_runsApply fs m msg w out h e,
    applyCount_le_one fs msgs m w⟩

end global

namespace global

open step

/-- On the sample file system the enter key of the type-specific step applies the sample
selection and sets the summary on the way into the done step; a second enter key only
quits, and `applySelections` has been called once. -/
theorem applySummary_set_once_witness :
    Update sample.fs sample.selection (.KeyMsg "enter") [] =
      some ⟨sample.applied, [], (applySelections sample.fs sample.selection []).world,
        (applySelections sample.fs sample.selection []).calls⟩ ∧
    sample.applied.applySummary ≠ sample.selection.applySummary ∧
    (sample.selection.step ≠ stepDone ∧ sample.applied.step = stepDone) ∧
    applyCount sample.fs sample.selection [.KeyMsg "enter", .KeyMsg "enter"] [] = 1 ∧
    applyCount sample.fs sample.selection [.KeyMsg "enter", .KeyMsg "enter"] [] ≤ 1 :=
  ⟨rfl, by decide,
    (applySummary_set_once sample.fs sample.selection (.KeyMsg "enter") []
      [.KeyMsg "enter", .KeyMsg "enter"]).1
      ⟨sample.applied, [], (applySelections sample.fs sample.selection []).world,
        (applySelections sample.fs sample.selection []).calls⟩ rfl (by decide),
    rfl,
    (applySummary_set_once sample.fs sample.selection (.KeyMsg "enter") []
      [.KeyMsg "enter", .KeyMsg "enter"]).2.2.2.2.2⟩

end global

namespace global

open step

/-! ### The cursor of the post-create wizard and the toggle key -/

theorem length_toggleAt (l : List item) (n : Nat) : (toggleAt l n).length = l.length := by
  induction l generalizing n with
  | nil => rfl
  | cons it rest ih =>
    cases n with
    | zero => rfl
    | succ n => simp [toggleAt, ih]

theorem getElem?_toggleAt (l : List item) (n i : Nat) :
    (toggleAt l n)[i]? =
      if i = n then (l[i]?).map (fun it => { it with Selected := !it.Selected }) else l[i]? := by
  induction l generalizing n i with
  | nil => simp [toggleAt]
  | cons it rest ih =>
    cases n with
    | zero =>
      cases i with
      | zero => simp [toggleAt]
      | succ i => simp [toggleAt]
    | succ n =>
      cases i with
      | zero => simp [toggleAt]
      | succ i => simp [toggleAt, ih]

theorem toggleAt_toggleAt (l : List item) (n : Nat) : toggleAt (toggleAt l n) n = l := by
  induction l generalizing n with
  | nil => rfl
  | cons it rest ih =>
    cases n with
    | zero => simp [toggleAt]
    | succ n => simp [toggleAt, ih]

theorem CursorValid_iff (m : Model) :
    CursorValid m ↔
      ((activeItems m).length ≠ 0 → 0 ≤ m.cursor ∧ m.cursor < ((activeItems m).length : Int)) := by
  unfold CursorValid
  rw [Ne, Ne, List.length_eq_zero]

theorem Update_keeps_cursor {σ : Type} (fs : FileSys σ) (m : Model) (msg : tea.Msg) (w : σ)
    (out : Outcome σ) (hinv : CursorValid m) (e : Update fs m msg w = some out) :
    CursorValid out.model := by
  rw [CursorValid_iff] at hinv ⊢
  obtain ⟨st, pp, pt, c, gi, ti, em, su⟩ := m
  cases msg with
  | KeyMsg key =>
    cases st <;> simp only [Update] at e <;> simp only [activeItems] at hinv
    all_goals repeat' split at e
    all_goals first
      | (cases e; done)
      | (cases e; simp only [activeItems, length_toggleAt]; omega)
      | (cases e; simp only [activeItems, length_toggleAt]; intro h; exact absurd rfl h)
  | _ =>
    simp only [Update] at e
    cases e
    exact hinv

/-- In every reachable state the cursor is a valid index of the active checklist. -/
theorem Reachable.cursorValid {m : Model} (h : Reachable m) : CursorValid m := by
  induction h with
  | init pp pt =>
    rw [CursorValid_iff]
    intro hne
    simp only [NewModel, activeItems] at hne ⊢
    simp
  | update fs m msg w out _ e ih => exact Update_keeps_cursor fs m msg w out ih e

theorem Update_isSome {σ : Type} (fs : FileSys σ) (m : Model) (msg : tea.Msg) (w : σ)
    (hinv : CursorValid m) : (Update fs m msg w).isSome = true := by
  rw [CursorValid_iff] at hinv
  obtain ⟨st, pp, pt, c, gi, ti, em, su⟩ := m
  cases msg with
  | KeyMsg key =>
    cases st <;> simp only [Update] <;> simp only [activeItems] at hinv
    all_goals repeat' split
    all_goals first
      | rfl
      | (exfalso; omega)
  | _ => rfl

end global

namespace global

open step

theorem getElem?_toggleAt_cursor (l : List item) (c : Int) (i : Nat) (h0 : 0 ≤ c) :
    (toggleAt l c.toNat)[i]? =
      if (i : Int) = c then (l[i]?).map (fun it => { it with Selected := !it.Selected })
      else l[i]? := by
  rw [getElem?_toggleAt]
  have hiff : i = c.toNat ↔ (i : Int) = c := by omega
  by_cases hi : i = c.toNat
  · rw [if_pos hi, if_pos (hiff.mp hi)]
  · rw [if_neg hi, if_neg (fun h => hi (hiff.mpr h))]

/-- C24: in every state of the post-create wizard reachable from `NewModel` by any sequence
of messages, the cursor is a valid index of the checklist of the active step when that
checklist is not empty, and `Update` does not index out of range on any message. On the
toggle key (the space key) `Update` returns a model that differs from the former one at
most in the checklist of the active step, which keeps its length and in which exactly the
item under the cursor has its `Selected` flag flipped, and touches no file; a second
toggle key gives the former model back. -/
theorem cursor_valid_and_toggle {σ : Type} (fs : FileSys σ) (m : Model) (w : σ)
    (h : Reachable m) :
    CursorValid m ∧
    (∀ msg, (Update fs m msg w).isSome = true) ∧
    ∃ out, Update fs m (.KeyMsg " ") w = some out ∧
      out.model =
        { m with globalItems := out.model.globalItems, typeItems := out.model.typeItems } ∧
      (m.step ≠ stepGlobal → out.model.globalItems = m.globalItems) ∧
      (m.step ≠ stepTypeSpecific → out.model.typeItems = m.typeItems) ∧
      (activeItems out.model).length = (activeItems m).length ∧
      (∀ i : Nat, (activeItems out.model)[i]? =
        if (i : Int) = m.cursor then
          ((activeItems m)[i]?).map (fun it => { it with Selected := !it.Selected })
        else (activeItems m)[i]?) ∧
      out.world = w ∧ out.calls = [] ∧
      ∃ out2, Update fs out.model (.KeyMsg " ") out.world = some out2 ∧ out2.model = m := by
  have hinv := h.cursorValid
  refine ⟨hinv, fun msg => Update_isSome fs m msg w hinv, ?_⟩
  rw [CursorValid_iff] at hinv
  obtain ⟨st, pp, pt, c, gi, ti, em, su⟩ := m
  cases st with
  | stepGlobal =>
    simp only [activeItems] at hinv
    by_cases hl : gi.length = 0
    · have hgi : gi = [] := List.length_eq_zero.mp hl
      subst hgi
      refine ⟨⟨⟨stepGlobal, pp, pt, c, [], ti, em, su⟩, [], w, []⟩, by simp [Update], rfl,
        fun _ => rfl, fun _ => rfl, rfl, ?_,
        rfl, rfl, ⟨⟨stepGlobal, pp, pt, c, [], ti, em, su⟩, [], w, []⟩, by simp [Update], rfl⟩
      intro i
      simp [activeItems]
    · obtain ⟨h0, h1⟩ := hinv hl
      refine ⟨⟨⟨stepGlobal, pp, pt, c, toggleAt gi c.toNat, ti, em, su⟩, [], w, []⟩,
        by simp only [Update]; simp [hl, h0, h1], rfl,
        fun hne => absurd rfl hne, fun _ => rfl, ?_, ?_, rfl, rfl,
        ⟨⟨stepGlobal, pp, pt, c, gi, ti, em, su⟩, [], w, []⟩,
        by simp only [Update]; simp [hl, h0, h1, length_toggleAt, toggleAt_toggleAt], rfl⟩
      · simp only [activeItems, length_toggleAt]
      · intro i
        simp only [activeItems]
        exact getElem?_toggleAt_cursor gi c i h0
  | stepTypeSpecific =>
    simp only [activeItems] at hinv
    by_cases hl : ti.length = 0
    · have hti : ti = [] := List.length_eq_zero.mp hl
      subst hti
      refine ⟨⟨⟨stepTypeSpecific, pp, pt, c, gi, [], em, su⟩, [], w, []⟩, by simp [Update], rfl,
        fun _ => rfl, fun _ => rfl, rfl, ?_,
        rfl, rfl, ⟨⟨stepTypeSpecific, pp, pt, c, gi, [], em, su⟩, [], w, []⟩, by simp [Update], rfl⟩
      intro i
      simp [activeItems]
    · obtain ⟨h0, h1⟩ := hinv hl
      refine ⟨⟨⟨stepTypeSpecific, pp, pt, c, gi, toggleAt ti c.toNat, em, su⟩, [], w, []⟩,
        by simp only [Update]; simp [hl, h0, h1], rfl,
        fun _ => rfl, fun hne => absurd rfl hne, ?_, ?_, rfl, rfl,
        ⟨⟨stepTypeSpecific, pp, pt, c, gi, ti, em, su⟩, [], w, []⟩,
        by simp only [Update]; simp [hl, h0, h1, length_toggleAt, toggleAt_toggleAt], rfl⟩
      · simp only [activeItems, length_toggleAt]
      · intro i
        simp only [activeItems]
        exact getElem?_toggleAt_cursor ti c i h0
  | stepDone =>
    refine ⟨⟨⟨stepDone, pp, pt, c, gi, ti, em, su⟩, [tea.Cmd.Quit], w, []⟩, by simp [Update],
      rfl, fun _ => rfl, fun _ => rfl, rfl, ?_, rfl, rfl,
      ⟨⟨stepDone, pp, pt, c, gi, ti, em, su⟩, [tea.Cmd.Quit], w, []⟩, by simp [Update], rfl⟩
    intro i
    simp [activeItems]

theorem sample_onReadme_reachable : Reachable sample.onReadme :=
  Reachable.update sample.fs _ (.KeyMsg "down") [] ⟨sample.onReadme, [], [], []⟩
    (Reachable.update sample.fs _ (.KeyMsg "down") []
      ⟨{ NewModel "/srv/widget" "go" with cursor := 1 }, [], [], []⟩
      (Reachable.init "/srv/widget" "go") rfl) rfl

/-- After two down keys the cursor of the sample wizard is on `README.md`, the third of five
items; the toggle key selects it and no other item, and a second toggle key gives the
former wizard back. -/
theorem cursor_valid_and_toggle_witness :
    Reachable sample.onReadme ∧
    activeItems sample.onReadme ≠ [] ∧
    Update sample.fs sample.onReadme (.KeyMsg " ") [] =
      some ⟨{ sample.onReadme with
        globalItems := [
          { ID := "global_env", Label := "Create .env file", Selected := false },
          { ID := "global_notes", Label := "Create notes/ folder", Selected := false },
          { ID := "global_readme", Label := "Create README.md file", Selected := true },
          { ID := "global_gitignore", Label := "Create .gitignore file", Selected := false },
          { ID := "global_makefile", Label := "Create Makefile", Selected := false }] },
        [], [], []⟩ ∧
    (0 ≤ sample.onReadme.cursor ∧
      sample.onReadme.cursor < (activeItems sample.onReadme).length) :=
  ⟨sample_onReadme_reachable, by decide, rfl,
    (cursor_valid_and_toggle sample.fs sample.onReadme [] sample_onReadme_reachable).1
      (by decide)⟩

end global

namespace ui

/-! ### The type chooser -/

theorem Update_up {W : Type} (env : Env) (m : TypeChooserModel W) (h : m.plugins.length ≠ 0) :
    Update env m (.KeyMsg "up") =
      some (.self { m with
        selectedIndex :=
          if m.selectedIndex - 1 < 0 then (m.plugins.length : Int) - 1
          else m.selectedIndex - 1 }, []) := by
  simp [Update, h]

theorem Update_down {W : Type} (env : Env) (m : TypeChooserModel W)
    (h : m.plugins.length ≠ 0) :
    Update env m (.KeyMsg "down") =
      some (.self { m with
        selectedIndex :=
          if m.selectedIndex + 1 ≥ (m.plugins.length : Int) then 0
          else m.selectedIndex + 1 }, []) := by
  simp [Update, h]

theorem Update_enter {W : Type} (env : Env) (m : TypeChooserModel W)
    (plugin : projecttype.Plugin W) (h0 : 0 ≤ m.selectedIndex)
    (hp : m.plugins[m.selectedIndex.toNat]? = some plugin) :
    Update env m (.KeyMsg "enter") = some (.handoff (plugin.NewWizard env), []) := by
  have hl : m.plugins.length ≠ 0 := by
    intro h
    rw [List.length_eq_zero.mp h] at hp
    simp at hp
  simp [Update, hl, h0, hp]

theorem Update_empty {W : Type} (env : Env) (m : TypeChooserModel W) (key : String)
    (h : m.plugins.length = 0) (hkey : key = "up" ∨ key = "down" ∨ key = "enter") :
    Update env m (.KeyMsg key) = some (.self m, []) := by
  rcases hkey with hk | hk | hk <;> subst hk <;> simp [Update, h]

theorem pressAll_index {W : Type} (env : Env) (keys : List String) (m : TypeChooserModel W)
    (hk : m.plugins.length ≠ 0)
    (h0 : 0 ≤ m.selectedIndex) (h1 : m.selectedIndex < (m.plugins.length : Int))
    (hkeys : ∀ key ∈ keys, key = "up" ∨ key = "down") :
    ∃ m1, pressAll env m keys = some m1 ∧ m1.plugins = m.plugins ∧
      m1.selectedIndex =
        (m.selectedIndex + (keys.count "down" : Int) - (keys.count "up" : Int)) %
          (m.plugins.length : Int) := by
  induction keys generalizing m with
  | nil =>
    refine ⟨m, rfl, rfl, ?_⟩
    simp only [List.count_nil, Nat.cast_zero, add_zero, sub_zero]
    exact (Int.emod_eq_of_lt h0 h1).symm
  | cons key rest ih =>
    have hrest : ∀ key ∈ rest, key = "up" ∨ key = "down" :=
      fun k hkm => hkeys k (List.mem_cons_of_mem _ hkm)
    have hpos : (0 : Int) < (m.plugins.length : Int) := by omega
    rcases hkeys key (List.mem_cons_self _ _) with hkey | hkey
    · subst hkey
      have hcd : ((List.count "down" ("up" :: rest) : Nat) : Int) = List.count "down" rest := by
        rw [List.count_cons_of_ne (by decide)]
      have hcu : ((List.count "up" ("up" :: rest) : Nat) : Int) = List.count "up" rest + 1 := by
        rw [List.count_cons_self, Nat.cast_add, Nat.cast_one]
      rw [hcd, hcu]
      by_cases hz : m.selectedIndex - 1 < 0
      · obtain ⟨m1, hp, hpl, hidx⟩ :=
          ih { m with selectedIndex := (m.plugins.length : Int) - 1 } hk (by simp only; omega)
            (by simp only; omega) hrest
        simp only at hpl hidx
        refine ⟨m1, ?_, hpl, ?_⟩
        · simp only [pressAll, Update_up env m hk, if_pos hz]
          exact hp
        · rw [hidx]
          have hshift : (m.plugins.length : Int) - 1 + (List.count "down" rest : Int) -
              (List.count "up" rest : Int) =
              (m.selectedIndex + (List.count "down" rest : Int) -
                ((List.count "up" rest : Int) + 1)) + (m.plugins.length : Int) := by omega
          rw [hshift, Int.add_emod_self]
      · obtain ⟨m1, hp, hpl, hidx⟩ :=
          ih { m with selectedIndex := m.selectedIndex - 1 } hk (by simp only; omega)
            (by simp only; omega) hrest
        simp only at hpl hidx
        refine ⟨m1, ?_, hpl, ?_⟩
        · simp only [pressAll, Update_up env m hk, if_neg hz]
          exact hp
        · rw [hidx]
          have hsame : m.selectedIndex - 1 + (List.count "down" rest : Int) -
              (List.count "up" rest : Int) =
              m.selectedIndex + (List.count "down" rest : Int) -
                ((List.count "up" rest : Int) + 1) := by omega
          rw [hsame]
    · subst hkey
      have hcd : ((List.count "down" ("down" :: rest) : Nat) : Int) =
          List.count "down" rest + 1 := by
        rw [List.count_cons_self, Nat.cast_add, Nat.cast_one]
      have hcu : ((List.count "up" ("down" :: rest) : Nat) : Int) = List.count "up" rest := by
        rw [List.count_cons_of_ne (by decide)]
      rw [hcd, hcu]
      by_cases hz : m.selectedIndex + 1 ≥ (m.plugins.length : Int)
      · obtain ⟨m1, hp, hpl, hidx⟩ :=
          ih { m with selectedIndex := 0 } hk (by simp only; omega)
            (by simp only; omega) hrest
        simp only at hpl hidx
        refine ⟨m1, ?_, hpl, ?_⟩
        · simp only [pressAll, Update_down env m hk, if_pos hz]
          exact hp
        · rw [hidx]
          have hshift : m.selectedIndex + ((List.count "down" rest : Int) + 1) -
              (List.count "up" rest : Int) =
              (0 + (List.count "down" rest : Int) - (List.count "up" rest : Int)) +
                (m.plugins.length : Int) := by omega
          rw [hshift, Int.add_emod_self]
      · obtain ⟨m1, hp, hpl, hidx⟩ :=
          ih { m with selectedIndex := m.selectedIndex + 1 } hk (by simp only; omega)
            (by simp only; omega) hrest
        simp only at hpl hidx
        refine ⟨m1, ?_, hpl, ?_⟩
        · simp only [pressAll, Update_down env m hk, if_neg hz]
          exact hp
        · rw [hidx]
          have hsame : m.selectedIndex + 1 + (List.count "down" rest : Int) -
              (List.count "up" rest : Int) =
              m.selectedIndex + ((List.count "down" rest : Int) + 1) -
                (List.count "up" rest : Int) := by omega
          rw [hsame]

/-- C25: for a type chooser built over `k ≥ 1` registered plugins, after any sequence of
"down" and "up" keys the chooser is still shown, over the same plugins, and its selected
index is `(d - u) mod k`, with `d` the number of "down" keys and `u` that of "up" keys; the
index lies in `[0, k)`, and the enter key then hands off to the wizard that `NewWizard` of
the plugin at that index builds. With no plugin, each of the keys "up", "down" and "enter"
returns the chooser unchanged with no command, whatever its index. -/
theorem selectedIndex_after_keys {W : Type} (env : Env)
    (plugins : List (projecttype.Plugin W)) (keys : List String)
    (hkeys : ∀ key ∈ keys, key = "up" ∨ key = "down") :
    (1 ≤ plugins.length →
      ∃ m1 plugin, pressAll env (NewTypeChooserModel plugins) keys = some m1 ∧
        m1.plugins = plugins ∧
        m1.selectedIndex =
          ((keys.count "down" : Int) - (keys.count "up" : Int)) % (plugins.length : Int) ∧
        0 ≤ m1.selectedIndex ∧ m1.selectedIndex < (plugins.length : Int) ∧
        plugins[m1.selectedIndex.toNat]? = some plugin ∧
        Update env m1 (.KeyMsg "enter") = some (.handoff (plugin.NewWizard env), [])) ∧
    (plugins.length = 0 →
      ∀ (m : TypeChooserModel W) (key : String), m.plugins = plugins →
        key = "up" ∨ key = "down" ∨ key = "enter" →
        Update env m (.KeyMsg key) = some (.self m, [])) := by
  constructor
  · intro hk
    have hpos : (0 : Int) < (plugins.length : Int) := by omega
    obtain ⟨m1, hp, hpl, hidx⟩ :=
      pressAll_index env keys (NewTypeChooserModel plugins)
        (by simp only [NewTypeChooserModel]; omega) (by simp [NewTypeChooserModel])
        (by simp only [NewTypeChooserModel]; omega) hkeys
    simp only [NewTypeChooserModel, zero_add] at hpl hidx
    have h0 : 0 ≤ m1.selectedIndex := by
      rw [hidx]
      exact Int.emod_nonneg _ (by omega)
    have h1 : m1.selectedIndex < (plugins.length : Int) := by
      rw [hidx]
      exact Int.emod_lt_of_pos _ hpos
    have hlt : m1.selectedIndex.toNat < plugins.length := by omega
    refine ⟨m1, plugins[m1.selectedIndex.toNat], hp, hpl, hidx, h0, h1,
      List.getElem?_eq_getElem hlt, ?_⟩
    apply Update_enter env m1 _ h0
    rw [hpl]
    exact List.getElem?_eq_getElem hlt
  · intro hk m key hm hkey
    exact Update_empty env m key (by rw [hm]; exact hk) hkey

/-- Over three plugins, two "up" keys from the first plugin select the second one
(`(0 - 2) mod 3 = 1`), and the enter key hands off to its wizard. -/
theorem selectedIndex_after_keys_witness :
    (∀ key ∈ ["up", "up"], key = "up" ∨ key = "down") ∧
    1 ≤ [goproject.New, sample.otherType, goproject.New].length ∧
    pressAll sample.env
        (NewTypeChooserModel [goproject.New, sample.otherType, goproject.New]) ["up", "up"] =
      some ⟨[goproject.New, sample.otherType, goproject.New], 1⟩ ∧
    Update sample.env ⟨[goproject.New, sample.otherType, goproject.New], 1⟩ (.KeyMsg "enter") =
      some (.handoff (sample.otherType.NewWizard sample.env), []) ∧
    ∃ m1 plugin,
      pressAll sample.env
          (NewTypeChooserModel [goproject.New, sample.otherType, goproject.New])
          ["up", "up"] = some m1 ∧
        m1.plugins = [goproject.New, sample.otherType, goproject.New] ∧
        m1.selectedIndex =
          ((["up", "up"].count "down" : Int) - (["up", "up"].count "up" : Int)) %
            ([goproject.New, sample.otherType, goproject.New].length : Int) ∧
        0 ≤ m1.selectedIndex ∧
        m1.selectedIndex < ([goproject.New, sample.otherType, goproject.New].length : Int) ∧
        [goproject.New, sample.otherType, goproject.New][m1.selectedIndex.toNat]? =
          some plugin ∧
        Update sample.env m1 (.KeyMsg "enter") =
          some (.handoff (plugin.NewWizard sample.env), []) :=
  ⟨by decide, by decide, rfl, rfl,
    (selectedIndex_after_keys sample.env [goproject.New, sample.otherType, goproject.New]
      ["up", "up"] (by decide)).1 (by decide)⟩

end ui
